import Mathlib

/-!
Rendering pipeline of the `vibrant` command

A shallow embedding of `cmd/vibrant/vibrant.go`: the three renderers
(`print_plain`, `print_json`, `print_css`), the helpers `rgb` and `shorthex`,
and the parts of the Go runtime they rest on (string/byte conversion,
`strings.ToLower`, `fmt` verbs, `encoding/json`).

Go strings are embedded as Lean `String`s (sequences of Unicode code points,
i.e. valid UTF-8 text).  Where the program looks at the bytes of a string
(`[]byte(hex)` in `shorthex`) the UTF-8 encoding is made explicit, and
`shorthexBytes` is the same function on an arbitrary byte string.
Text written to standard output is the value returned by a renderer; a
run-time panic (index out of range) is the value `none`.
-/

namespace Vibrant

/-! ## Data model -/

/-- Modelled from the spec: the colour type of the palette library (not part of
the command's source file), an RGB triple with each channel in `[0,255]`. -/
structure Color where
  r : Fin 256
  g : Fin 256
  b : Fin 256
deriving DecidableEq

/-- Modelled from the spec: a swatch of the palette library: its colour, its
population and the title text colour the library derives for that colour
(`sw.Color`, `sw.Population`, `sw.Color.TitleTextColor()` in the source). -/
structure Swatch where
  color : Color
  population : Nat
  titleTextColor : Color
deriving DecidableEq

/-- The entries of `palette.ExtractAwesome()` in the order in which one run of a
`for name, sw := range ...` loop visits them. -/
abbrev Palette := List (String × Swatch)

/-- The package-level flag variables of the command (lines 18-25). -/
structure Flags where
  input_stdin : Bool
  output_json : Bool
  output_css : Bool
  output_compress : Bool
  output_lowercase : Bool
  output_rgb : Bool
deriving DecidableEq

/-! ## Go runtime: strings, bytes, formatting -/

/-- Concatenation of a list of strings, in order. -/
def concat : List String → String
  | [] => ""
  | s :: rest => s ++ concat rest

/-- The UTF-8 encoding of one code point, as a list of byte values. -/
def utf8EncodeRune (c : Char) : List Nat :=
  let v := c.toNat
  if v < 0x80 then [v]
  else if v < 0x800 then [0xC0 + v / 0x40, 0x80 + v % 0x40]
  else if v < 0x10000 then [0xE0 + v / 0x1000, 0x80 + v / 0x40 % 0x40, 0x80 + v % 0x40]
  else [0xF0 + v / 0x40000, 0x80 + v / 0x1000 % 0x40, 0x80 + v / 0x40 % 0x40, 0x80 + v % 0x40]

/-- The conversion `[]byte(s)`: the bytes of the UTF-8 text `s`. -/
def bytesOf (s : String) : List Nat :=
  s.data.flatMap utf8EncodeRune

/-- The conversion `string(b)` of a single byte `b`: the string holding the
code point numbered `b` (two bytes long when `b ≥ 0x80`). -/
def stringOfByte (b : Nat) : String :=
  String.singleton (Char.ofNat b)

/-- The case table behind the Go function `unicode.ToLower` outside ASCII (the
lower-case column of `unicode.CaseRanges`, i.e. the simple lower-case mapping
of the Unicode character database): an entry `(lo, hi, stride, tgt)`
sends the code points `lo`, `lo + stride`, ..., `hi` to `tgt`, `tgt + stride`, ...
Code points in no entry have no lower-case form of their own. -/
def caseRanges : List (Nat × Nat × Nat × Nat) :=
  [(0xC0, 0xD6, 1, 0xE0), (0xD8, 0xDE, 1, 0xF8), (0x100, 0x12E, 2, 0x101),
   (0x130, 0x130, 1, 0x69), (0x132, 0x136, 2, 0x133), (0x139, 0x147, 2, 0x13A),
   (0x14A, 0x176, 2, 0x14B), (0x178, 0x178, 1, 0xFF), (0x179, 0x17D, 2, 0x17A),
   (0x181, 0x181, 1, 0x253), (0x182, 0x184, 2, 0x183), (0x186, 0x186, 1, 0x254),
   (0x187, 0x187, 1, 0x188), (0x189, 0x18A, 1, 0x256), (0x18B, 0x18B, 1, 0x18C),
   (0x18E, 0x18E, 1, 0x1DD), (0x18F, 0x18F, 1, 0x259), (0x190, 0x190, 1, 0x25B),
   (0x191, 0x191, 1, 0x192), (0x193, 0x193, 1, 0x260), (0x194, 0x194, 1, 0x263),
   (0x196, 0x196, 1, 0x269), (0x197, 0x197, 1, 0x268), (0x198, 0x198, 1, 0x199),
   (0x19C, 0x19C, 1, 0x26F), (0x19D, 0x19D, 1, 0x272), (0x19F, 0x19F, 1, 0x275),
   (0x1A0, 0x1A4, 2, 0x1A1), (0x1A6, 0x1A6, 1, 0x280), (0x1A7, 0x1A7, 1, 0x1A8),
   (0x1A9, 0x1A9, 1, 0x283), (0x1AC, 0x1AC, 1, 0x1AD), (0x1AE, 0x1AE, 1, 0x288),
   (0x1AF, 0x1AF, 1, 0x1B0), (0x1B1, 0x1B2, 1, 0x28A), (0x1B3, 0x1B5, 2, 0x1B4),
   (0x1B7, 0x1B7, 1, 0x292), (0x1B8, 0x1B8, 1, 0x1B9), (0x1BC, 0x1BC, 1, 0x1BD),
   (0x1C4, 0x1C4, 1, 0x1C6), (0x1C5, 0x1C5, 1, 0x1C6), (0x1C7, 0x1C7, 1, 0x1C9),
   (0x1C8, 0x1C8, 1, 0x1C9), (0x1CA, 0x1CA, 1, 0x1CC), (0x1CB, 0x1DB, 2, 0x1CC),
   (0x1DE, 0x1EE, 2, 0x1DF), (0x1F1, 0x1F1, 1, 0x1F3), (0x1F2, 0x1F4, 2, 0x1F3),
   (0x1F6, 0x1F6, 1, 0x195), (0x1F7, 0x1F7, 1, 0x1BF), (0x1F8, 0x21E, 2, 0x1F9),
   (0x220, 0x220, 1, 0x19E), (0x222, 0x232, 2, 0x223), (0x23A, 0x23A, 1, 0x2C65),
   (0x23B, 0x23B, 1, 0x23C), (0x23D, 0x23D, 1, 0x19A), (0x23E, 0x23E, 1, 0x2C66),
   (0x241, 0x241, 1, 0x242), (0x243, 0x243, 1, 0x180), (0x244, 0x244, 1, 0x289),
   (0x245, 0x245, 1, 0x28C), (0x246, 0x24E, 2, 0x247), (0x370, 0x372, 2, 0x371),
   (0x376, 0x376, 1, 0x377), (0x37F, 0x37F, 1, 0x3F3), (0x386, 0x386, 1, 0x3AC),
   (0x388, 0x38A, 1, 0x3AD), (0x38C, 0x38C, 1, 0x3CC), (0x38E, 0x38F, 1, 0x3CD),
   (0x391, 0x3A1, 1, 0x3B1), (0x3A3, 0x3AB, 1, 0x3C3), (0x3CF, 0x3CF, 1, 0x3D7),
   (0x3D8, 0x3EE, 2, 0x3D9), (0x3F4, 0x3F4, 1, 0x3B8), (0x3F7, 0x3F7, 1, 0x3F8),
   (0x3F9, 0x3F9, 1, 0x3F2), (0x3FA, 0x3FA, 1, 0x3FB), (0x3FD, 0x3FF, 1, 0x37B),
   (0x400, 0x40F, 1, 0x450), (0x410, 0x42F, 1, 0x430), (0x460, 0x480, 2, 0x461),
   (0x48A, 0x4BE, 2, 0x48B), (0x4C0, 0x4C0, 1, 0x4CF), (0x4C1, 0x4CD, 2, 0x4C2),
   (0x4D0, 0x52E, 2, 0x4D1), (0x531, 0x556, 1, 0x561), (0x10A0, 0x10C5, 1, 0x2D00),
   (0x10C7, 0x10C7, 1, 0x2D27), (0x10CD, 0x10CD, 1, 0x2D2D), (0x13A0, 0x13EF, 1, 0xAB70),
   (0x13F0, 0x13F5, 1, 0x13F8), (0x1C90, 0x1CBA, 1, 0x10D0), (0x1CBD, 0x1CBF, 1, 0x10FD),
   (0x1E00, 0x1E94, 2, 0x1E01), (0x1E9E, 0x1E9E, 1, 0xDF), (0x1EA0, 0x1EFE, 2, 0x1EA1),
   (0x1F08, 0x1F0F, 1, 0x1F00), (0x1F18, 0x1F1D, 1, 0x1F10), (0x1F28, 0x1F2F, 1, 0x1F20),
   (0x1F38, 0x1F3F, 1, 0x1F30), (0x1F48, 0x1F4D, 1, 0x1F40), (0x1F59, 0x1F5F, 2, 0x1F51),
   (0x1F68, 0x1F6F, 1, 0x1F60), (0x1F88, 0x1F8F, 1, 0x1F80), (0x1F98, 0x1F9F, 1, 0x1F90),
   (0x1FA8, 0x1FAF, 1, 0x1FA0), (0x1FB8, 0x1FB9, 1, 0x1FB0), (0x1FBA, 0x1FBB, 1, 0x1F70),
   (0x1FBC, 0x1FBC, 1, 0x1FB3), (0x1FC8, 0x1FCB, 1, 0x1F72), (0x1FCC, 0x1FCC, 1, 0x1FC3),
   (0x1FD8, 0x1FD9, 1, 0x1FD0), (0x1FDA, 0x1FDB, 1, 0x1F76), (0x1FE8, 0x1FE9, 1, 0x1FE0),
   (0x1FEA, 0x1FEB, 1, 0x1F7A), (0x1FEC, 0x1FEC, 1, 0x1FE5), (0x1FF8, 0x1FF9, 1, 0x1F78),
   (0x1FFA, 0x1FFB, 1, 0x1F7C), (0x1FFC, 0x1FFC, 1, 0x1FF3), (0x2126, 0x2126, 1, 0x3C9),
   (0x212A, 0x212A, 1, 0x6B), (0x212B, 0x212B, 1, 0xE5), (0x2132, 0x2132, 1, 0x214E),
   (0x2160, 0x216F, 1, 0x2170), (0x2183, 0x2183, 1, 0x2184), (0x24B6, 0x24CF, 1, 0x24D0),
   (0x2C00, 0x2C2F, 1, 0x2C30), (0x2C60, 0x2C60, 1, 0x2C61), (0x2C62, 0x2C62, 1, 0x26B),
   (0x2C63, 0x2C63, 1, 0x1D7D), (0x2C64, 0x2C64, 1, 0x27D), (0x2C67, 0x2C6B, 2, 0x2C68),
   (0x2C6D, 0x2C6D, 1, 0x251), (0x2C6E, 0x2C6E, 1, 0x271), (0x2C6F, 0x2C6F, 1, 0x250),
   (0x2C70, 0x2C70, 1, 0x252), (0x2C72, 0x2C72, 1, 0x2C73), (0x2C75, 0x2C75, 1, 0x2C76),
   (0x2C7E, 0x2C7F, 1, 0x23F), (0x2C80, 0x2CE2, 2, 0x2C81), (0x2CEB, 0x2CED, 2, 0x2CEC),
   (0x2CF2, 0x2CF2, 1, 0x2CF3), (0xA640, 0xA66C, 2, 0xA641), (0xA680, 0xA69A, 2, 0xA681),
   (0xA722, 0xA72E, 2, 0xA723), (0xA732, 0xA76E, 2, 0xA733), (0xA779, 0xA77B, 2, 0xA77A),
   (0xA77D, 0xA77D, 1, 0x1D79), (0xA77E, 0xA786, 2, 0xA77F), (0xA78B, 0xA78B, 1, 0xA78C),
   (0xA78D, 0xA78D, 1, 0x265), (0xA790, 0xA792, 2, 0xA791), (0xA796, 0xA7A8, 2, 0xA797),
   (0xA7AA, 0xA7AA, 1, 0x266), (0xA7AB, 0xA7AB, 1, 0x25C), (0xA7AC, 0xA7AC, 1, 0x261),
   (0xA7AD, 0xA7AD, 1, 0x26C), (0xA7AE, 0xA7AE, 1, 0x26A), (0xA7B0, 0xA7B0, 1, 0x29E),
   (0xA7B1, 0xA7B1, 1, 0x287), (0xA7B2, 0xA7B2, 1, 0x29D), (0xA7B3, 0xA7B3, 1, 0xAB53),
   (0xA7B4, 0xA7C2, 2, 0xA7B5), (0xA7C4, 0xA7C4, 1, 0xA794), (0xA7C5, 0xA7C5, 1, 0x282),
   (0xA7C6, 0xA7C6, 1, 0x1D8E), (0xA7C7, 0xA7C9, 2, 0xA7C8), (0xA7D0, 0xA7D0, 1, 0xA7D1),
   (0xA7D6, 0xA7D8, 2, 0xA7D7), (0xA7F5, 0xA7F5, 1, 0xA7F6), (0xFF21, 0xFF3A, 1, 0xFF41),
   (0x10400, 0x10427, 1, 0x10428), (0x104B0, 0x104D3, 1, 0x104D8),
   (0x10570, 0x1057A, 1, 0x10597), (0x1057C, 0x1058A, 1, 0x105A3),
   (0x1058C, 0x10592, 1, 0x105B3), (0x10594, 0x10595, 1, 0x105BB),
   (0x10C80, 0x10CB2, 1, 0x10CC0), (0x118A0, 0x118BF, 1, 0x118C0),
   (0x16E40, 0x16E5F, 1, 0x16E60), (0x1E900, 0x1E921, 1, 0x1E922)]

/-- Look-up of a code point in a case table: the first entry that holds it
decides, a code point in no entry is kept. -/
def toLowerTable : List (Nat × Nat × Nat × Nat) → Nat → Nat
  | [], n => n
  | (lo, hi, stride, tgt) :: rest, n =>
    if lo ≤ n ∧ n ≤ hi ∧ (n - lo) % stride = 0 then tgt + (n - lo) else toLowerTable rest n

/-- The Go function `unicode.ToLower`: `A`-`Z` go to `a`-`z`, any other ASCII
character is kept, and a character outside ASCII is looked up in the case
table (`É` goes to `é`, the Kelvin sign U+212A to `k`, `İ` to `i`, `Σ` to `σ`). -/
def toLowerRune (c : Char) : Char :=
  if c.toNat < 128 then c.toLower else Char.ofNat (toLowerTable caseRanges c.toNat)

/-- The Go function `strings.ToLower` on valid UTF-8 text: every character is
mapped by `unicode.ToLower`. -/
def ToLower (s : String) : String :=
  ⟨s.data.map toLowerRune⟩

/-- Follows the words of the specification ("ASCII-lowercased"): the letters
`A`-`Z` go to `a`-`z`, every other character, ASCII or not, is kept.  Used only to
compare the program with these words. -/
def asciiLower (s : String) : String :=
  ⟨s.data.map Char.toLower⟩

/-- The verb `%d` of package `fmt` on an `int`. -/
def fmtD : Int → String
  | Int.ofNat m => Nat.repr m
  | Int.negSucc m => "-" ++ Nat.repr (m + 1)

/-- The verb `% 12s` of package `fmt`: the string right-justified in a field
of 12 characters, padded on the left with spaces, never truncated (the space
flag has no effect on `%s`). -/
def fmtS12 (s : String) : String :=
  ⟨List.replicate (12 - s.length) ' '⟩ ++ s

/-! ## Palette library -/

/-- The lower-case hexadecimal digit of a value below 16. -/
def hexDigit (n : Nat) : Char :=
  if n < 10 then Char.ofNat (48 + n) else Char.ofNat (87 + n)

/-- Two hexadecimal digits of a channel value. -/
def hex2 (n : Nat) : String :=
  ⟨[hexDigit (n / 16 % 16), hexDigit (n % 16)]⟩

/-- Modelled from the spec: `Color.RGBHex()` of the palette library, the hex
form `#rrggbb`, two hex digits per channel, always 7 characters; the digits
are lower case, as in the plain renderer's example of the spec. -/
def Color.RGBHex (c : Color) : String :=
  "#" ++ hex2 c.r.val ++ hex2 c.g.val ++ hex2 c.b.val

/-- Modelled from the spec: `Color.RGB()` of the palette library, the three
channels as `int`s, in the order red, green, blue. -/
def Color.RGB (c : Color) : List Int :=
  [(c.r.val : Int), (c.g.val : Int), (c.b.val : Int)]

/-! ## The command: `rgb` and `shorthex` -/

/-- Source lines 119-121 (`rgb`): the variadic argument is indexed at 0, 1, 2
and formatted with `rgb(%d,%d,%d)`; a missing index is a panic. -/
def rgb (r : List Int) : Option String := do
  let r0 ← r[0]?
  let r1 ← r[1]?
  let r2 ← r[2]?
  pure ("rgb(" ++ fmtD r0 ++ "," ++ fmtD r1 ++ "," ++ fmtD r2 ++ ")")

/-- Source lines 159-165 (`shorthex`): the bytes of `hex` are compared pairwise
at indices (1,2), (3,4), (5,6), left to right with the short-circuit of `&&`;
an index past the end is a panic. -/
def shorthex (hex : String) : Option String := do
  let x := bytesOf hex
  let x1 ← x[1]?
  let x2 ← x[2]?
  if x1 = x2 then
    let x3 ← x[3]?
    let x4 ← x[4]?
    if x3 = x4 then
      let x5 ← x[5]?
      let x6 ← x[6]?
      if x5 = x6 then
        pure ("#" ++ stringOfByte x1 ++ stringOfByte x3 ++ stringOfByte x5)
      else pure hex
    else pure hex
  else pure hex

/-- Source lines 159-165 (`shorthex`) on an arbitrary Go string, given by its bytes
(a Go string need not be valid UTF-8): the same comparisons, in the same order, as in
`shorthex`; the result `"#" + string(x[1]) + string(x[3]) + string(x[5])` is given by
its bytes, `string(b)` being the UTF-8 text of the code point numbered `b`. -/
def shorthexBytes (x : List Nat) : Option (List Nat) := do
  let x1 ← x[1]?
  let x2 ← x[2]?
  if x1 = x2 then
    let x3 ← x[3]?
    let x4 ← x[4]?
    if x3 = x4 then
      let x5 ← x[5]?
      let x6 ← x[6]?
      if x5 = x6 then
        pure (bytesOf "#" ++ bytesOf (stringOfByte x1) ++ bytesOf (stringOfByte x3)
          ++ bytesOf (stringOfByte x5))
      else pure x
    else pure x
  else pure x

/-! ## The command: CSS renderer -/

/-- Source lines 135-143: the two colour literals of a swatch, functional or
hex according to `output_rgb`. -/
def css_literals (f : Flags) (sw : Swatch) : Option (String × String) :=
  if f.output_rgb then do
    let bgcolor ← rgb sw.color.RGB
    let fgcolor ← rgb sw.titleTextColor.RGB
    pure (bgcolor, fgcolor)
  else
    pure (sw.color.RGBHex, sw.titleTextColor.RGBHex)

/-- Source lines 144-148: a string after the optional lower-casing step. -/
def css_case (f : Flags) (s : String) : String :=
  if f.output_lowercase then ToLower s else s

/-- Source lines 149-152: a colour literal after the optional shorthand step. -/
def css_short (f : Flags) (lit : String) : Option String :=
  if f.output_compress && !f.output_rgb then shorthex lit else pure lit

/-- Source lines 124-133 and 153-155: the three `Printf` calls of one loop
iteration, with the layout strings `sp`, `lf`, `tb`, `sc` chosen by
`output_compress`. -/
def css_printf (f : Flags) (name bgcolor fgcolor : String) : String :=
  let sp := if f.output_compress then "" else " "
  let lf := if f.output_compress then "" else "\n"
  let tb := if f.output_compress then "" else "  "
  let sc := if f.output_compress then "" else ";"
  ("." ++ name ++ sp ++ "\x7b" ++ lf)
    ++ (tb ++ "background-color:" ++ sp ++ bgcolor ++ ";" ++ lf)
    ++ (tb ++ "color:" ++ sp ++ fgcolor ++ sc ++ lf ++ "\x7d" ++ lf)

/-- Source lines 134-156: the text one loop iteration of `print_css` writes. -/
def css_rule (f : Flags) (name : String) (sw : Swatch) : Option String := do
  let lits ← css_literals f sw
  let bgcolor ← css_short f (css_case f lits.1)
  let fgcolor ← css_short f (css_case f lits.2)
  pure (css_printf f (css_case f name) bgcolor fgcolor)

/-- Source lines 123-157 (`print_css`): the text written to standard output. -/
def print_css (f : Flags) : Palette → Option String
  | [] => some ""
  | (name, sw) :: rest => do
    let block ← css_rule f name sw
    let tail ← print_css f rest
    pure (block ++ tail)

/-! ## The command: plain renderer -/

/-- Source line 169: the line one loop iteration of `print_plain` writes. -/
def plain_line (name : String) (sw : Swatch) : String :=
  fmtS12 name ++ ": " ++ sw.color.RGBHex ++ ", population: "
    ++ fmtD (sw.population : Int) ++ "\n"

/-- Source lines 167-171 (`print_plain`): the text written to standard output.
No flag is consulted. -/
def print_plain (_f : Flags) : Palette → String
  | [] => ""
  | (name, sw) :: rest => plain_line name sw ++ print_plain _f rest

/-! ## Go runtime: `encoding/json` -/

/-- A scalar the encoder meets in this program: an `int` or a `string`. -/
inductive JLeaf where
  | num (n : Int)
  | str (s : String)
deriving DecidableEq

/-- The encoding of one code point inside a JSON string literal, as
`encoding/json` writes it with HTML escaping on (the default of
`json.Marshal`): quote and backslash are backslash-escaped, the control
characters have their short or `\u00xx` escapes, `<`, `>`, `&` and the line
separators U+2028/U+2029 are written as `\u` escapes, everything else is kept. -/
def jsonEscapeRune (c : Char) : List Char :=
  if c = '"' then ['\\', '"']
  else if c = '\\' then ['\\', '\\']
  else if c = '\x08' then ['\\', 'b']
  else if c = '\x0c' then ['\\', 'f']
  else if c = '\n' then ['\\', 'n']
  else if c = '\r' then ['\\', 'r']
  else if c = '\t' then ['\\', 't']
  else if c.toNat < 0x20 ∨ c = '<' ∨ c = '>' ∨ c = '&' then
    ['\\', 'u', '0', '0', hexDigit (c.toNat / 16 % 16), hexDigit (c.toNat % 16)]
  else if c = Char.ofNat 0x2028 ∨ c = Char.ofNat 0x2029 then
    ['\\', 'u', '2', '0', '2', hexDigit (c.toNat % 16)]
  else [c]

/-- A Go string as a JSON string literal. -/
def jsonQuote (s : String) : String :=
  "\"" ++ ⟨s.data.flatMap jsonEscapeRune⟩ ++ "\""

/-- The encoding of a scalar. -/
def JLeaf.encode : JLeaf → String
  | JLeaf.num n => fmtD n
  | JLeaf.str s => jsonQuote s

/-- The members of an object separated by `sep`, each written as its quoted
key, `colon`, and its value; `ind` is put before every member. -/
def jsonMembers {α : Type} (enc : α → String) (ind colon sep : String) :
    List (String × α) → String
  | [] => ""
  | [(k, v)] => ind ++ jsonQuote k ++ colon ++ enc v
  | (k, v) :: rest =>
    ind ++ jsonQuote k ++ colon ++ enc v ++ sep ++ jsonMembers enc ind colon sep rest

/-- The compact encoding of an inner object (what `json.Marshal` writes). -/
def jsonInnerCompact (ms : List (String × JLeaf)) : String :=
  "\x7b" ++ jsonMembers JLeaf.encode "" ":" "," ms ++ "\x7d"

/-- The indented encoding of an inner object at nesting depth 1, as
`json.MarshalIndent(_, "", "  ")` lays it out. -/
def jsonInnerIndent (ms : List (String × JLeaf)) : String :=
  match ms with
  | [] => "\x7b\x7d"
  | _ => "\x7b\n" ++ jsonMembers JLeaf.encode "    " ": " ",\n" ms ++ "\n  \x7d"

/-- The Go function `json.Marshal` on an object of objects. -/
def Marshal (out : List (String × List (String × JLeaf))) : String :=
  "\x7b" ++ jsonMembers jsonInnerCompact "" ":" "," out ++ "\x7d"

/-- The Go function `json.MarshalIndent` with prefix `""` and indent `"  "` on
an object of objects: an empty object is `{}`, otherwise one member per line. -/
def MarshalIndent (out : List (String × List (String × JLeaf))) : String :=
  match out with
  | [] => "\x7b\x7d"
  | _ => "\x7b\n" ++ jsonMembers jsonInnerIndent "  " ": " ",\n" out ++ "\n\x7d"

/-- The order `<` of Go strings on the code points of two texts: lexicographic,
a proper prefix first (for UTF-8 texts this is the byte order Go compares by). -/
def ltChars : List Char → List Char → Bool
  | _, [] => false
  | [], _ :: _ => true
  | a :: as, b :: bs =>
    if a.toNat < b.toNat then true
    else if a.toNat = b.toNat then ltChars as bs
    else false

/-- A Go `map[string]V` in the form the JSON encoder reads it: an association
list with distinct keys, sorted by key (the encoder writes the members of a
map in key order).  `mapSet m k v` is `m[k] = v`. -/
def mapSet {α : Type} (m : List (String × α)) (k : String) (v : α) : List (String × α) :=
  match m with
  | [] => [(k, v)]
  | (k1, v1) :: rest =>
    if ltChars k.data k1.data then (k, v) :: (k1, v1) :: rest
    else if k = k1 then (k, v) :: rest
    else (k1, v1) :: mapSet rest k v

/-! ## The command: JSON renderer -/

/-- Source lines 96-101: the value stored under a swatch name, as the members
the encoder writes for it: the map `r`, `g`, `b` with its keys sorted, or the
struct `swatch` with its fields `Color`, `Text` in declaration order. -/
def json_value (f : Flags) (sw : Swatch) : List (String × JLeaf) :=
  if f.output_rgb then
    match sw.color.RGB with
    | [r, g, b] =>
      mapSet (mapSet (mapSet [] "r" (JLeaf.num r)) "g" (JLeaf.num g)) "b" (JLeaf.num b)
    | _ => []
  else
    [("Color", JLeaf.str sw.color.RGBHex), ("Text", JLeaf.str sw.titleTextColor.RGBHex)]

/-- Source lines 94-102: the map `out` after the loop over the palette. -/
def json_out (f : Flags) (palette : Palette) : List (String × List (String × JLeaf)) :=
  palette.foldl (fun out e => mapSet out e.1 (json_value f e.2)) []

/-- Source lines 103-115: the string `str` handed to `fmt.Println`. -/
def json_str (f : Flags) (palette : Palette) : String :=
  let b := if f.output_compress then Marshal (json_out f palette)
    else MarshalIndent (json_out f palette)
  if f.output_lowercase then ToLower b else b

/-- Source lines 93-117 (`print_json`): the text written to standard output. -/
def print_json (f : Flags) (palette : Palette) : String :=
  json_str f palette ++ "\n"

/-! ## The command: `main` -/

/-- What the outside world gives one invocation: the first positional argument
(`flag.Arg(0)`), whether `os.Open` and `image.Decode` return an error, and the
result of `vibrant.NewPaletteFromImage` (`none` for an error or a panic) on
the decoded image and on a nil image. -/
structure World where
  arg0 : String
  open_err : Bool
  decode_err : Bool
  palette : Option Palette
  palette_nil : Option Palette

/-- How an invocation ends: the usage text on standard error and `os.Exit(2)`;
a panic (`log.Panicln` of an error, or a run-time panic); or a normal return
after a renderer wrote its text to standard output. -/
inductive Outcome where
  | usage
  | panic
  | printed (out : String)
deriving DecidableEq

/-- The exit status of the process (an unrecovered Go panic exits with 2). -/
def Outcome.exitCode : Outcome → Nat
  | Outcome.usage => 2
  | Outcome.panic => 2
  | Outcome.printed _ => 0

/-- The text the renderers wrote to standard output. -/
def Outcome.stdout : Outcome → String
  | Outcome.printed out => out
  | _ => ""

/-- Source lines 27-34 (`usage`): usage text and flag defaults go to standard
error, then the process exits with status 2. -/
def usage : Outcome :=
  Outcome.usage

/-- Source lines 36-40 (`checkErr`): a non-nil error is a panic, otherwise the
run goes on. -/
def checkErr (err : Bool) (next : Outcome) : Outcome :=
  if err then Outcome.panic else next

/-- Source lines 76-85: the `switch` of `main` that picks the renderer. -/
def dispatch (f : Flags) (palette : Palette) : Outcome :=
  if f.output_json && f.output_css then usage
  else if f.output_json then Outcome.printed (print_json f palette)
  else if f.output_css then
    match print_css f palette with
    | some out => Outcome.printed out
    | none => Outcome.panic
  else Outcome.printed (print_plain f palette)

/-- Source lines 73-85: palette extraction, its error check, and the switch. -/
def render (f : Flags) (extracted : Option Palette) : Outcome :=
  match extracted with
  | none => Outcome.panic
  | some palette => dispatch f palette

/-- Source lines 42-86 (`main`).  With `-i` the image is decoded from standard
input and the error of `image.Decode` is checked at line 71.  Otherwise an empty
file name is a usage error and the error of `os.Open` is checked at line 66;
the `err` assigned by `image.Decode` at line 68 is the one declared with `:=`
at line 65, not the `err` of line 55 that line 71 checks, so a decode error
goes on with a nil image. -/
def main (f : Flags) (w : World) : Outcome :=
  if f.input_stdin then
    checkErr w.decode_err (render f w.palette)
  else if w.arg0 = "" then usage
  else
    checkErr w.open_err
      (checkErr false (render f (if w.decode_err then w.palette_nil else w.palette)))

/-! ## Reading the output back -/

/-- The three-digit form read back: a 4-byte string `#rgb` stands for `#rrggbb`,
any other string for itself. -/
def expandShort (s : String) : String :=
  match s.data with
  | [c0, c1, c2, c3] =>
    if c0 = '#' ∧ (bytesOf s).length = 4 then ⟨[c0, c1, c1, c2, c2, c3, c3]⟩ else s
  | _ => s


/-- Where a reader of JSON text stands: between tokens, inside a string
literal, or right after a backslash inside a string literal. -/
inductive JsonPos where
  | outside
  | inString
  | escaped
deriving DecidableEq

/-- The characters of a JSON text with the whitespace (space, newline, tab,
carriage return) that lies outside string literals deleted; the reader starts
in the given position. -/
def jsonStripFrom : JsonPos → List Char → List Char
  | _, [] => []
  | JsonPos.outside, c :: cs =>
    if c = '"' then c :: jsonStripFrom JsonPos.inString cs
    else if c = ' ' ∨ c = '\n' ∨ c = '\t' ∨ c = '\r' then jsonStripFrom JsonPos.outside cs
    else c :: jsonStripFrom JsonPos.outside cs
  | JsonPos.inString, c :: cs =>
    if c = '\\' then c :: jsonStripFrom JsonPos.escaped cs
    else if c = '"' then c :: jsonStripFrom JsonPos.outside cs
    else c :: jsonStripFrom JsonPos.inString cs
  | JsonPos.escaped, c :: cs => c :: jsonStripFrom JsonPos.inString cs

/-- A JSON text with its inter-token whitespace deleted. -/
def jsonStrip (s : String) : String :=
  ⟨jsonStripFrom JsonPos.outside s.data⟩

/-- The whitespace a reader of the CSS output skips. -/
def cssSpace (c : Char) : Bool :=
  c = ' ' || c = '\n' || c = '\t' || c = '\r'

/-- The text without its trailing whitespace. -/
def trimRight (cs : List Char) : List Char :=
  (cs.reverse.dropWhile cssSpace).reverse

/-- The text after the expected token, when the text starts with it. -/
def expect : List Char → List Char → Option (List Char)
  | [], cs => some cs
  | _ :: _, [] => none
  | a :: as, c :: cs => if a = c then expect as cs else none

/-- Where a reader of the CSS output stands: between two rules; inside a selector,
after its `.`; before character `i` of the property name of the first or of the
second declaration; at or inside the value of the first or of the second
declaration; after the `;` that ends the second declaration. -/
inductive CssPos where
  | start
  | selector
  | property (second : Bool) (i : Nat)
  | value (second : Bool)
  | close
deriving DecidableEq

/-- The state of the reader: its position, the characters of the selector or value
it is reading, the selector and the first value of the rule it is in, and the rules
read so far. -/
structure CssReader where
  pos : CssPos
  acc : List Char
  sel : List Char
  bg : List Char
  rules : List (String × String × String)

/-- The property names of the two declarations of a rule, colon included. -/
def cssProperty (second : Bool) : List Char :=
  if second then ['c', 'o', 'l', 'o', 'r', ':']
  else ['b', 'a', 'c', 'k', 'g', 'r', 'o', 'u', 'n', 'd', '-', 'c', 'o', 'l', 'o', 'r', ':']

/-- The reader at the closing brace of a rule: the rule (selector, background
colour, text colour, a `#rgb` literal read as `#rrggbb`) joins the rules read so
far and the reader stands between two rules again. -/
def CssReader.finish (r : CssReader) : CssReader :=
  ⟨CssPos.start, [], [], [], r.rules ++ [(⟨r.sel⟩, expandShort ⟨r.bg⟩, expandShort ⟨r.acc⟩)]⟩

/-- One character read.  A rule is `.name { background-color: BG; color: FG }`:
whitespace may stand before and after a rule, after the opening brace, after a
colon and after a `;`; the `;` of the second declaration may be left out; the
selector is the text between `.` and the first opening brace, without its trailing
whitespace; a value is a non-empty run of characters other than whitespace, braces
and `;`.  Any other character at any other place is an error (`none`). -/
def cssStep (r : CssReader) (c : Char) : Option CssReader :=
  match r.pos with
  | CssPos.start =>
    if cssSpace c then some r
    else if c = '.' then some ⟨CssPos.selector, [], [], [], r.rules⟩
    else none
  | CssPos.selector =>
    if c = '\x7b' then some ⟨CssPos.property false 0, [], trimRight r.acc, [], r.rules⟩
    else some ⟨CssPos.selector, r.acc ++ [c], r.sel, r.bg, r.rules⟩
  | CssPos.property second i =>
    if i = 0 ∧ cssSpace c = true then some r
    else if (cssProperty second)[i]? = some c then
      if i + 1 = (cssProperty second).length then
        some ⟨CssPos.value second, [], r.sel, r.bg, r.rules⟩
      else some ⟨CssPos.property second (i + 1), r.acc, r.sel, r.bg, r.rules⟩
    else none
  | CssPos.value second =>
    if cssSpace c then (if r.acc = [] then some r else none)
    else if c = '\x7b' then none
    else if c = ';' then
      if r.acc = [] then none
      else if second then some ⟨CssPos.close, r.acc, r.sel, r.bg, r.rules⟩
      else some ⟨CssPos.property true 0, [], r.sel, r.acc, r.rules⟩
    else if c = '\x7d' then
      if second = true ∧ r.acc ≠ [] then some r.finish else none
    else some ⟨CssPos.value second, r.acc ++ [c], r.sel, r.bg, r.rules⟩
  | CssPos.close =>
    if cssSpace c then some r
    else if c = '\x7d' then some r.finish
    else none

/-- The reader run over a text, character after character. -/
def cssRun (r : CssReader) : List Char → Option CssReader
  | [] => some r
  | c :: cs => (cssStep r c).bind fun r1 => cssRun r1 cs

/-- A CSS output parsed back into its list of (selector name, background
colour, text colour) triples; `none` when the text is not a sequence of rules of
the form above. -/
def parseCss (s : String) : Option (List (String × String × String)) :=
  (cssRun ⟨CssPos.start, [], [], [], []⟩ s.data).bind fun r =>
    if r.pos = CssPos.start then some r.rules else none

/-- The value of a run of decimal digits, most significant first. -/
def parseDec (ds : List Char) : Nat :=
  ds.foldl (fun acc c => acc * 10 + (c.toNat - 48)) 0

/-- A functional colour literal `rgb(r,g,b)` read back: the three numbers between
`rgb(`, the two commas and the closing parenthesis, when each of them is a
non-empty run of decimal digits and nothing follows the parenthesis. -/
def parseRgb (s : String) : Option (Nat × Nat × Nat) := do
  let cs ← expect "rgb(".data s.data
  let r := cs.span Char.isDigit
  let cs1 ← expect [','] r.2
  let g := cs1.span Char.isDigit
  let cs2 ← expect [','] g.2
  let b := cs2.span Char.isDigit
  let cs3 ← expect [')'] b.2
  if r.1 ≠ [] ∧ g.1 ≠ [] ∧ b.1 ≠ [] ∧ cs3 = [] then
    pure (parseDec r.1, parseDec g.1, parseDec b.1)
  else none

/-! # Properties -/

theorem utf8EncodeRune_cases (c : Char) :
    (utf8EncodeRune c = [c.toNat] ∧ c.toNat < 128) ∨
    ∃ b0 b1 tl, utf8EncodeRune c = b0 :: b1 :: tl ∧ 192 ≤ b0 ∧ 128 ≤ b1 ∧ b1 < 192 := by
  unfold utf8EncodeRune
  by_cases h1 : c.toNat < 0x80
  · left; simp [h1]
  · right
    by_cases h2 : c.toNat < 0x800
    · exact ⟨_, _, _, by simp only [h1, h2, if_true, if_false]; rfl, by omega, by omega, by omega⟩
    · by_cases h3 : c.toNat < 0x10000
      · exact ⟨_, _, _, by simp only [h1, h2, h3, if_true, if_false]; rfl, by omega, by omega, by omega⟩
      · exact ⟨_, _, _, by simp only [h1, h2, h3, if_false]; rfl, by omega, by omega, by omega⟩

theorem flatMap_utf8_head (cs : List Char) (a : Nat) (rest : List Nat) (ha : a < 192)
    (h : cs.flatMap utf8EncodeRune = a :: rest) :
    a < 128 ∧ ∃ c cs1, cs = c :: cs1 ∧ c.toNat = a ∧ cs1.flatMap utf8EncodeRune = rest := by
  cases cs with
  | nil => simp at h
  | cons c cs1 =>
    rw [List.flatMap_cons] at h
    rcases utf8EncodeRune_cases c with ⟨he, hlt⟩ | ⟨b0, b1, tl, he, hb0, _, _⟩
    · rw [he] at h
      simp only [List.singleton_append, List.cons.injEq] at h
      exact ⟨by omega, c, cs1, rfl, h.1, h.2⟩
    · rw [he] at h
      simp only [List.cons_append, List.cons.injEq] at h
      omega

theorem flatMap_utf8_pair (cs : List Char) (a : Nat) (rest : List Nat)
    (h : cs.flatMap utf8EncodeRune = a :: a :: rest) :
    a < 128 ∧ ∃ c cs1, cs = c :: c :: cs1 ∧ c.toNat = a ∧ cs1.flatMap utf8EncodeRune = rest := by
  cases cs with
  | nil => simp at h
  | cons c cs1 =>
    rw [List.flatMap_cons] at h
    rcases utf8EncodeRune_cases c with ⟨he, hlt⟩ | ⟨b0, b1, tl, he, hb0, hb1, hb1u⟩
    · rw [he] at h
      simp only [List.singleton_append, List.cons.injEq] at h
      obtain ⟨hca, h2⟩ := h
      obtain ⟨_, c2, cs2, hcs, hc2, hrest⟩ := flatMap_utf8_head cs1 a rest (by omega) h2
      have : c2 = c := by
        apply Char.ext; apply UInt32.ext
        show c2.toNat = c.toNat
        omega
      subst this
      exact ⟨by omega, c2, cs2, by rw [hcs], hca, hrest⟩
    · rw [he] at h
      simp only [List.cons_append, List.cons.injEq] at h
      omega

theorem flatMap_utf8_nil (cs : List Char) (h : cs.flatMap utf8EncodeRune = []) : cs = [] := by
  cases cs with
  | nil => rfl
  | cons c cs1 =>
    rw [List.flatMap_cons] at h
    rcases utf8EncodeRune_cases c with ⟨he, _⟩ | ⟨b0, b1, tl, he, _⟩ <;> rw [he] at h <;> simp at h

theorem char_ofNat_toNat (c : Char) : Char.ofNat c.toNat = c :=
  Char.ofNat_toNat c

theorem char_toNat_ofNat_small : ∀ n : Fin 128, (Char.ofNat n.val).toNat = n.val := by
  decide

theorem utf8EncodeRune_ascii (c : Char) (h : c.toNat < 128) : utf8EncodeRune c = [c.toNat] := by
  simp [utf8EncodeRune, h]

theorem shorthex_eval (h : String) (d1 d2 d3 d4 d5 d6 : Nat) (rest : List Nat) (d0 : Nat)
    (hb : bytesOf h = d0 :: d1 :: d2 :: d3 :: d4 :: d5 :: d6 :: rest) :
    shorthex h = if d1 = d2 ∧ d3 = d4 ∧ d5 = d6
      then some ("#" ++ stringOfByte d1 ++ stringOfByte d3 ++ stringOfByte d5) else some h := by
  simp only [shorthex, hb]
  by_cases h1 : d1 = d2 <;> by_cases h2 : d3 = d4 <;> by_cases h3 : d5 = d6 <;>
    simp [h1, h2, h3]

theorem shorthex_hash7 (h : String) (d1 d2 d3 d4 d5 d6 : Nat)
    (hb : bytesOf h = [0x23, d1, d2, d3, d4, d5, d6])
    (heq : d1 = d2 ∧ d3 = d4 ∧ d5 = d6) :
    ∃ c1 c3 c5 : Char, c1.toNat = d1 ∧ c3.toNat = d3 ∧ c5.toNat = d5 ∧
      d1 < 128 ∧ d3 < 128 ∧ d5 < 128 ∧
      h = ⟨['#', c1, c1, c3, c3, c5, c5]⟩ ∧ shorthex h = some ⟨['#', c1, c3, c5]⟩ := by
  obtain ⟨e1, e2, e3⟩ := heq
  subst e1 e2 e3
  have hs := shorthex_eval h _ _ _ _ _ _ _ _ hb
  unfold bytesOf at hb
  obtain ⟨_, c0, cs0, hcs0, hc0, hb0⟩ := flatMap_utf8_head _ _ _ (by norm_num) hb
  obtain ⟨l1, c1, cs1, hcs1, hc1, hb1⟩ := flatMap_utf8_pair _ _ _ hb0
  obtain ⟨l3, c3, cs3, hcs3, hc3, hb3⟩ := flatMap_utf8_pair _ _ _ hb1
  obtain ⟨l5, c5, cs5, hcs5, hc5, hb5⟩ := flatMap_utf8_pair _ _ _ hb3
  have hnil := flatMap_utf8_nil _ hb5
  have h0 : c0 = '#' := by
    apply Char.ext; apply UInt32.ext
    show c0.toNat = 0x23
    exact hc0
  subst hnil hcs5 hcs3 hcs1 h0
  refine ⟨c1, c3, c5, hc1, hc3, hc5, l1, l3, l5, ?_, ?_⟩
  · apply String.ext; exact hcs0
  · rw [hs]
    simp only [and_self, if_true, stringOfByte, ← hc1, ← hc3, ← hc5, char_ofNat_toNat]
    rfl

theorem shorthexBytes_eval (d0 d1 d2 d3 d4 d5 d6 : Nat) (rest : List Nat) :
    shorthexBytes (d0 :: d1 :: d2 :: d3 :: d4 :: d5 :: d6 :: rest) =
      if d1 = d2 ∧ d3 = d4 ∧ d5 = d6
      then some (bytesOf "#" ++ bytesOf (stringOfByte d1) ++ bytesOf (stringOfByte d3)
        ++ bytesOf (stringOfByte d5))
      else some (d0 :: d1 :: d2 :: d3 :: d4 :: d5 :: d6 :: rest) := by
  simp only [shorthexBytes]
  by_cases h1 : d1 = d2 <;> by_cases h2 : d3 = d4 <;> by_cases h3 : d5 = d6 <;>
    simp [h1, h2, h3]

theorem bytesOf_append (a b : String) : bytesOf (a ++ b) = bytesOf a ++ bytesOf b := by
  simp [bytesOf, String.data_append]

theorem bytesOf_stringOfByte (d : Nat) :
    bytesOf (stringOfByte d) = utf8EncodeRune (Char.ofNat d) := by
  simp [bytesOf, stringOfByte, String.singleton]

/-- The byte-level function agrees with `shorthex` on every text. -/
theorem shorthex_bytes (h : String) : (shorthex h).map bytesOf = shorthexBytes (bytesOf h) := by
  simp only [shorthex, shorthexBytes]
  cases (bytesOf h)[1]? <;> cases (bytesOf h)[2]? <;> cases (bytesOf h)[3]? <;>
    cases (bytesOf h)[4]? <;> cases (bytesOf h)[5]? <;> cases (bytesOf h)[6]? <;>
    simp only [Option.pure_def, Option.bind_eq_bind, Option.some_bind, Option.none_bind,
      Option.map_none', Option.map_some'] <;>
    split_ifs <;>
    simp only [Option.pure_def, Option.bind_eq_bind, Option.some_bind, Option.none_bind,
      Option.map_none', Option.map_some', bytesOf_append]

theorem utf8EncodeRune_length (c : Char) :
    1 ≤ (utf8EncodeRune c).length ∧
      ((utf8EncodeRune c).length = 1 → utf8EncodeRune c = [c.toNat] ∧ c.toNat < 128) := by
  rcases utf8EncodeRune_cases c with ⟨he, hlt⟩ | ⟨b0, b1, tl, he, _⟩
  · rw [he]; exact ⟨by simp, fun _ => ⟨rfl, hlt⟩⟩
  · rw [he]; exact ⟨by simp, fun h => by simp at h⟩

/-- C1, amended: for the 7-byte string with bytes `#`, d1, ..., d6 (any bytes, valid UTF-8
or not) `shorthex` returns the 4-byte string `#`, d1, d3, d5 exactly when d1 = d2, d3 = d4,
d5 = d6 and d1, d3, d5 are ASCII (below 0x80, as every hex digit is); when the three pairs
are equal it returns `#` followed by the UTF-8 texts of the code points d1, d3, d5; in
every other case it returns the string itself.  On a valid UTF-8 text the bytes of
`shorthex` are those of the byte-level function. -/
theorem shorthexBytes_short_iff (d1 d2 d3 d4 d5 d6 : Nat) :
    (shorthexBytes [0x23, d1, d2, d3, d4, d5, d6] = some [0x23, d1, d3, d5] ↔
        (d1 = d2 ∧ d3 = d4 ∧ d5 = d6 ∧ d1 < 0x80 ∧ d3 < 0x80 ∧ d5 < 0x80)) ∧
      (d1 = d2 ∧ d3 = d4 ∧ d5 = d6 →
        shorthexBytes [0x23, d1, d2, d3, d4, d5, d6] =
          some (0x23 :: (utf8EncodeRune (Char.ofNat d1) ++ utf8EncodeRune (Char.ofNat d3)
            ++ utf8EncodeRune (Char.ofNat d5)))) ∧
      (¬ (d1 = d2 ∧ d3 = d4 ∧ d5 = d6) →
        shorthexBytes [0x23, d1, d2, d3, d4, d5, d6] = some [0x23, d1, d2, d3, d4, d5, d6]) ∧
      (∀ h : String, bytesOf h = [0x23, d1, d2, d3, d4, d5, d6] →
        (shorthex h).map bytesOf = shorthexBytes [0x23, d1, d2, d3, d4, d5, d6]) := by
  have hs := shorthexBytes_eval 0x23 d1 d2 d3 d4 d5 d6 []
  have hh : bytesOf "#" = [0x23] := by decide
  simp only [bytesOf_stringOfByte, hh, List.singleton_append, List.cons_append,
    List.nil_append, List.append_assoc] at hs
  refine ⟨⟨?_, ?_⟩, ?_, ?_, ?_⟩
  · intro hsome
    by_cases heq : d1 = d2 ∧ d3 = d4 ∧ d5 = d6
    · rw [hs, if_pos heq] at hsome
      simp only [Option.some.injEq, List.cons.injEq, true_and] at hsome
      obtain ⟨l1, s1⟩ := utf8EncodeRune_length (Char.ofNat d1)
      obtain ⟨l3, s3⟩ := utf8EncodeRune_length (Char.ofNat d3)
      obtain ⟨l5, s5⟩ := utf8EncodeRune_length (Char.ofNat d5)
      have hl := congrArg List.length hsome
      simp only [List.length_append, List.length_cons, List.length_nil] at hl
      obtain ⟨e1, b1⟩ := s1 (by omega)
      obtain ⟨e3, b3⟩ := s3 (by omega)
      obtain ⟨e5, b5⟩ := s5 (by omega)
      rw [e1, e3, e5] at hsome
      simp only [List.singleton_append, List.cons.injEq, and_true] at hsome
      refine ⟨heq.1, heq.2.1, heq.2.2, ?_, ?_, ?_⟩ <;> omega
    · rw [hs, if_neg heq] at hsome
      simp at hsome
  · rintro ⟨e1, e2, e3, b1, b3, b5⟩
    rw [hs, if_pos ⟨e1, e2, e3⟩]
    have t1 := char_toNat_ofNat_small ⟨d1, b1⟩
    have t3 := char_toNat_ofNat_small ⟨d3, b3⟩
    have t5 := char_toNat_ofNat_small ⟨d5, b5⟩
    simp only at t1 t3 t5
    rw [utf8EncodeRune_ascii _ (by omega), utf8EncodeRune_ascii _ (by omega),
      utf8EncodeRune_ascii _ (by omega), t1, t3, t5]
    rfl
  · intro heq
    rw [hs, if_pos heq]
    simp only [List.append_assoc]
  · intro hne
    rw [hs, if_neg hne]
  · intro h hb
    rw [shorthex_bytes, hb]

/-- C1, counterexample: the 7-byte string with bytes 23 80 80 61 61 62 62 has its three
pairs equal, yet `shorthex` returns the 5 bytes 23 C2 80 61 62 (the byte 0x80 converted by
`string(...)` is the two-byte text of U+0080), not the 4-byte string 23 80 61 62. -/
theorem shorthexBytes_pairs_equal_five_bytes :
    (0x80 = 0x80 ∧ 0x61 = 0x61 ∧ 0x62 = 0x62) ∧
    shorthexBytes [0x23, 0x80, 0x80, 0x61, 0x61, 0x62, 0x62] =
      some [0x23, 0xC2, 0x80, 0x61, 0x62] ∧
    shorthexBytes [0x23, 0x80, 0x80, 0x61, 0x61, 0x62, 0x62] ≠ some [0x23, 0x80, 0x61, 0x62] := by
  decide

/-- C2: shorthand compression is lossless: for a 7-byte string `h` beginning with `#`,
`shorthex h` returns a string which, read back with each digit of a 4-byte `#rgb` form
doubled (and a 7-byte form left as is), is `h` again. -/
theorem shorthex_lossless (h : String) (d1 d2 d3 d4 d5 d6 : Nat)
    (hb : bytesOf h = [0x23, d1, d2, d3, d4, d5, d6]) :
    ∃ s, shorthex h = some s ∧ expandShort s = h := by
  by_cases heq : d1 = d2 ∧ d3 = d4 ∧ d5 = d6
  · obtain ⟨c1, c3, c5, hc1, hc3, hc5, l1, l3, l5, hh, hsh⟩ :=
      shorthex_hash7 h _ _ _ _ _ _ hb heq
    refine ⟨_, hsh, ?_⟩
    have hlen : (bytesOf ⟨['#', c1, c3, c5]⟩).length = 4 := by
      simp only [bytesOf, List.flatMap_cons, List.flatMap_nil]
      rw [utf8EncodeRune_ascii c1 (by omega), utf8EncodeRune_ascii c3 (by omega),
        utf8EncodeRune_ascii c5 (by omega)]
      rfl
    rw [hh]
    simp only [expandShort, hlen, and_self, if_true]
  · have hs := shorthex_eval h _ _ _ _ _ _ _ _ hb
    rw [if_neg heq] at hs
    refine ⟨h, hs, ?_⟩
    unfold expandShort
    split
    · rw [hb]; simp
    · rfl

theorem shorthex_lossless_witness :
    ∃ s, shorthex "#ff0000" = some s ∧ expandShort s = "#ff0000" :=
  shorthex_lossless "#ff0000" 102 102 48 48 48 48 (by decide)

theorem rgb_RGB (c : Color) :
    rgb c.RGB = some ("rgb(" ++ Nat.repr c.r.val ++ "," ++ Nat.repr c.g.val ++ ","
      ++ Nat.repr c.b.val ++ ")") := by
  simp [rgb, Color.RGB, fmtD]

theorem css_rule_uncompressed (f : Flags) (name : String) (sw : Swatch)
    (hc : f.output_compress = false) :
    css_rule f name sw = some (
      let norm := fun (s : String) => if f.output_lowercase then ToLower s else s
      let lit := fun (c : Color) =>
        if f.output_rgb then
          "rgb(" ++ Nat.repr c.r.val ++ "," ++ Nat.repr c.g.val ++ "," ++ Nat.repr c.b.val ++ ")"
        else c.RGBHex
      "." ++ norm name ++ " \x7b\n"
        ++ "  background-color: " ++ norm (lit sw.color) ++ ";\n"
        ++ "  color: " ++ norm (lit sw.titleTextColor) ++ ";\n"
        ++ "\x7d\n") := by
  cases hr : f.output_rgb <;>
    simp only [css_rule, css_literals, css_short, css_printf, css_case, hc, hr, rgb_RGB,
      Option.pure_def, Option.bind_eq_bind, Option.some_bind, Bool.false_and, Bool.and_false,
      Bool.not_true, Bool.not_false, if_true, if_false, Bool.false_eq_true, Option.some.injEq] <;>
    (apply String.ext; simp [String.data_append])

theorem print_css_uncompressed_form (f : Flags) (p : Palette) (hc : f.output_compress = false) :
    print_css f p = some (concat (p.map fun e =>
      let norm := fun (s : String) => if f.output_lowercase then ToLower s else s
      let lit := fun (c : Color) =>
        if f.output_rgb then
          "rgb(" ++ Nat.repr c.r.val ++ "," ++ Nat.repr c.g.val ++ "," ++ Nat.repr c.b.val ++ ")"
        else c.RGBHex
      "." ++ norm e.1 ++ " \x7b\n"
        ++ "  background-color: " ++ norm (lit e.2.color) ++ ";\n"
        ++ "  color: " ++ norm (lit e.2.titleTextColor) ++ ";\n"
        ++ "\x7d\n")) := by
  induction p with
  | nil => rfl
  | cons e rest ih =>
    obtain ⟨name, sw⟩ := e
    simp only [print_css, ih, List.map_cons, concat, css_rule_uncompressed f name sw hc,
      Option.pure_def, Option.bind_eq_bind, Option.some_bind]

theorem ToLower_ascii (s : String) (h : ∀ c ∈ s.data, c.toNat < 128) :
    ToLower s = asciiLower s := by
  apply String.ext
  simp only [ToLower, asciiLower]
  exact List.map_congr_left fun c hc => by
    simp only [toLowerRune, h c hc, if_true]

/-- C3, amended: with `compress` unset the CSS output is, swatch after swatch, a rule `.N`
whose body holds the declarations `background-color` (swatch colour) and `color` (title
text colour), in this order, each indented by two spaces, ended by `;` and on a line of
its own; the values are hex literals, or `rgb(r,g,b)` when `useRgbFunctional` is set; when
`lowercase` is set the name and both literals are lower-cased by `strings.ToLower`, which
lower-cases every upper-case letter of Unicode and is the ASCII lower-casing on ASCII
text; they are verbatim otherwise. -/
theorem print_css_uncompressed (f : Flags) (p : Palette) (hc : f.output_compress = false) :
    print_css f p = some (concat (p.map fun e =>
      let norm := fun (s : String) => if f.output_lowercase then ToLower s else s
      let lit := fun (c : Color) =>
        if f.output_rgb then
          "rgb(" ++ Nat.repr c.r.val ++ "," ++ Nat.repr c.g.val ++ "," ++ Nat.repr c.b.val ++ ")"
        else c.RGBHex
      "." ++ norm e.1 ++ " \x7b\n"
        ++ "  background-color: " ++ norm (lit e.2.color) ++ ";\n"
        ++ "  color: " ++ norm (lit e.2.titleTextColor) ++ ";\n"
        ++ "\x7d\n")) ∧
    (∀ s : String, (∀ c ∈ s.data, c.toNat < 128) → ToLower s = asciiLower s) :=
  ⟨print_css_uncompressed_form f p hc, ToLower_ascii⟩

theorem hexDigit_mem (n : Nat) (h : n < 16) : hexDigit n ∈ "0123456789abcdef".data := by
  interval_cases n <;> decide

theorem digitChar_mem (n : Nat) (h : n < 10) : Nat.digitChar n ∈ "0123456789".data := by
  interval_cases n <;> decide

theorem toDigitsCore_chars (fuel : Nat) : ∀ (n : Nat) (ds : List Char),
    (∀ c ∈ ds, c ∈ "0123456789".data) →
    ∀ c ∈ Nat.toDigitsCore 10 fuel n ds, c ∈ "0123456789".data := by
  induction fuel with
  | zero => intro n ds hds; simpa [Nat.toDigitsCore] using hds
  | succ k ih =>
    intro n ds hds
    have hd : ∀ c ∈ Nat.digitChar (n % 10) :: ds, c ∈ "0123456789".data := by
      intro c hc
      rcases List.mem_cons.mp hc with h | h
      · rw [h]; exact digitChar_mem _ (Nat.mod_lt _ (by norm_num))
      · exact hds c h
    unfold Nat.toDigitsCore
    by_cases h0 : n / 10 = 0
    · simpa [h0] using hd
    · simpa [h0] using ih (n / 10) _ hd

theorem repr_chars (n : Nat) : ∀ c ∈ (Nat.repr n).data, c ∈ "0123456789".data := by
  unfold Nat.repr Nat.toDigits
  exact toDigitsCore_chars _ _ _ (by simp)

theorem RGBHex_data (c : Color) :
    c.RGBHex.data = ['#', hexDigit (c.r.val / 16 % 16), hexDigit (c.r.val % 16),
      hexDigit (c.g.val / 16 % 16), hexDigit (c.g.val % 16),
      hexDigit (c.b.val / 16 % 16), hexDigit (c.b.val % 16)] := by
  simp [Color.RGBHex, hex2, String.data_append]

theorem hexChars_props : ∀ c ∈ "0123456789abcdef".data,
    c.toNat < 128 ∧ toLowerRune c = c ∧ c.isWhitespace = false ∧ c.isUpper = false ∧
      c ≠ ';' ∧ c ≠ '\x7d' ∧ c ≠ '\x7b' ∧ c ≠ '#' := by
  decide

theorem hexDigit_props (n : Nat) :
    (hexDigit (n % 16)).toNat < 128 ∧ toLowerRune (hexDigit (n % 16)) = hexDigit (n % 16) ∧
      (hexDigit (n % 16)).isWhitespace = false ∧ (hexDigit (n % 16)).isUpper = false ∧
      hexDigit (n % 16) ≠ ';' ∧ hexDigit (n % 16) ≠ '\x7d' ∧ hexDigit (n % 16) ≠ '\x7b' ∧
      hexDigit (n % 16) ≠ '#' :=
  hexChars_props _ (hexDigit_mem _ (Nat.mod_lt _ (by norm_num)))

theorem ToLower_RGBHex (c : Color) : ToLower c.RGBHex = c.RGBHex := by
  apply String.ext
  simp only [ToLower, RGBHex_data, List.map_cons, List.map_nil]
  rw [(hexDigit_props _).2.1, (hexDigit_props c.r.val).2.1, (hexDigit_props _).2.1,
    (hexDigit_props c.g.val).2.1, (hexDigit_props _).2.1, (hexDigit_props c.b.val).2.1]
  rfl

theorem css_case_RGBHex (f : Flags) (c : Color) : css_case f c.RGBHex = c.RGBHex := by
  unfold css_case
  split
  · exact ToLower_RGBHex c
  · rfl

theorem char_toNat_inj (a b : Char) (h : a.toNat = b.toNat) : a = b := by
  apply Char.ext; apply UInt32.ext
  exact h

theorem shorthex_ascii7 (c0 a1 a2 a3 a4 a5 a6 : Char)
    (h0 : c0.toNat < 128) (h1 : a1.toNat < 128) (h2 : a2.toNat < 128) (h3 : a3.toNat < 128)
    (h4 : a4.toNat < 128) (h5 : a5.toNat < 128) (h6 : a6.toNat < 128) :
    shorthex ⟨[c0, a1, a2, a3, a4, a5, a6]⟩ =
      some (if a1 = a2 ∧ a3 = a4 ∧ a5 = a6 then ⟨['#', a1, a3, a5]⟩
        else ⟨[c0, a1, a2, a3, a4, a5, a6]⟩) := by
  have hb : bytesOf ⟨[c0, a1, a2, a3, a4, a5, a6]⟩ =
      [c0.toNat, a1.toNat, a2.toNat, a3.toNat, a4.toNat, a5.toNat, a6.toNat] := by
    simp only [bytesOf, List.flatMap_cons, List.flatMap_nil]
    rw [utf8EncodeRune_ascii c0 h0, utf8EncodeRune_ascii a1 h1, utf8EncodeRune_ascii a2 h2,
      utf8EncodeRune_ascii a3 h3, utf8EncodeRune_ascii a4 h4, utf8EncodeRune_ascii a5 h5,
      utf8EncodeRune_ascii a6 h6]
    rfl
  rw [shorthex_eval _ _ _ _ _ _ _ _ _ hb]
  by_cases hc : a1 = a2 ∧ a3 = a4 ∧ a5 = a6
  · obtain ⟨e1, e2, e3⟩ := hc
    subst e1 e2 e3
    simp only [and_self, if_true, stringOfByte, char_ofNat_toNat]
    rfl
  · have hn : ¬ (a1.toNat = a2.toNat ∧ a3.toNat = a4.toNat ∧ a5.toNat = a6.toNat) := by
      rintro ⟨e1, e2, e3⟩
      exact hc ⟨char_toNat_inj _ _ e1, char_toNat_inj _ _ e2, char_toNat_inj _ _ e3⟩
    rw [if_neg hn, if_neg hc]

/-- The value of `shorthex` on the hex literal of a colour: the three-digit form when
every channel has two equal digits, the literal itself otherwise. -/
theorem shorthex_RGBHex (c : Color) :
    shorthex c.RGBHex = some (
      if hexDigit (c.r.val / 16 % 16) = hexDigit (c.r.val % 16) ∧
          hexDigit (c.g.val / 16 % 16) = hexDigit (c.g.val % 16) ∧
          hexDigit (c.b.val / 16 % 16) = hexDigit (c.b.val % 16)
      then ⟨['#', hexDigit (c.r.val / 16 % 16), hexDigit (c.g.val / 16 % 16),
        hexDigit (c.b.val / 16 % 16)]⟩
      else c.RGBHex) := by
  have hd := RGBHex_data c
  have hs : c.RGBHex = ⟨['#', hexDigit (c.r.val / 16 % 16), hexDigit (c.r.val % 16),
      hexDigit (c.g.val / 16 % 16), hexDigit (c.g.val % 16),
      hexDigit (c.b.val / 16 % 16), hexDigit (c.b.val % 16)]⟩ := String.ext hd
  conv_lhs => rw [hs]
  rw [shorthex_ascii7 _ _ _ _ _ _ _ (by decide) (hexDigit_props _).1 (hexDigit_props _).1
    (hexDigit_props _).1 (hexDigit_props _).1 (hexDigit_props _).1 (hexDigit_props _).1]
  rw [← hs]

theorem hexDigit_mem_lit (n : Nat) : hexDigit (n % 16) ∈ "#0123456789abcdef".data :=
  List.mem_cons_of_mem _ (hexDigit_mem _ (Nat.mod_lt _ (by norm_num)))

theorem RGBHex_chars (c : Color) : ∀ ch ∈ c.RGBHex.data, ch ∈ "#0123456789abcdef".data := by
  intro ch hch
  rw [RGBHex_data] at hch
  simp only [List.mem_cons, List.mem_nil_iff, or_false] at hch
  rcases hch with h | h | h | h | h | h | h <;> rw [h]
  · decide
  all_goals exact hexDigit_mem_lit _

theorem shorthex_RGBHex_chars (c : Color) (s : String) (h : shorthex c.RGBHex = some s) :
    ∀ ch ∈ s.data, ch ∈ "#0123456789abcdef".data := by
  rw [shorthex_RGBHex] at h
  simp only [Option.some.injEq] at h
  subst h
  split
  · intro ch hch
    simp only [List.mem_cons, List.mem_nil_iff, or_false] at hch
    rcases hch with h | h | h | h <;> rw [h]
    · decide
    all_goals exact hexDigit_mem_lit _
  · exact RGBHex_chars c

theorem shorthex_RGBHex_isSome (c : Color) : (shorthex c.RGBHex).isSome = true := by
  rw [shorthex_RGBHex]; rfl

theorem rgbLit_chars (r g b : Nat) :
    ∀ ch ∈ ("rgb(" ++ Nat.repr r ++ "," ++ Nat.repr g ++ "," ++ Nat.repr b ++ ")").data,
      ch ∈ "rgb(),0123456789".data := by
  have hd : ∀ n, ∀ ch ∈ (Nat.repr n).data, ch ∈ "rgb(),0123456789".data := by
    intro n ch hch
    have := repr_chars n ch hch
    revert this
    generalize ch = x
    revert x
    decide
  intro ch hch
  simp only [String.data_append, List.mem_append] at hch
  rcases hch with (((((h | h) | h) | h) | h) | h) | h
  · revert h; revert ch; decide
  · exact hd _ _ h
  · revert h; revert ch; decide
  · exact hd _ _ h
  · revert h; revert ch; decide
  · exact hd _ _ h
  · revert h; revert ch; decide

theorem ToLower_eq_self (s : String) (h : ∀ ch ∈ s.data, toLowerRune ch = ch) :
    ToLower s = s := by
  apply String.ext
  simp only [ToLower]
  exact (List.map_congr_left h).trans (List.map_id _)

theorem css_case_rgbLit (f : Flags) (r g b : Nat) :
    css_case f ("rgb(" ++ Nat.repr r ++ "," ++ Nat.repr g ++ "," ++ Nat.repr b ++ ")") =
      "rgb(" ++ Nat.repr r ++ "," ++ Nat.repr g ++ "," ++ Nat.repr b ++ ")" := by
  unfold css_case
  split
  · apply ToLower_eq_self
    intro ch hch
    have := rgbLit_chars r g b ch hch
    revert this
    generalize ch = x
    revert x
    decide
  · rfl

set_option maxRecDepth 100000 in
theorem print_css_uncompressed_witness :
    print_css ⟨false, false, true, false, true, false⟩
        [("DarkMuted", ⟨⟨18, 52, 86⟩, 7, ⟨255, 255, 255⟩⟩),
         ("ÉCLAT K\u212AİΣ", ⟨⟨0, 0, 0⟩, 3, ⟨1, 2, 3⟩⟩)] =
      some (".darkmuted \x7b\n  background-color: #123456;\n  color: #ffffff;\n\x7d\n"
        ++ ".éclat kkiσ \x7b\n  background-color: #000000;\n  color: #010203;\n\x7d\n") :=
  (print_css_uncompressed ⟨false, false, true, false, true, false⟩
    [("DarkMuted", ⟨⟨18, 52, 86⟩, 7, ⟨255, 255, 255⟩⟩),
     ("ÉCLAT K\u212AİΣ", ⟨⟨0, 0, 0⟩, 3, ⟨1, 2, 3⟩⟩)]
    rfl).1.trans (by decide)

/-- C3, as stated, fails: with `lowercase` set and `compress` unset the swatch named
`ÉCLAT` is written under the selector `.éclat`; the ASCII lower-casing of the name is
`Éclat`, so the output is not the rule with the ASCII-lower-cased name. -/
theorem print_css_name_lowercased_beyond_ascii :
    print_css ⟨false, false, true, false, true, false⟩
        [("ÉCLAT", ⟨⟨1, 2, 3⟩, 5, ⟨0, 0, 0⟩⟩)] =
      some ".éclat \x7b\n  background-color: #010203;\n  color: #000000;\n\x7d\n" ∧
    asciiLower "ÉCLAT" = "Éclat" ∧
    print_css ⟨false, false, true, false, true, false⟩
        [("ÉCLAT", ⟨⟨1, 2, 3⟩, 5, ⟨0, 0, 0⟩⟩)] ≠
      some ("." ++ asciiLower "ÉCLAT" ++ " \x7b\n  background-color: "
        ++ asciiLower "#010203" ++ ";\n  color: " ++ asciiLower "#000000" ++ ";\n\x7d\n") := by
  decide

/-- C4, as stated, fails: for the palette with the one swatch `Vibrant` (colour
(255,0,0), population 120, title text colour (255,255,255)), lower case and hex mode,
uncompressed, the CSS output is not the text ending in a blank line. -/
theorem print_css_example_no_blank_line :
    print_css ⟨false, false, true, false, true, false⟩
        [("Vibrant", ⟨⟨255, 0, 0⟩, 120, ⟨255, 255, 255⟩⟩)] ≠
      some ".vibrant \x7b\n  background-color: #ff0000;\n  color: #ffffff;\n\x7d\n\n" := by
  decide

/-- C4, amended: with `compress` unset every rule the CSS renderer writes ends with the
last declaration's `;`, a newline, the closing brace and one newline (no blank line
follows), and for the example palette the output is exactly the rule text ending so. -/
theorem css_rule_ends_single_newline :
    print_css ⟨false, false, true, false, true, false⟩
        [("Vibrant", ⟨⟨255, 0, 0⟩, 120, ⟨255, 255, 255⟩⟩)] =
      some ".vibrant \x7b\n  background-color: #ff0000;\n  color: #ffffff;\n\x7d\n" ∧
    ∀ (f : Flags) (name : String) (sw : Swatch), f.output_compress = false →
      ∃ body, css_rule f name sw = some (body ++ ";\n\x7d\n") ∧
        ∀ text, css_rule f name sw = some text → ¬ ("\x7d\n\n".data <:+ text.data) := by
  refine ⟨by decide, ?_⟩
  intro f name sw hc
  have hr := css_rule_uncompressed f name sw hc
  simp only at hr
  generalize ("." ++ (if f.output_lowercase = true then ToLower name else name)
      ++ " \x7b\n" ++ "  background-color: " ++
      (if f.output_lowercase = true then ToLower (if f.output_rgb = true then
        "rgb(" ++ Nat.repr sw.color.r.val ++ "," ++ Nat.repr sw.color.g.val ++ ","
          ++ Nat.repr sw.color.b.val ++ ")" else sw.color.RGBHex)
       else (if f.output_rgb = true then
        "rgb(" ++ Nat.repr sw.color.r.val ++ "," ++ Nat.repr sw.color.g.val ++ ","
          ++ Nat.repr sw.color.b.val ++ ")" else sw.color.RGBHex)) ++ ";\n" ++ "  color: " ++
      (if f.output_lowercase = true then ToLower (if f.output_rgb = true then
        "rgb(" ++ Nat.repr sw.titleTextColor.r.val ++ "," ++ Nat.repr sw.titleTextColor.g.val
          ++ "," ++ Nat.repr sw.titleTextColor.b.val ++ ")" else sw.titleTextColor.RGBHex)
       else (if f.output_rgb = true then
        "rgb(" ++ Nat.repr sw.titleTextColor.r.val ++ "," ++ Nat.repr sw.titleTextColor.g.val
          ++ "," ++ Nat.repr sw.titleTextColor.b.val ++ ")" else sw.titleTextColor.RGBHex))) = A
    at hr
  have hA : A ++ ";\n" ++ "\x7d\n" = A ++ ";\n\x7d\n" := by
    apply String.ext; simp [String.data_append]
  rw [hA] at hr
  refine ⟨A, hr, ?_⟩
  intro text ht
  rw [hr] at ht
  simp only [Option.some.injEq] at ht
  subst ht
  intro hsuf
  have h1 : ";\n\x7d\n".data <:+ (A ++ ";\n\x7d\n").data := by
    rw [String.data_append]; exact List.suffix_append _ _
  have h2 := List.suffix_of_suffix_length_le hsuf h1 (by decide)
  revert h2
  decide

theorem css_rule_ends_single_newline_witness :
    ∃ body, css_rule ⟨false, false, true, false, false, false⟩ "Muted"
        ⟨⟨1, 2, 3⟩, 9, ⟨0, 0, 0⟩⟩ = some (body ++ ";\n\x7d\n") ∧
      ∀ text, css_rule ⟨false, false, true, false, false, false⟩ "Muted"
        ⟨⟨1, 2, 3⟩, 9, ⟨0, 0, 0⟩⟩ = some text → ¬ ("\x7d\n\n".data <:+ text.data) :=
  css_rule_ends_single_newline.2 _ _ _ rfl

theorem css_rule_compressed (f : Flags) (name : String) (sw : Swatch)
    (hc : f.output_compress = true) :
    css_rule f name sw = some (
      let norm := fun (s : String) => if f.output_lowercase then ToLower s else s
      let lit := fun (c : Color) =>
        if f.output_rgb then
          "rgb(" ++ Nat.repr c.r.val ++ "," ++ Nat.repr c.g.val ++ "," ++ Nat.repr c.b.val ++ ")"
        else (shorthex (norm c.RGBHex)).getD ""
      "." ++ norm name ++ "\x7bbackground-color:" ++ lit sw.color
        ++ ";color:" ++ lit sw.titleTextColor ++ "\x7d") := by
  have hn : ∀ c : Color, (if f.output_lowercase = true then ToLower c.RGBHex else c.RGBHex)
      = c.RGBHex := fun c => css_case_RGBHex f c
  have hl := css_case_rgbLit f
  cases hr : f.output_rgb
  · obtain ⟨bg, hbg⟩ := Option.isSome_iff_exists.mp (shorthex_RGBHex_isSome sw.color)
    obtain ⟨fg, hfg⟩ := Option.isSome_iff_exists.mp (shorthex_RGBHex_isSome sw.titleTextColor)
    simp only [css_rule, css_literals, css_short, css_printf, hc, hr, css_case_RGBHex, hn,
      hbg, hfg, Option.getD_some,
      Option.pure_def, Option.bind_eq_bind, Option.some_bind, Bool.true_and, Bool.and_true,
      Bool.not_true, Bool.not_false, if_true, if_false, Bool.false_eq_true, Option.some.injEq]
    simp only [css_case]
    apply String.ext; simp [String.data_append]
  · simp only [css_rule, css_literals, css_short, css_printf, hc, hr, rgb_RGB, hl,
      Option.pure_def, Option.bind_eq_bind, Option.some_bind, Bool.true_and, Bool.and_false,
      Bool.not_true, Bool.not_false, if_true, if_false, Bool.false_eq_true, Option.some.injEq]
    simp only [css_case]
    apply String.ext; simp [String.data_append]

theorem concat_chars (P : Char → Prop) (l : List String)
    (h : ∀ s ∈ l, ∀ ch ∈ s.data, P ch) : ∀ ch ∈ (concat l).data, P ch := by
  induction l with
  | nil => intro ch hch; simp [concat] at hch
  | cons s rest ih =>
    intro ch hch
    simp only [concat, String.data_append, List.mem_append] at hch
    rcases hch with h1 | h1
    · exact h s (List.mem_cons_self _ _) ch h1
    · exact ih (fun t ht => h t (List.mem_cons_of_mem _ ht)) ch h1

theorem toLower_cases (c : Char) :
    c.toLower = c ∨ (65 ≤ c.toNat ∧ c.toNat ≤ 90 ∧ c.toLower.toNat = c.toNat + 32) := by
  unfold Char.toLower
  by_cases h : c.toNat ≥ 65 ∧ c.toNat ≤ 90
  · right
    refine ⟨h.1, h.2, ?_⟩
    simp only [h, and_self, if_true]
    exact char_toNat_ofNat_small ⟨c.toNat + 32, by omega⟩
  · left
    simp only [h, if_false]

theorem toLowerTable_spec (P : Nat → Prop) (tbl : List (Nat × Nat × Nat × Nat)) (n : Nat)
    (h0 : P n)
    (h : ∀ e ∈ tbl, e.1 ≤ n → n ≤ e.2.1 → P (e.2.2.2 + (n - e.1))) :
    P (toLowerTable tbl n) := by
  induction tbl with
  | nil => exact h0
  | cons e rest ih =>
    obtain ⟨lo, hi, st, tgt⟩ := e
    simp only [toLowerTable]
    split
    · rename_i hc
      exact h (lo, hi, st, tgt) (List.mem_cons_self _ _) hc.1 hc.2.1
    · exact ih (fun e he => h e (List.mem_cons_of_mem _ he))

set_option maxRecDepth 100000 in
theorem caseRanges_props : ∀ e ∈ caseRanges,
    128 ≤ e.1 ∧ e.1 ≤ e.2.1 ∧
    (e.2.2.2 + (e.2.1 - e.1) < 0xD800 ∨ (0xE000 ≤ e.2.2.2 ∧ e.2.2.2 + (e.2.1 - e.1) < 0x110000)) ∧
    (128 ≤ e.2.2.2 ∨ (e.1 = e.2.1 ∧ 97 ≤ e.2.2.2 ∧ e.2.2.2 ≤ 122)) := by
  decide


theorem char_ofNat_valid (m : Nat) (h : m < 0xD800 ∨ (0xE000 ≤ m ∧ m < 0x110000)) :
    (Char.ofNat m).toNat = m := by
  have hv : m.isValidChar := by
    rcases h with h | h
    · exact Or.inl h
    · exact Or.inr ⟨by omega, h.2⟩
  simp only [Char.ofNat, hv, dite_true]
  rfl

theorem toLowerRune_ascii (c : Char) (h : c.toNat < 128) : toLowerRune c = c.toLower := by
  simp only [toLowerRune, h, if_true]

theorem toLowerRune_high (c : Char) (h : 128 ≤ c.toNat) :
    128 ≤ (toLowerRune c).toNat ∨ (97 ≤ (toLowerRune c).toNat ∧ (toLowerRune c).toNat ≤ 122) := by
  have hn : ¬ c.toNat < 128 := by omega
  simp only [toLowerRune, hn, if_false]
  apply toLowerTable_spec
    (fun m => 128 ≤ (Char.ofNat m).toNat ∨ (97 ≤ (Char.ofNat m).toNat ∧ (Char.ofNat m).toNat ≤ 122))
  · left; rw [Char.ofNat_toNat]; exact h
  · intro e he h1 h2
    obtain ⟨p1, p2, p3, p4⟩ := caseRanges_props e he
    have hv : (Char.ofNat (e.2.2.2 + (c.toNat - e.1))).toNat = e.2.2.2 + (c.toNat - e.1) := by
      apply char_ofNat_valid
      rcases p3 with p3 | p3
      · left; omega
      · right; omega
    rw [hv]
    rcases p4 with p4 | ⟨p4, p5, p6⟩
    · left; omega
    · right; omega

/-- What lower-casing does to one rune: nothing, or an ASCII capital moved to its small
letter, or a rune outside ASCII moved to a rune outside ASCII or to an ASCII small letter. -/
theorem toLowerRune_cases (c : Char) :
    toLowerRune c = c ∨ (97 ≤ (toLowerRune c).toNat ∧ (toLowerRune c).toNat ≤ 122 ∧
      (c.toNat < 65 ∨ 90 < c.toNat)) ∨
      (65 ≤ c.toNat ∧ c.toNat ≤ 90 ∧ (toLowerRune c).toNat = c.toNat + 32) ∨
      (128 ≤ c.toNat ∧ 128 ≤ (toLowerRune c).toNat) := by
  by_cases h : c.toNat < 128
  · rw [toLowerRune_ascii c h]
    rcases toLower_cases c with h1 | h1
    · exact Or.inl h1
    · exact Or.inr (Or.inr (Or.inl h1))
  · rcases toLowerRune_high c (by omega) with h1 | h1
    · exact Or.inr (Or.inr (Or.inr ⟨by omega, h1⟩))
    · exact Or.inr (Or.inl ⟨h1.1, h1.2, by omega⟩)

theorem toLowerRune_eq_iff (c x : Char)
    (hx : x.toNat < 65 ∨ (90 < x.toNat ∧ x.toNat < 97) ∨ (122 < x.toNat ∧ x.toNat < 128)) :
    toLowerRune c = x ↔ c = x := by
  rcases toLowerRune_cases c with h | ⟨h1, h2, _⟩ | ⟨h1, h2, h3⟩ | ⟨h1, h2⟩
  · rw [h]
  · constructor
    · intro h; rw [h] at h1 h2; omega
    · intro h
      exfalso
      by_cases ha : c.toNat < 128
      · have := toLowerRune_ascii c ha
        rcases toLower_cases c with h3 | ⟨h3, h4, h5⟩
        · rw [this, h3, h] at h1 h2; omega
        · rw [h] at h3 h4; omega
      · rw [h] at ha; omega
  · constructor
    · intro h; rw [h] at h3; omega
    · intro h; rw [h] at h1 h2; omega
  · constructor
    · intro h; rw [h] at h2; omega
    · intro h; rw [h] at h1; omega

theorem toLowerRune_isWhitespace (c : Char) :
    (toLowerRune c).isWhitespace = c.isWhitespace := by
  unfold Char.isWhitespace
  rw [Bool.eq_iff_iff]
  simp only [Bool.or_eq_true, decide_eq_true_eq]
  rw [toLowerRune_eq_iff c ' ' (by decide), toLowerRune_eq_iff c '\t' (by decide),
    toLowerRune_eq_iff c '\r' (by decide), toLowerRune_eq_iff c '\n' (by decide)]

theorem toLowerRune_not_upper (c : Char) : (toLowerRune c).isUpper = false := by
  have hu : ∀ d : Char, d.isUpper = true ↔ (65 ≤ d.toNat ∧ d.toNat ≤ 90) := by
    intro d
    simp only [Char.isUpper, Bool.and_eq_true, decide_eq_true_eq]
    exact Iff.rfl
  rw [Bool.eq_false_iff]
  intro h
  have h2 := (hu _).mp h
  rcases toLowerRune_cases c with h1 | ⟨h1, h3, _⟩ | ⟨h1, h3, h4⟩ | ⟨h1, h3⟩
  · rw [h1] at h2
    have ha : c.toNat < 128 := by omega
    have h5 := toLowerRune_ascii c ha
    rcases toLower_cases c with h6 | ⟨_, _, h8⟩
    · rw [h5, h6] at h1
      have : c.toLower = Char.ofNat (c.toNat + 32) := by
        unfold Char.toLower; simp only [ge_iff_le, h2, and_self, if_true]
      have h9 := char_toNat_ofNat_small ⟨c.toNat + 32, by omega⟩
      rw [h6] at this
      rw [← this] at h9
      simp only at h9
      omega
    · rw [h5] at h1; rw [h1] at h8; omega
  · omega
  · omega
  · omega

theorem print_css_compressed_form (f : Flags) (p : Palette) (hc : f.output_compress = true) :
    print_css f p = some (concat (p.map fun e =>
      let norm := fun (s : String) => if f.output_lowercase then ToLower s else s
      let lit := fun (c : Color) =>
        if f.output_rgb then
          "rgb(" ++ Nat.repr c.r.val ++ "," ++ Nat.repr c.g.val ++ "," ++ Nat.repr c.b.val ++ ")"
        else (shorthex (norm c.RGBHex)).getD ""
      "." ++ norm e.1 ++ "\x7bbackground-color:" ++ lit e.2.color
        ++ ";color:" ++ lit e.2.titleTextColor ++ "\x7d")) := by
  induction p with
  | nil => rfl
  | cons e rest ih =>
    obtain ⟨name, sw⟩ := e
    simp only [print_css, ih, List.map_cons, concat, css_rule_compressed f name sw hc,
      Option.pure_def, Option.bind_eq_bind, Option.some_bind]

theorem css_lit_compressed_no_space (f : Flags) (c : Color) :
    ∀ ch ∈ (if f.output_rgb = true then
          "rgb(" ++ Nat.repr c.r.val ++ "," ++ Nat.repr c.g.val ++ "," ++ Nat.repr c.b.val ++ ")"
        else (shorthex (if f.output_lowercase = true then ToLower c.RGBHex
          else c.RGBHex)).getD "").data, ch.isWhitespace = false := by
  have hn : (if f.output_lowercase = true then ToLower c.RGBHex else c.RGBHex)
      = c.RGBHex := css_case_RGBHex f c
  rw [hn]
  intro ch hch
  split at hch
  · have := rgbLit_chars _ _ _ ch hch
    revert this
    generalize ch = x
    revert x
    decide
  · obtain ⟨s, hs⟩ := Option.isSome_iff_exists.mp (shorthex_RGBHex_isSome c)
    rw [hs, Option.getD_some] at hch
    have := shorthex_RGBHex_chars c s hs ch hch
    revert this
    generalize ch = x
    revert x
    decide

/-- C5: with `compress` set the CSS renderer writes, for every swatch, exactly
`.N{background-color:BG;color:FG}` with no space, indentation, newline or closing
semicolon, `N` being the name, lower-cased by `strings.ToLower` when `lowercase` is set;
in hex mode BG and FG are the results of `shorthex` on the case-normalised hex literals
(and `shorthex` does return on each of them), in functional mode they are the
`rgb(r,g,b)` literals; so the output holds no whitespace when no name holds one. -/
theorem print_css_compressed (f : Flags) (p : Palette) (hc : f.output_compress = true) :
    (∀ c : Color, (shorthex (if f.output_lowercase then ToLower c.RGBHex
        else c.RGBHex)).isSome = true) ∧
    print_css f p = some (concat (p.map fun e =>
      let norm := fun (s : String) => if f.output_lowercase then ToLower s else s
      let lit := fun (c : Color) =>
        if f.output_rgb then
          "rgb(" ++ Nat.repr c.r.val ++ "," ++ Nat.repr c.g.val ++ "," ++ Nat.repr c.b.val ++ ")"
        else (shorthex (norm c.RGBHex)).getD ""
      "." ++ norm e.1 ++ "\x7bbackground-color:" ++ lit e.2.color
        ++ ";color:" ++ lit e.2.titleTextColor ++ "\x7d")) ∧
    ((∀ e ∈ p, ∀ ch ∈ e.1.data, ch.isWhitespace = false) →
      ∀ out, print_css f p = some out → ∀ ch ∈ out.data, ch.isWhitespace = false) := by
  refine ⟨?_, print_css_compressed_form f p hc, ?_⟩
  · intro c
    have hn : (if f.output_lowercase = true then ToLower c.RGBHex else c.RGBHex)
        = c.RGBHex := css_case_RGBHex f c
    rw [hn]
    exact shorthex_RGBHex_isSome c
  · intro hnames out hout
    rw [print_css_compressed_form f p hc] at hout
    simp only [Option.some.injEq] at hout
    subst hout
    apply concat_chars
    intro s hs ch hch
    obtain ⟨e, he, rfl⟩ := List.mem_map.mp hs
    simp only [String.data_append, List.mem_append] at hch
    rcases hch with (((((h | h) | h) | h) | h) | h) | h
    · revert h; revert ch; decide
    · split at h
      · simp only [ToLower, List.mem_map] at h
        obtain ⟨a, ha, rfl⟩ := h
        rw [toLowerRune_isWhitespace]
        exact hnames e he a ha
      · exact hnames e he ch h
    · revert h; revert ch; decide
    · exact css_lit_compressed_no_space f e.2.color ch h
    · revert h; revert ch; decide
    · exact css_lit_compressed_no_space f e.2.titleTextColor ch h
    · revert h; revert ch; decide

theorem print_css_compressed_witness :
    print_css ⟨false, false, true, true, true, false⟩
        [("Vibrant", ⟨⟨255, 0, 0⟩, 120, ⟨255, 255, 255⟩⟩),
         ("ÉCLAT", ⟨⟨1, 2, 3⟩, 4, ⟨0, 0, 0⟩⟩)] =
      some (".vibrant\x7bbackground-color:#f00;color:#fff\x7d"
        ++ ".éclat\x7bbackground-color:#010203;color:#000\x7d") :=
  (print_css_compressed ⟨false, false, true, true, true, false⟩
    [("Vibrant", ⟨⟨255, 0, 0⟩, 120, ⟨255, 255, 255⟩⟩),
     ("ÉCLAT", ⟨⟨1, 2, 3⟩, 4, ⟨0, 0, 0⟩⟩)] rfl).2.1.trans (by decide)

theorem print_plain_form (f : Flags) (p : Palette) :
    print_plain f p = concat (p.map fun e =>
      ⟨List.replicate (12 - e.1.length) ' '⟩ ++ e.1 ++ ": " ++ e.2.color.RGBHex
        ++ ", population: " ++ Nat.repr e.2.population ++ "\n") := by
  induction p with
  | nil => rfl
  | cons e rest ih =>
    obtain ⟨name, sw⟩ := e
    simp only [print_plain, ih, List.map_cons, concat, plain_line, fmtS12, fmtD]

/-- C9: whatever the flags, the plain renderer writes for each swatch one line: the name
right-justified with spaces in a field of 12 characters (longer names are kept whole),
`: `, the hex literal of the colour, `, population: `, the population in decimal and a
newline, which is the only newline of the line when the name holds none; the swatch
`Vibrant`, colour (255,0,0), population 120 gives `     Vibrant: #ff0000, population: 120`. -/
theorem print_plain_line_shape (f : Flags) (p : Palette) :
    print_plain f p = concat (p.map fun e =>
      ⟨List.replicate (12 - e.1.length) ' '⟩ ++ e.1 ++ ": " ++ e.2.color.RGBHex
        ++ ", population: " ++ Nat.repr e.2.population ++ "\n") ∧
    (∀ e ∈ p, (∀ ch ∈ e.1.data, ch ≠ '\n') →
      ((⟨List.replicate (12 - e.1.length) ' '⟩ ++ e.1 ++ ": " ++ e.2.color.RGBHex
        ++ ", population: " ++ Nat.repr e.2.population ++ "\n" : String).data.count '\n' = 1)) ∧
    print_plain f [("Vibrant", ⟨⟨255, 0, 0⟩, 120, ⟨255, 255, 255⟩⟩)] =
      "     Vibrant: #ff0000, population: 120\n" := by
  refine ⟨print_plain_form f p, ?_, by rfl⟩
  intro e _ hname
  have h1 : e.2.color.RGBHex.data.count '\n' = 0 := by
    rw [List.count_eq_zero]
    intro h
    have := RGBHex_chars _ _ h
    revert this; decide
  have h2 : (Nat.repr e.2.population).data.count '\n' = 0 := by
    rw [List.count_eq_zero]
    intro h
    have := repr_chars _ _ h
    revert this; decide
  have h3 : e.1.data.count '\n' = 0 := by
    rw [List.count_eq_zero]
    intro h
    exact hname _ h rfl
  have h4 : (List.replicate (12 - e.1.length) ' ').count '\n' = 0 := by
    rw [List.count_eq_zero]
    intro h
    have := List.eq_of_mem_replicate h
    revert this; decide
  simp only [String.data_append, List.count_append, h1, h2, h3, h4]
  rfl

theorem print_plain_line_shape_witness :
    ((⟨List.replicate (12 - ("Muted" : String).length) ' '⟩ ++ "Muted" ++ ": "
        ++ (Color.mk 18 52 86).RGBHex ++ ", population: " ++ Nat.repr 4 ++ "\n" : String).data.count
      '\n' = 1) :=
  (print_plain_line_shape ⟨false, false, false, true, true, true⟩
    [("Muted", ⟨⟨18, 52, 86⟩, 4, ⟨0, 0, 0⟩⟩)]).2.1 ("Muted", ⟨⟨18, 52, 86⟩, 4, ⟨0, 0, 0⟩⟩)
    (List.mem_cons_self _ _) (by decide)

theorem concat_ends (t : String) (l : List String) (hne : l ≠ [])
    (h : ∀ s ∈ l, ∃ b, s = b ++ t) : ∃ b, concat l = b ++ t := by
  induction l with
  | nil => exact absurd rfl hne
  | cons s rest ih =>
    cases rest with
    | nil =>
      obtain ⟨b, hb⟩ := h s (List.mem_cons_self _ _)
      exact ⟨b, by simp [concat, hb]⟩
    | cons s1 r =>
      obtain ⟨b, hb⟩ := ih (by simp) (fun x hx => h x (List.mem_cons_of_mem _ hx))
      refine ⟨s ++ b, ?_⟩
      rw [concat, hb, String.append_assoc]

theorem brace_newline_ends (a : String) : ∃ b, a ++ "\x7d\n" = b ++ "\n" :=
  ⟨a ++ "\x7d", by apply String.ext; simp [String.data_append]⟩

/-- C10, as stated, fails: the compressed CSS output of a one-swatch palette is
`.vibrant{background-color:#f00;color:#fff}`, whose last character is the closing
brace and not a newline. -/
theorem print_css_compressed_no_newline :
    print_css ⟨false, false, true, true, true, false⟩
        [("Vibrant", ⟨⟨255, 0, 0⟩, 120, ⟨255, 255, 255⟩⟩)] =
      some ".vibrant\x7bbackground-color:#f00;color:#fff\x7d" ∧
    ¬ ∃ body : String, print_css ⟨false, false, true, true, true, false⟩
        [("Vibrant", ⟨⟨255, 0, 0⟩, 120, ⟨255, 255, 255⟩⟩)] = some (body ++ "\n") := by
  have h : print_css ⟨false, false, true, true, true, false⟩
      [("Vibrant", ⟨⟨255, 0, 0⟩, 120, ⟨255, 255, 255⟩⟩)] =
      some ".vibrant\x7bbackground-color:#f00;color:#fff\x7d" := by decide
  refine ⟨h, ?_⟩
  rintro ⟨body, hb⟩
  rw [h] at hb
  simp only [Option.some.injEq] at hb
  have h2 := congrArg (fun s => s.data.getLast?) hb
  simp [String.data_append] at h2

/-- C10, amended: for every non-empty palette and all flags, the plain output, the JSON
output and the uncompressed CSS output end with a newline; the compressed CSS output
ends with the closing brace of its last rule. -/
theorem output_ends (f : Flags) (p : Palette) (hne : p ≠ []) :
    (∃ body, print_plain f p = body ++ "\n") ∧
    (∃ body, print_json f p = body ++ "\n") ∧
    (f.output_compress = false → ∃ body, print_css f p = some (body ++ "\n")) ∧
    (f.output_compress = true → ∃ body, print_css f p = some (body ++ "\x7d")) := by
  have hmap : ∀ g : String × Swatch → String, p.map g ≠ [] := by
    intro g h
    exact hne (List.map_eq_nil_iff.mp h)
  refine ⟨?_, ⟨_, rfl⟩, ?_, ?_⟩
  · rw [print_plain_form]
    apply concat_ends _ _ (hmap _)
    intro s hs
    obtain ⟨e, _, rfl⟩ := List.mem_map.mp hs
    exact ⟨_, rfl⟩
  · intro hc
    rw [print_css_uncompressed_form f p hc]
    simp only [Option.some.injEq]
    apply concat_ends _ _ (hmap _)
    intro s hs
    obtain ⟨e, _, rfl⟩ := List.mem_map.mp hs
    exact brace_newline_ends _
  · intro hc
    rw [print_css_compressed_form f p hc]
    simp only [Option.some.injEq]
    apply concat_ends _ _ (hmap _)
    intro s hs
    obtain ⟨e, _, rfl⟩ := List.mem_map.mp hs
    exact ⟨_, rfl⟩

theorem output_ends_witness :
    (∃ body, print_plain ⟨false, false, false, false, true, false⟩
      [("Muted", ⟨⟨18, 52, 86⟩, 4, ⟨0, 0, 0⟩⟩)] = body ++ "\n") ∧
    (∃ body, print_json ⟨false, false, false, false, true, false⟩
      [("Muted", ⟨⟨18, 52, 86⟩, 4, ⟨0, 0, 0⟩⟩)] = body ++ "\n") ∧
    ((⟨false, false, false, false, true, false⟩ : Flags).output_compress = false →
      ∃ body, print_css ⟨false, false, false, false, true, false⟩
        [("Muted", ⟨⟨18, 52, 86⟩, 4, ⟨0, 0, 0⟩⟩)] = some (body ++ "\n")) ∧
    ((⟨false, false, false, false, true, false⟩ : Flags).output_compress = true →
      ∃ body, print_css ⟨false, false, false, false, true, false⟩
        [("Muted", ⟨⟨18, 52, 86⟩, 4, ⟨0, 0, 0⟩⟩)] = some (body ++ "\x7d")) :=
  output_ends ⟨false, false, false, false, true, false⟩
    [("Muted", ⟨⟨18, 52, 86⟩, 4, ⟨0, 0, 0⟩⟩)] (by simp)

theorem print_json_lower_no_upper (f : Flags) (p : Palette) (hl : f.output_lowercase = true) :
    ∀ ch ∈ (print_json f p).data, ch.isUpper = false := by
  intro ch hch
  simp only [print_json, json_str, hl, if_true, String.data_append, List.mem_append,
    ToLower, List.mem_map] at hch
  rcases hch with ⟨a, _, rfl⟩ | h
  · exact toLowerRune_not_upper a
  · revert h; revert ch; decide

theorem css_norm_no_upper (f : Flags) (hl : f.output_lowercase = true) (s : String) :
    ∀ ch ∈ (if f.output_lowercase = true then ToLower s else s).data, ch.isUpper = false := by
  intro ch hch
  simp only [hl, if_true, ToLower, List.mem_map] at hch
  obtain ⟨a, _, rfl⟩ := hch
  exact toLowerRune_not_upper a

theorem print_css_lower_no_upper (f : Flags) (p : Palette) (hl : f.output_lowercase = true)
    (out : String) (hout : print_css f p = some out) :
    ∀ ch ∈ out.data, ch.isUpper = false := by
  cases hc : f.output_compress
  · rw [print_css_uncompressed_form f p hc] at hout
    simp only [Option.some.injEq] at hout
    subst hout
    apply concat_chars
    intro s hs
    obtain ⟨e, he, rfl⟩ := List.mem_map.mp hs
    simp only [String.data_append, List.forall_mem_append]
    and_intros
    all_goals first
      | exact css_norm_no_upper f hl _
      | decide
  · rw [print_css_compressed_form f p hc] at hout
    simp only [Option.some.injEq] at hout
    subst hout
    apply concat_chars
    intro s hs
    obtain ⟨e, he, rfl⟩ := List.mem_map.mp hs
    have hlit : ∀ c : Color, ∀ x ∈ (if f.output_rgb = true then
          "rgb(" ++ Nat.repr c.r.val ++ "," ++ Nat.repr c.g.val ++ "," ++ Nat.repr c.b.val ++ ")"
        else (shorthex (if f.output_lowercase = true then ToLower c.RGBHex
          else c.RGBHex)).getD "").data, x.isUpper = false := by
      intro c x hx
      have hn : (if f.output_lowercase = true then ToLower c.RGBHex else c.RGBHex)
          = c.RGBHex := css_case_RGBHex f c
      rw [hn] at hx
      split at hx
      · have := rgbLit_chars _ _ _ x hx
        revert this
        generalize x = y
        revert y
        decide
      · obtain ⟨s, hs⟩ := Option.isSome_iff_exists.mp (shorthex_RGBHex_isSome c)
        rw [hs, Option.getD_some] at hx
        have := shorthex_RGBHex_chars c s hs x hx
        revert this
        generalize x = y
        revert y
        decide
    simp only [String.data_append, List.forall_mem_append]
    and_intros
    all_goals first
      | exact css_norm_no_upper f hl _
      | exact hlit _
      | decide

/-- C8: the claim is broken by the plain renderer: with `lowercase` set it still writes
the swatch name verbatim, so the output for the swatch `Vibrant` holds the upper-case
letter `V`; the JSON and the CSS renderer do keep the claim (no upper-case ASCII letter
in their output when `lowercase` is set, whatever the other flags). -/
theorem lowercase_flag_by_renderer :
    (print_plain ⟨false, false, false, false, true, false⟩
        [("Vibrant", ⟨⟨255, 0, 0⟩, 120, ⟨255, 255, 255⟩⟩)] =
      "     Vibrant: #ff0000, population: 120\n" ∧
    ∃ ch ∈ (print_plain ⟨false, false, false, false, true, false⟩
        [("Vibrant", ⟨⟨255, 0, 0⟩, 120, ⟨255, 255, 255⟩⟩)]).data, ch.isUpper = true) ∧
    (∀ (f : Flags) (p : Palette), f.output_lowercase = true →
      ∀ ch ∈ (print_json f p).data, ch.isUpper = false) ∧
    (∀ (f : Flags) (p : Palette) (out : String), f.output_lowercase = true →
      print_css f p = some out → ∀ ch ∈ out.data, ch.isUpper = false) := by
  refine ⟨⟨by rfl, 'V', by decide, by decide⟩, ?_, ?_⟩
  · intro f p hl
    exact print_json_lower_no_upper f p hl
  · intro f p out hl hout
    exact print_css_lower_no_upper f p hl out hout

theorem strip_plain (l rest : List Char)
    (h : ∀ c ∈ l, c ≠ '"' ∧ c ≠ ' ' ∧ c ≠ '\n' ∧ c ≠ '\t' ∧ c ≠ '\r') :
    jsonStripFrom JsonPos.outside (l ++ rest) = l ++ jsonStripFrom JsonPos.outside rest := by
  induction l with
  | nil => rfl
  | cons c cs ih =>
    obtain ⟨h1, h2, h3, h4, h5⟩ := h c (List.mem_cons_self _ _)
    simp only [List.cons_append, jsonStripFrom, h1, h2, h3, h4, h5, or_self, if_false]
    exact congrArg _ (ih (fun x hx => h x (List.mem_cons_of_mem _ hx)))

theorem strip_space (l rest : List Char)
    (h : ∀ c ∈ l, c = ' ' ∨ c = '\n' ∨ c = '\t' ∨ c = '\r') :
    jsonStripFrom JsonPos.outside (l ++ rest) = jsonStripFrom JsonPos.outside rest := by
  induction l with
  | nil => rfl
  | cons c cs ih =>
    have hc := h c (List.mem_cons_self _ _)
    have hq : c ≠ '"' := by
      rcases hc with h | h | h | h <;> rw [h] <;> decide
    simp only [List.cons_append, jsonStripFrom, hq, hc, if_true, if_false]
    exact ih (fun x hx => h x (List.mem_cons_of_mem _ hx))

theorem strip_inString_plain (l rest : List Char)
    (h : ∀ c ∈ l, c ≠ '"' ∧ c ≠ '\\') :
    jsonStripFrom JsonPos.inString (l ++ rest) = l ++ jsonStripFrom JsonPos.inString rest := by
  induction l with
  | nil => rfl
  | cons c cs ih =>
    obtain ⟨h1, h2⟩ := h c (List.mem_cons_self _ _)
    simp only [List.cons_append, jsonStripFrom, h1, h2, if_false]
    exact congrArg _ (ih (fun x hx => h x (List.mem_cons_of_mem _ hx)))

theorem strip_escape_rune (c : Char) (rest : List Char) :
    jsonStripFrom JsonPos.inString (jsonEscapeRune c ++ rest) =
      jsonEscapeRune c ++ jsonStripFrom JsonPos.inString rest := by
  have hh : ∀ n, hexDigit (n % 16) ≠ '"' ∧ hexDigit (n % 16) ≠ '\\' := by
    intro n
    have := hexDigit_mem (n % 16) (Nat.mod_lt _ (by norm_num))
    revert this
    generalize hexDigit (n % 16) = x
    revert x
    decide
  unfold jsonEscapeRune
  split_ifs with h1 h2 h3 h4 h5 h6 h7 h8 h9
  any_goals rfl
  · have e : ['\\', 'u', '0', '0', hexDigit (c.toNat / 16 % 16), hexDigit (c.toNat % 16)] ++ rest
        = ['\\', 'u'] ++ (['0', '0', hexDigit (c.toNat / 16 % 16), hexDigit (c.toNat % 16)] ++ rest) :=
      rfl
    rw [e]
    simp only [List.cons_append, List.nil_append, jsonStripFrom, if_true]
    simp [jsonStripFrom, (hh (c.toNat / 16)).1, (hh (c.toNat / 16)).2, (hh c.toNat).1,
      (hh c.toNat).2]
  · simp [jsonStripFrom, (hh c.toNat).1, (hh c.toNat).2]
  · simp [jsonStripFrom, h1, h2]

theorem strip_escape_body (cs rest : List Char) :
    jsonStripFrom JsonPos.inString (cs.flatMap jsonEscapeRune ++ rest) =
      cs.flatMap jsonEscapeRune ++ jsonStripFrom JsonPos.inString rest := by
  induction cs with
  | nil => rfl
  | cons c cs ih =>
    rw [List.flatMap_cons, List.append_assoc, strip_escape_rune, ih, List.append_assoc]

theorem jsonQuote_data (s : String) :
    (jsonQuote s).data = '"' :: (s.data.flatMap jsonEscapeRune ++ ['"']) := by
  simp [jsonQuote, String.data_append]

theorem strip_quote (s : String) (rest : List Char) :
    jsonStripFrom JsonPos.outside ((jsonQuote s).data ++ rest) =
      (jsonQuote s).data ++ jsonStripFrom JsonPos.outside rest := by
  rw [jsonQuote_data]
  have hq : ∀ l : List Char, jsonStripFrom JsonPos.outside ('"' :: l) =
      '"' :: jsonStripFrom JsonPos.inString l := by
    intro l; simp [jsonStripFrom]
  rw [List.cons_append, hq, List.append_assoc, strip_escape_body]
  simp [jsonStripFrom]

theorem fmtD_chars (n : Int) : ∀ c ∈ (fmtD n).data, c ∈ "-0123456789".data := by
  intro c hc
  cases n with
  | ofNat m =>
    exact List.mem_cons_of_mem _ (repr_chars m c hc)
  | negSucc m =>
    simp only [fmtD, String.data_append, List.mem_append] at hc
    rcases hc with h | h
    · revert h; revert c; decide
    · exact List.mem_cons_of_mem _ (repr_chars _ c h)

theorem strip_leaf (v : JLeaf) (rest : List Char) :
    jsonStripFrom JsonPos.outside (v.encode.data ++ rest) =
      v.encode.data ++ jsonStripFrom JsonPos.outside rest := by
  cases v with
  | num n =>
    apply strip_plain
    intro c hc
    have := fmtD_chars n c hc
    revert this
    generalize c = x
    revert x
    decide
  | str s => exact strip_quote s rest

/-- Stripping the members of an object laid out with indentation gives the members in
the compact layout, when the same holds for the encoding of every value. -/
theorem strip_members {α : Type} (encP encC : α → String) (ind : String)
    (hind : ∀ c ∈ ind.data, c = ' ' ∨ c = '\n' ∨ c = '\t' ∨ c = '\r')
    (henc : ∀ v rest, jsonStripFrom JsonPos.outside ((encP v).data ++ rest) =
      (encC v).data ++ jsonStripFrom JsonPos.outside rest)
    (ms : List (String × α)) (rest : List Char) :
    jsonStripFrom JsonPos.outside ((jsonMembers encP ind ": " ",\n" ms).data ++ rest) =
      (jsonMembers encC "" ":" "," ms).data ++ jsonStripFrom JsonPos.outside rest := by
  have hone : ∀ (k : String) (v : α) (rest : List Char),
      jsonStripFrom JsonPos.outside
        (ind.data ++ ((jsonQuote k).data ++ (": ".data ++ ((encP v).data ++ rest)))) =
      (jsonQuote k).data ++ (":".data ++ ((encC v).data ++
        jsonStripFrom JsonPos.outside rest)) := by
    intro k v rest
    rw [strip_space _ _ hind, strip_quote]
    have e : ": ".data ++ ((encP v).data ++ rest) = [':'] ++ ([' '] ++ ((encP v).data ++ rest)) :=
      rfl
    rw [e, strip_plain [':'] _ (by decide), strip_space [' '] _ (by decide), henc]
  induction ms with
  | nil => rfl
  | cons m ms ih =>
    obtain ⟨k, v⟩ := m
    cases ms with
    | nil =>
      simp only [jsonMembers, String.data_append, List.append_assoc]
      rw [hone]
      rfl
    | cons m2 ms2 =>
      simp only [jsonMembers, String.data_append, List.append_assoc] at ih ⊢
      rw [hone]
      have e : ",\n".data ++ ((jsonMembers encP ind ": " ",\n" (m2 :: ms2)).data ++ rest) =
          [','] ++ (['\n'] ++ ((jsonMembers encP ind ": " ",\n" (m2 :: ms2)).data ++ rest)) := rfl
      rw [e, strip_plain [','] _ (by decide), strip_space ['\n'] _ (by decide), ih]
      rfl

theorem strip_inner (ms : List (String × JLeaf)) (rest : List Char) :
    jsonStripFrom JsonPos.outside ((jsonInnerIndent ms).data ++ rest) =
      (jsonInnerCompact ms).data ++ jsonStripFrom JsonPos.outside rest := by
  cases ms with
  | nil =>
    exact strip_plain ['\x7b', '\x7d'] rest (by decide)
  | cons m ms =>
    simp only [jsonInnerIndent, jsonInnerCompact, String.data_append, List.append_assoc]
    have e1 : "\x7b\n".data ++ ((jsonMembers JLeaf.encode "    " ": " ",\n" (m :: ms)).data ++
        ("\n  \x7d".data ++ rest)) = ['\x7b'] ++ (['\n'] ++
        ((jsonMembers JLeaf.encode "    " ": " ",\n" (m :: ms)).data ++
        (['\n', ' ', ' '] ++ (['\x7d'] ++ rest)))) := rfl
    rw [e1, strip_plain ['\x7b'] _ (by decide), strip_space ['\n'] _ (by decide),
      strip_members JLeaf.encode JLeaf.encode "    " (by decide) strip_leaf,
      strip_space ['\n', ' ', ' '] _ (by decide), strip_plain ['\x7d'] _ (by decide)]

theorem strip_outer (out : List (String × List (String × JLeaf))) (rest : List Char) :
    jsonStripFrom JsonPos.outside ((MarshalIndent out).data ++ rest) =
      (Marshal out).data ++ jsonStripFrom JsonPos.outside rest := by
  cases out with
  | nil => exact strip_plain ['\x7b', '\x7d'] rest (by decide)
  | cons m ms =>
    simp only [MarshalIndent, Marshal, String.data_append, List.append_assoc]
    have e1 : "\x7b\n".data ++ ((jsonMembers jsonInnerIndent "  " ": " ",\n" (m :: ms)).data ++
        ("\n\x7d".data ++ rest)) = ['\x7b'] ++ (['\n'] ++
        ((jsonMembers jsonInnerIndent "  " ": " ",\n" (m :: ms)).data ++
        (['\n'] ++ (['\x7d'] ++ rest)))) := rfl
    rw [e1, strip_plain ['\x7b'] _ (by decide), strip_space ['\n'] _ (by decide),
      strip_members jsonInnerIndent jsonInnerCompact "  " (by decide) strip_inner,
      strip_space ['\n'] _ (by decide), strip_plain ['\x7d'] _ (by decide)]

theorem strip_map_toLower (st : JsonPos) (l : List Char) :
    jsonStripFrom st (l.map toLowerRune) = (jsonStripFrom st l).map toLowerRune := by
  induction l generalizing st with
  | nil => cases st <;> rfl
  | cons c cs ih =>
    have hq := toLowerRune_eq_iff c '"' (by decide)
    have hb := toLowerRune_eq_iff c '\\' (by decide)
    have h1 := toLowerRune_eq_iff c ' ' (by decide)
    have h2 := toLowerRune_eq_iff c '\n' (by decide)
    have h3 := toLowerRune_eq_iff c '\t' (by decide)
    have h4 := toLowerRune_eq_iff c '\r' (by decide)
    cases st
    · simp only [List.map_cons, jsonStripFrom, hq, h1, h2, h3, h4, ih]
      split_ifs <;> simp
    · simp only [List.map_cons, jsonStripFrom, hq, hb, ih]
      split_ifs <;> simp
    · simp only [List.map_cons, jsonStripFrom, ih]

theorem json_value_rgb_only (f g : Flags) (h : f.output_rgb = g.output_rgb) (sw : Swatch) :
    json_value f sw = json_value g sw := by
  simp only [json_value, h]

theorem json_out_rgb_only (f g : Flags) (h : f.output_rgb = g.output_rgb) (p : Palette) :
    json_out f p = json_out g p := by
  have : (fun (out : List (String × List (String × JLeaf))) (e : String × Swatch) =>
      mapSet out e.1 (json_value f e.2)) = fun out e => mapSet out e.1 (json_value g e.2) := by
    funext out e
    rw [json_value_rgb_only f g h]
  simp only [json_out, this]

/-- C7: the pretty JSON text (compress unset, 2-space indent) and the compact JSON text
(compress set) of the same palette, with the same settings of lowercase and
useRgbFunctional, differ only in whitespace between tokens: deleting the whitespace
outside string literals from the pretty text gives the compact text; both outputs are
these texts followed by the newline of `Println`. -/
theorem json_pretty_strip_eq_compact (f g : Flags) (p : Palette)
    (hf : f.output_compress = false) (hg : g.output_compress = true)
    (hl : f.output_lowercase = g.output_lowercase) (hr : f.output_rgb = g.output_rgb) :
    jsonStrip (json_str f p) = json_str g p ∧
    print_json f p = json_str f p ++ "\n" ∧ print_json g p = json_str g p ++ "\n" ∧
    jsonStrip (print_json f p) ++ "\n" = print_json g p := by
  have key : ∀ rest : List Char, (∀ c ∈ rest, toLowerRune c = c) →
      jsonStripFrom JsonPos.outside ((json_str f p).data ++ rest) =
        (json_str g p).data ++ jsonStripFrom JsonPos.outside rest := by
    intro rest hrest
    simp only [json_str, hf, hg, ← hl, json_out_rgb_only f g hr p, if_true,
      if_false, Bool.false_eq_true]
    split
    · have hm : rest = rest.map toLowerRune :=
        ((List.map_congr_left hrest).trans (List.map_id _)).symm
      simp only [ToLower]
      conv_lhs => rw [hm]
      rw [← List.map_append, strip_map_toLower, strip_outer, List.map_append,
        ← strip_map_toLower, ← hm]
    · exact strip_outer _ _
  have h1 : jsonStrip (json_str f p) = json_str g p := by
    apply String.ext
    have := key [] (by simp)
    simpa [jsonStrip, jsonStripFrom] using this
  refine ⟨h1, rfl, rfl, ?_⟩
  apply String.ext
  have := key ['\n'] (by decide)
  simp only [print_json, jsonStrip, String.data_append]
  rw [this]
  simp [jsonStripFrom]

theorem expect_append (l rest : List Char) : expect l (l ++ rest) = some rest := by
  induction l with
  | nil => cases rest <;> rfl
  | cons a as ih => simp [expect, ih]

theorem span_until (q : Char → Bool) (l rest : List Char) (c : Char)
    (hl : ∀ x ∈ l, q x = true) (hc : q c = false) :
    (l ++ c :: rest).span q = (l, c :: rest) := by
  induction l with
  | nil => simp [List.span_eq_take_drop, List.takeWhile, List.dropWhile, hc]
  | cons a as ih =>
    have ha := hl a (List.mem_cons_self _ _)
    have := ih (fun x hx => hl x (List.mem_cons_of_mem _ hx))
    simp only [List.span_eq_take_drop, Prod.mk.injEq] at this ⊢
    simp [List.takeWhile, List.dropWhile, ha, this.1, this.2]

theorem rgbLit_data (r g b : Nat) :
    ("rgb(" ++ Nat.repr r ++ "," ++ Nat.repr g ++ "," ++ Nat.repr b ++ ")").data =
      'r' :: ('g' :: 'b' :: '(' :: ((Nat.repr r).data ++ ',' :: ((Nat.repr g).data ++
        ',' :: ((Nat.repr b).data ++ [')'])))) := by
  simp [String.data_append]

theorem expandShort_rgbLit (r g b : Nat) :
    expandShort ("rgb(" ++ Nat.repr r ++ "," ++ Nat.repr g ++ "," ++ Nat.repr b ++ ")") =
      "rgb(" ++ Nat.repr r ++ "," ++ Nat.repr g ++ "," ++ Nat.repr b ++ ")" := by
  unfold expandShort
  split
  · rename_i c0 c1 c2 c3 heq
    rw [rgbLit_data] at heq
    have h0 : c0 = 'r' := by
      injection heq with h _
      exact h.symm
    have hne : ¬ (c0 = '#' ∧ (bytesOf ("rgb(" ++ Nat.repr r ++ "," ++ Nat.repr g ++ ","
        ++ Nat.repr b ++ ")")).length = 4) := by
      rintro ⟨h, _⟩
      rw [h0] at h
      revert h; decide
    rw [if_neg hne]
  · rfl

theorem expandShort_RGBHex (c : Color) : expandShort c.RGBHex = c.RGBHex := by
  unfold expandShort
  rw [RGBHex_data]

theorem expandShort_shorthex_RGBHex (c : Color) (s : String) (h : shorthex c.RGBHex = some s) :
    expandShort s = c.RGBHex := by
  rw [shorthex_RGBHex] at h
  simp only [Option.some.injEq] at h
  subst h
  split
  · rename_i hp
    obtain ⟨e1, e2, e3⟩ := hp
    have hlen : (bytesOf ⟨['#', hexDigit (c.r.val / 16 % 16), hexDigit (c.g.val / 16 % 16),
        hexDigit (c.b.val / 16 % 16)]⟩).length = 4 := by
      simp only [bytesOf, List.flatMap_cons, List.flatMap_nil]
      rw [utf8EncodeRune_ascii _ (hexDigit_props _).1, utf8EncodeRune_ascii _ (hexDigit_props _).1,
        utf8EncodeRune_ascii _ (hexDigit_props _).1]
      rfl
    apply String.ext
    rw [RGBHex_data]
    simp only [expandShort, hlen, and_self, if_true]
    rw [← e1, ← e2, ← e3]
  · exact expandShort_RGBHex c

theorem lit_full_props (f : Flags) (c : Color) :
    (∀ ch ∈ (if f.output_lowercase = true then ToLower (if f.output_rgb = true then
          "rgb(" ++ Nat.repr c.r.val ++ "," ++ Nat.repr c.g.val ++ "," ++ Nat.repr c.b.val ++ ")"
        else c.RGBHex) else (if f.output_rgb = true then
          "rgb(" ++ Nat.repr c.r.val ++ "," ++ Nat.repr c.g.val ++ "," ++ Nat.repr c.b.val ++ ")"
        else c.RGBHex)).data,
      cssSpace ch = false ∧ ch ≠ '\x7b' ∧ ch ≠ ';' ∧ ch ≠ '\x7d') ∧
    (∃ h t, (if f.output_lowercase = true then ToLower (if f.output_rgb = true then
          "rgb(" ++ Nat.repr c.r.val ++ "," ++ Nat.repr c.g.val ++ "," ++ Nat.repr c.b.val ++ ")"
        else c.RGBHex) else (if f.output_rgb = true then
          "rgb(" ++ Nat.repr c.r.val ++ "," ++ Nat.repr c.g.val ++ "," ++ Nat.repr c.b.val ++ ")"
        else c.RGBHex)).data = h :: t ∧ cssSpace h = false) ∧
    expandShort (if f.output_lowercase = true then ToLower (if f.output_rgb = true then
          "rgb(" ++ Nat.repr c.r.val ++ "," ++ Nat.repr c.g.val ++ "," ++ Nat.repr c.b.val ++ ")"
        else c.RGBHex) else (if f.output_rgb = true then
          "rgb(" ++ Nat.repr c.r.val ++ "," ++ Nat.repr c.g.val ++ "," ++ Nat.repr c.b.val ++ ")"
        else c.RGBHex)) =
      (if f.output_rgb = true then
          "rgb(" ++ Nat.repr c.r.val ++ "," ++ Nat.repr c.g.val ++ "," ++ Nat.repr c.b.val ++ ")"
        else c.RGBHex) := by
  cases hr : f.output_rgb
  · simp only [Bool.false_eq_true, if_false]
    have hn : (if f.output_lowercase = true then ToLower c.RGBHex else c.RGBHex) = c.RGBHex :=
      css_case_RGBHex f c
    rw [hn]
    refine ⟨?_, ⟨'#', _, RGBHex_data c, by decide⟩, expandShort_RGBHex c⟩
    intro ch hch
    have := RGBHex_chars c ch hch
    revert this
    generalize ch = x
    revert x
    decide
  · simp only [if_true]
    have hn := css_case_rgbLit f c.r.val c.g.val c.b.val
    unfold css_case at hn
    rw [hn]
    refine ⟨?_, ⟨'r', _, rgbLit_data _ _ _, by decide⟩, expandShort_rgbLit _ _ _⟩
    intro ch hch
    have := rgbLit_chars _ _ _ ch hch
    revert this
    generalize ch = x
    revert x
    decide

theorem lit_short_props (f : Flags) (c : Color) :
    (∀ ch ∈ (if f.output_rgb = true then
          "rgb(" ++ Nat.repr c.r.val ++ "," ++ Nat.repr c.g.val ++ "," ++ Nat.repr c.b.val ++ ")"
        else (shorthex (if f.output_lowercase = true then ToLower c.RGBHex
          else c.RGBHex)).getD "").data,
      cssSpace ch = false ∧ ch ≠ '\x7b' ∧ ch ≠ ';' ∧ ch ≠ '\x7d') ∧
    (∃ h t, (if f.output_rgb = true then
          "rgb(" ++ Nat.repr c.r.val ++ "," ++ Nat.repr c.g.val ++ "," ++ Nat.repr c.b.val ++ ")"
        else (shorthex (if f.output_lowercase = true then ToLower c.RGBHex
          else c.RGBHex)).getD "").data = h :: t ∧ cssSpace h = false) ∧
    expandShort (if f.output_rgb = true then
          "rgb(" ++ Nat.repr c.r.val ++ "," ++ Nat.repr c.g.val ++ "," ++ Nat.repr c.b.val ++ ")"
        else (shorthex (if f.output_lowercase = true then ToLower c.RGBHex
          else c.RGBHex)).getD "") =
      (if f.output_rgb = true then
          "rgb(" ++ Nat.repr c.r.val ++ "," ++ Nat.repr c.g.val ++ "," ++ Nat.repr c.b.val ++ ")"
        else c.RGBHex) := by
  cases hr : f.output_rgb
  · simp only [Bool.false_eq_true, if_false]
    have hn : (if f.output_lowercase = true then ToLower c.RGBHex else c.RGBHex) = c.RGBHex :=
      css_case_RGBHex f c
    rw [hn]
    obtain ⟨s, hs⟩ := Option.isSome_iff_exists.mp (shorthex_RGBHex_isSome c)
    rw [hs, Option.getD_some]
    refine ⟨?_, ?_, expandShort_shorthex_RGBHex c s hs⟩
    · intro ch hch
      have := shorthex_RGBHex_chars c s hs ch hch
      revert this
      generalize ch = x
      revert x
      decide
    · rw [shorthex_RGBHex] at hs
      simp only [Option.some.injEq] at hs
      subst hs
      split
      · exact ⟨'#', _, rfl, by decide⟩
      · exact ⟨'#', _, RGBHex_data c, by decide⟩
  · simp only [if_true]
    refine ⟨?_, ⟨'r', _, rgbLit_data _ _ _, by decide⟩, expandShort_rgbLit _ _ _⟩
    intro ch hch
    have := rgbLit_chars _ _ _ ch hch
    revert this
    generalize ch = x
    revert x
    decide

theorem css_norm_no_brace (f : Flags) (name : String) (h : ∀ c ∈ name.data, c ≠ '\x7b') :
    ∀ c ∈ (if f.output_lowercase = true then ToLower name else name).data, c ≠ '\x7b' := by
  intro c hc
  split at hc
  · simp only [ToLower, List.mem_map] at hc
    obtain ⟨a, ha, rfl⟩ := hc
    intro hq
    exact h a ha ((toLowerRune_eq_iff a '\x7b' (by decide)).mp hq)
  · exact h c hc

theorem cssRun_cons (r : CssReader) (c : Char) (cs : List Char) :
    cssRun r (c :: cs) = (cssStep r c).bind fun r1 => cssRun r1 cs := rfl

theorem cssRun_append (a b : List Char) : ∀ r : CssReader,
    cssRun r (a ++ b) = (cssRun r a).bind fun r1 => cssRun r1 b := by
  induction a with
  | nil => intro r; rfl
  | cons c cs ih =>
    intro r
    simp only [List.cons_append, cssRun_cons]
    cases cssStep r c with
    | none => rfl
    | some r1 => simp only [Option.some_bind, ih]

theorem cssRun_selector_chars (N rest : List Char) (hN : ∀ c ∈ N, c ≠ '\x7b') :
    ∀ acc sel bg rules, cssRun ⟨CssPos.selector, acc, sel, bg, rules⟩ (N ++ rest) =
      cssRun ⟨CssPos.selector, acc ++ N, sel, bg, rules⟩ rest := by
  induction N with
  | nil => intro acc sel bg rules; simp
  | cons c cs ih =>
    intro acc sel bg rules
    have hc : c ≠ '\x7b' := hN c (List.mem_cons_self _ _)
    simp only [List.cons_append, cssRun_cons, cssStep, hc, if_false, Option.some_bind]
    rw [ih (fun x hx => hN x (List.mem_cons_of_mem _ hx))]
    simp

/-- A character that can stand inside a declaration value. -/
theorem cssRun_value_chars (second : Bool) (V rest : List Char)
    (hV : ∀ c ∈ V, cssSpace c = false ∧ c ≠ '\x7b' ∧ c ≠ ';' ∧ c ≠ '\x7d') :
    ∀ acc sel bg rules, cssRun ⟨CssPos.value second, acc, sel, bg, rules⟩ (V ++ rest) =
      cssRun ⟨CssPos.value second, acc ++ V, sel, bg, rules⟩ rest := by
  induction V with
  | nil => intro acc sel bg rules; simp
  | cons c cs ih =>
    intro acc sel bg rules
    obtain ⟨h1, h2, h3, h4⟩ := hV c (List.mem_cons_self _ _)
    simp only [List.cons_append, cssRun_cons, cssStep, h1, h2, h3, h4, if_false, Option.some_bind,
      Bool.false_eq_true]
    rw [ih (fun x hx => hV x (List.mem_cons_of_mem _ hx))]
    simp

theorem cssRun_space_start (w rest : List Char) (hw : ∀ c ∈ w, cssSpace c = true)
    (acc sel bg : List Char) (rules : List (String × String × String)) :
    cssRun ⟨CssPos.start, acc, sel, bg, rules⟩ (w ++ rest) =
      cssRun ⟨CssPos.start, acc, sel, bg, rules⟩ rest := by
  induction w with
  | nil => rfl
  | cons c cs ih =>
    have hc := hw c (List.mem_cons_self _ _)
    simp only [List.cons_append, cssRun_cons, cssStep, hc, if_true, Option.some_bind]
    exact ih (fun x hx => hw x (List.mem_cons_of_mem _ hx))

theorem cssRun_space_close (w rest : List Char) (hw : ∀ c ∈ w, cssSpace c = true)
    (acc sel bg : List Char) (rules : List (String × String × String)) :
    cssRun ⟨CssPos.close, acc, sel, bg, rules⟩ (w ++ rest) =
      cssRun ⟨CssPos.close, acc, sel, bg, rules⟩ rest := by
  induction w with
  | nil => rfl
  | cons c cs ih =>
    have hc := hw c (List.mem_cons_self _ _)
    simp only [List.cons_append, cssRun_cons, cssStep, hc, if_true, Option.some_bind]
    exact ih (fun x hx => hw x (List.mem_cons_of_mem _ hx))

theorem cssRun_space_property (second : Bool) (w rest : List Char)
    (hw : ∀ c ∈ w, cssSpace c = true)
    (acc sel bg : List Char) (rules : List (String × String × String)) :
    cssRun ⟨CssPos.property second 0, acc, sel, bg, rules⟩ (w ++ rest) =
      cssRun ⟨CssPos.property second 0, acc, sel, bg, rules⟩ rest := by
  induction w with
  | nil => rfl
  | cons c cs ih =>
    have hc := hw c (List.mem_cons_self _ _)
    simp only [List.cons_append, cssRun_cons, cssStep, hc, and_self, if_true, Option.some_bind]
    exact ih (fun x hx => hw x (List.mem_cons_of_mem _ hx))

theorem cssRun_space_value (second : Bool) (w rest : List Char)
    (hw : ∀ c ∈ w, cssSpace c = true)
    (sel bg : List Char) (rules : List (String × String × String)) :
    cssRun ⟨CssPos.value second, [], sel, bg, rules⟩ (w ++ rest) =
      cssRun ⟨CssPos.value second, [], sel, bg, rules⟩ rest := by
  induction w with
  | nil => rfl
  | cons c cs ih =>
    have hc := hw c (List.mem_cons_self _ _)
    simp only [List.cons_append, cssRun_cons, cssStep, hc, if_true, Option.some_bind]
    exact ih (fun x hx => hw x (List.mem_cons_of_mem _ hx))

theorem cssRun_property (second : Bool) (rest : List Char)
    (acc sel bg : List Char) (rules : List (String × String × String)) :
    cssRun ⟨CssPos.property second 0, acc, sel, bg, rules⟩ (cssProperty second ++ rest) =
      cssRun ⟨CssPos.value second, [], sel, bg, rules⟩ rest := by
  cases second <;> rfl

theorem trimRight_append_spaces (l w : List Char) (hw : ∀ c ∈ w, cssSpace c = true) :
    trimRight (l ++ w) = trimRight l := by
  unfold trimRight
  rw [List.reverse_append]
  congr 1
  have : ∀ (v : List Char), (∀ c ∈ v, cssSpace c = true) → ∀ t : List Char,
      (v ++ t).dropWhile cssSpace = t.dropWhile cssSpace := by
    intro v hv t
    induction v with
    | nil => rfl
    | cons a as ih =>
      rw [List.cons_append, List.dropWhile_cons, if_pos (hv a (List.mem_cons_self _ _))]
      exact ih (fun x hx => hv x (List.mem_cons_of_mem _ hx))
  exact this _ (fun c hc => hw c (List.mem_reverse.mp hc)) _

theorem cssSpace_cases (c : Char) (h : cssSpace c = true) :
    c ≠ '\x7b' ∧ c ≠ '\x7d' ∧ c ≠ '.' ∧ c ≠ ';' := by
  simp only [cssSpace, Bool.or_eq_true, decide_eq_true_eq] at h
  rcases h with ((h | h) | h) | h <;> rw [h] <;> decide

theorem cssProperty_get (second : Bool) (i : Nat) (c : Char)
    (h : (cssProperty second)[i]? = some c) : cssSpace c = false ∧ c ≠ '\x7b' := by
  have hm : c ∈ cssProperty second := List.mem_iff_getElem?.mpr ⟨i, h⟩
  revert hm
  cases second <;> (generalize c = x; revert x; decide)

/-- One rule body read from inside the selector: the layout whitespace `w1`, ..., `w7`
is skipped, the `;` after the second value may be missing, and the rule joins the rules
read so far. -/
theorem cssRun_rule_tail (w1 w2 w3 w4 w5 w6 w7 sc BG FG rest : List Char)
    (h1 : ∀ c ∈ w1, cssSpace c = true) (h2 : ∀ c ∈ w2, cssSpace c = true)
    (h3 : ∀ c ∈ w3, cssSpace c = true) (h4 : ∀ c ∈ w4, cssSpace c = true)
    (h5 : ∀ c ∈ w5, cssSpace c = true) (h6 : ∀ c ∈ w6, cssSpace c = true)
    (h7 : ∀ c ∈ w7, cssSpace c = true)
    (hsc : sc = [';'] ∨ (sc = [] ∧ w6 = []))
    (hBG : ∀ c ∈ BG, cssSpace c = false ∧ c ≠ '\x7b' ∧ c ≠ ';' ∧ c ≠ '\x7d') (hBG0 : BG ≠ [])
    (hFG : ∀ c ∈ FG, cssSpace c = false ∧ c ≠ '\x7b' ∧ c ≠ ';' ∧ c ≠ '\x7d') (hFG0 : FG ≠ [])
    (acc sel bg : List Char) (rules : List (String × String × String)) :
    cssRun ⟨CssPos.selector, acc, sel, bg, rules⟩
      (w1 ++ ('\x7b' :: (w2 ++ (cssProperty false ++ (w3 ++ (BG ++ (';' :: (w4 ++ (cssProperty true ++ (w5 ++ (FG ++ (sc ++ (w6 ++ ('\x7d' :: (w7 ++ rest))))))))))))))) =
      cssRun ⟨CssPos.start, [], [], [],
        rules ++ [(⟨trimRight acc⟩, expandShort ⟨BG⟩, expandShort ⟨FG⟩)]⟩ rest := by
  rw [cssRun_selector_chars w1 _ (fun c hc => (cssSpace_cases c (h1 c hc)).1)]
  rw [cssRun_cons]
  simp only [cssStep, if_true, Option.some_bind]
  rw [cssRun_space_property false w2 _ h2, cssRun_property, cssRun_space_value false w3 _ h3,
    cssRun_value_chars false BG _ hBG, cssRun_cons]
  have e1 : cssSpace ';' = false := by decide
  have e2 : (';' : Char) ≠ '\x7b' := by decide
  have e3 : cssSpace '\x7d' = false := by decide
  have e4 : ('\x7d' : Char) ≠ '\x7b' := by decide
  have e5 : ('\x7d' : Char) ≠ ';' := by decide
  simp only [cssStep, e1, e2, List.nil_append, hBG0, if_true, if_false, Option.some_bind,
    Bool.false_eq_true]
  rw [cssRun_space_property true w4 _ h4, cssRun_property, cssRun_space_value true w5 _ h5,
    cssRun_value_chars true FG _ hFG, trimRight_append_spaces acc w1 h1]
  rcases hsc with hsc | ⟨hsc, hw6⟩
  · subst hsc
    rw [List.singleton_append, cssRun_cons]
    simp only [cssStep, e1, e2, List.nil_append, hFG0, if_true, if_false, Option.some_bind,
      Bool.false_eq_true]
    rw [cssRun_space_close w6 _ h6, cssRun_cons]
    simp only [cssStep, e3, if_true, if_false, Option.some_bind, Bool.false_eq_true,
      CssReader.finish]
    rw [cssRun_space_start w7 _ h7]
  · subst hsc hw6
    simp only [List.nil_append]
    rw [cssRun_cons]
    simp only [cssStep, e3, e4, e5, List.nil_append, hFG0, if_true, if_false, Option.some_bind,
      Bool.false_eq_true, ne_eq, not_false_eq_true, and_self, CssReader.finish]
    rw [cssRun_space_start w7 _ h7]

/-- Outside a selector an opening brace, also after whitespace, is an error. -/
theorem cssRun_brace_error (w rest : List Char) (hw : ∀ c ∈ w, cssSpace c = true) :
    ∀ r : CssReader, r.pos ≠ CssPos.selector → cssRun r (w ++ '\x7b' :: rest) = none := by
  have e1 : cssSpace '\x7b' = false := by decide
  have e2 : ('\x7b' : Char) ≠ '.' := by decide
  induction w with
  | nil =>
    intro r hr
    obtain ⟨pos, acc, sel, bg, rules⟩ := r
    rw [List.nil_append, cssRun_cons]
    cases pos with
    | start => simp [cssStep, e1]
    | selector => exact absurd rfl hr
    | property second i =>
      have hk : (cssProperty second)[i]? ≠ some '\x7b' := fun h =>
        (cssProperty_get second i _ h).2 rfl
      simp [cssStep, e1, hk]
    | value second => simp [cssStep, e1]
    | close => simp [cssStep, e1]
  | cons c cs ih =>
    intro r hr
    have hc := hw c (List.mem_cons_self _ _)
    have ih2 := ih (fun x hx => hw x (List.mem_cons_of_mem _ hx))
    obtain ⟨pos, acc, sel, bg, rules⟩ := r
    rw [List.cons_append, cssRun_cons]
    cases pos with
    | start =>
      simp only [cssStep, hc, if_true, Option.some_bind]
      exact ih2 _ (by simp)
    | selector => exact absurd rfl hr
    | property second i =>
      have hk : (cssProperty second)[i]? ≠ some c := fun h => by
        have := (cssProperty_get second i _ h).1
        rw [hc] at this
        exact absurd this (by decide)
      by_cases hi : i = 0
      · subst hi
        simp only [cssStep, hc, and_self, if_true, Option.some_bind]
        exact ih2 _ (by simp)
      · simp [cssStep, hi, hk]
    | value second =>
      by_cases ha : acc = []
      · subst ha
        simp only [cssStep, hc, if_true, Option.some_bind]
        exact ih2 _ (by simp)
      · simp [cssStep, hc, ha]
    | close =>
      simp only [cssStep, hc, if_true, Option.some_bind]
      exact ih2 _ (by simp)

/-- The two layouts of one rule body take the reader from any state to the same
state. -/
theorem cssRun_layouts (BG FG BGs FGs : List Char)
    (hBG : ∀ c ∈ BG, cssSpace c = false ∧ c ≠ '\x7b' ∧ c ≠ ';' ∧ c ≠ '\x7d') (hBG0 : BG ≠ [])
    (hFG : ∀ c ∈ FG, cssSpace c = false ∧ c ≠ '\x7b' ∧ c ≠ ';' ∧ c ≠ '\x7d') (hFG0 : FG ≠ [])
    (hBGs : ∀ c ∈ BGs, cssSpace c = false ∧ c ≠ '\x7b' ∧ c ≠ ';' ∧ c ≠ '\x7d')
    (hBGs0 : BGs ≠ [])
    (hFGs : ∀ c ∈ FGs, cssSpace c = false ∧ c ≠ '\x7b' ∧ c ≠ ';' ∧ c ≠ '\x7d')
    (hFGs0 : FGs ≠ [])
    (eBG : expandShort ⟨BGs⟩ = expandShort ⟨BG⟩) (eFG : expandShort ⟨FGs⟩ = expandShort ⟨FG⟩)
    (r : CssReader) :
    cssRun r
      ([' '] ++ ('\x7b' :: (['\n', ' ', ' '] ++ (cssProperty false ++ ([' '] ++ (BG ++ (';' :: (['\n', ' ', ' '] ++ (cssProperty true ++ ([' '] ++ (FG ++ ([';'] ++ (['\n'] ++ ('\x7d' :: (['\n'] ++ []))))))))))))))) =
    cssRun r
      ([] ++ ('\x7b' :: ([] ++ (cssProperty false ++ ([] ++ (BGs ++ (';' :: ([] ++ (cssProperty true ++ ([] ++ (FGs ++ ([] ++ ([] ++ ('\x7d' :: ([] ++ []))))))))))))))) := by
  by_cases hr : r.pos = CssPos.selector
  · obtain ⟨pos, acc, sel, bg, rules⟩ := r
    simp only at hr
    subst hr
    rw [cssRun_rule_tail [' '] ['\n', ' ', ' '] [' '] ['\n', ' ', ' '] [' '] ['\n'] ['\n'] [';']
        BG FG [] (by decide) (by decide) (by decide) (by decide) (by decide) (by decide)
        (by decide) (Or.inl rfl) hBG hBG0 hFG hFG0,
      cssRun_rule_tail [] [] [] [] [] [] [] [] BGs FGs [] (by decide) (by decide) (by decide)
        (by decide) (by decide) (by decide) (by decide) (Or.inr ⟨rfl, rfl⟩) hBGs hBGs0 hFGs hFGs0,
      eBG, eFG]
  · rw [cssRun_brace_error [' '] _ (by decide) r hr, cssRun_brace_error [] _ (by decide) r hr]

/-- Texts made of the same prefixes followed by bodies that the reader cannot tell apart
are read alike. -/
theorem cssRun_texts {α : Type} (U C : α → List Char) (p : List α)
    (h : ∀ e ∈ p, ∃ X TU TC, U e = X ++ TU ∧ C e = X ++ TC ∧
      ∀ r, cssRun r TU = cssRun r TC) :
    ∀ r, cssRun r (p.flatMap U) = cssRun r (p.flatMap C) := by
  induction p with
  | nil => intro r; rfl
  | cons e rest ih =>
    intro r
    obtain ⟨X, TU, TC, hU, hC, hT⟩ := h e (List.mem_cons_self _ _)
    have ih2 := ih (fun x hx => h x (List.mem_cons_of_mem _ hx))
    rw [List.flatMap_cons, List.flatMap_cons, hU, hC, List.append_assoc, List.append_assoc,
      cssRun_append, cssRun_append X]
    cases cssRun r X with
    | none => rfl
    | some r1 =>
      simp only [Option.some_bind]
      rw [cssRun_append, cssRun_append TC, hT r1]
      cases cssRun r1 TC with
      | none => rfl
      | some r2 => simp only [Option.some_bind]; exact ih2 r2

theorem cssRun_rules {α : Type} (C : α → List Char) (T : α → String × String × String)
    (p : List α)
    (h : ∀ e ∈ p, ∀ rules rest, cssRun ⟨CssPos.start, [], [], [], rules⟩ (C e ++ rest) =
      cssRun ⟨CssPos.start, [], [], [], rules ++ [T e]⟩ rest) :
    ∀ rules, cssRun ⟨CssPos.start, [], [], [], rules⟩ (p.flatMap C) =
      some ⟨CssPos.start, [], [], [], rules ++ p.map T⟩ := by
  induction p with
  | nil => intro rules; simp [cssRun]
  | cons e rest ih =>
    intro rules
    rw [List.flatMap_cons, h e (List.mem_cons_self _ _),
      ih (fun x hx => h x (List.mem_cons_of_mem _ hx))]
    simp


theorem concat_map_data {α : Type} (F : α → String) (p : List α) :
    (concat (p.map F)).data = p.flatMap fun e => (F e).data := by
  induction p with
  | nil => rfl
  | cons e rest ih => simp only [List.map_cons, concat, String.data_append, ih, List.flatMap_cons]

theorem data_ne_nil_of_head (s : String) (h : ∃ a t, s.data = a :: t ∧ cssSpace a = false) :
    s.data ≠ [] := by
  obtain ⟨a, t, ht, _⟩ := h
  rw [ht]
  exact List.cons_ne_nil _ _

theorem cssRun_rule_compressed (N BG FG : String) (rest : List Char)
    (hN : ∀ c ∈ N.data, c ≠ '\x7b')
    (hBG : ∀ c ∈ BG.data, cssSpace c = false ∧ c ≠ '\x7b' ∧ c ≠ ';' ∧ c ≠ '\x7d')
    (hBG0 : BG.data ≠ [])
    (hFG : ∀ c ∈ FG.data, cssSpace c = false ∧ c ≠ '\x7b' ∧ c ≠ ';' ∧ c ≠ '\x7d')
    (hFG0 : FG.data ≠ [])
    (rules : List (String × String × String)) :
    cssRun ⟨CssPos.start, [], [], [], rules⟩
        (("." ++ N ++ "\x7bbackground-color:" ++ BG ++ ";color:" ++ FG ++ "\x7d").data ++ rest) =
      cssRun ⟨CssPos.start, [], [], [],
        rules ++ [(⟨trimRight N.data⟩, expandShort BG, expandShort FG)]⟩ rest := by
  have hd : ("." ++ N ++ "\x7bbackground-color:" ++ BG ++ ";color:" ++ FG ++ "\x7d").data ++ rest =
      '.' :: (N.data ++ ([] ++ ('\x7b' :: ([] ++ (cssProperty false ++ ([] ++ (BG.data ++
        (';' :: ([] ++ (cssProperty true ++ ([] ++ (FG.data ++ ([] ++ ([] ++
        ('\x7d' :: ([] ++ rest)))))))))))))))) := by
    simp [String.data_append, cssProperty]
  have hdot : ∀ l : List Char, cssRun ⟨CssPos.start, [], [], [], rules⟩ ('.' :: l) =
      cssRun ⟨CssPos.selector, [], [], [], rules⟩ l := fun l => rfl
  rw [hd, hdot, cssRun_selector_chars _ _ hN,
    cssRun_rule_tail [] [] [] [] [] [] [] [] BG.data FG.data rest (by decide) (by decide)
      (by decide) (by decide) (by decide) (by decide) (by decide) (Or.inr ⟨rfl, rfl⟩)
      hBG hBG0 hFG hFG0]
  rfl

/-- C6: for every palette and the same settings of lowercase and useRgbFunctional, the
uncompressed and the compressed CSS outputs read back alike: parsing each into its list
of (selector name, background colour, text colour) triples, a `#rgb` literal being read
as `#rrggbb`, gives the same result; and when no name holds an opening brace (which ends
a selector) both are read as the list of the palette's names, case-normalised and
without trailing whitespace, each with the full colour literals of its swatch. -/
theorem css_compress_same_associations (f g : Flags) (p : Palette)
    (hf : f.output_compress = false) (hg : g.output_compress = true)
    (hl : f.output_lowercase = g.output_lowercase) (hr : f.output_rgb = g.output_rgb) :
    ∃ u c, print_css f p = some u ∧ print_css g p = some c ∧
      parseCss u = parseCss c ∧
      ((∀ e ∈ p, ∀ ch ∈ e.1.data, ch ≠ '\x7b') →
        parseCss c = some (p.map fun e =>
          let lit := fun (col : Color) =>
            if f.output_rgb then
              "rgb(" ++ Nat.repr col.r.val ++ "," ++ Nat.repr col.g.val ++ ","
                ++ Nat.repr col.b.val ++ ")"
            else col.RGBHex
          ((⟨trimRight (if f.output_lowercase then ToLower e.1 else e.1).data⟩ : String),
            lit e.2.color, lit e.2.titleTextColor))) := by
  refine ⟨_, _, print_css_uncompressed_form f p hf, print_css_compressed_form g p hg, ?_, ?_⟩
  · rw [← hl, ← hr]
    unfold parseCss
    rw [concat_map_data, concat_map_data]
    have key := cssRun_texts
      (fun e : String × Swatch =>
        ("." ++ (if f.output_lowercase then ToLower e.1 else e.1) ++ " \x7b\n"
          ++ "  background-color: " ++ (if f.output_lowercase then ToLower (if f.output_rgb then
            "rgb(" ++ Nat.repr e.2.color.r.val ++ "," ++ Nat.repr e.2.color.g.val ++ ","
              ++ Nat.repr e.2.color.b.val ++ ")" else e.2.color.RGBHex)
            else (if f.output_rgb then
            "rgb(" ++ Nat.repr e.2.color.r.val ++ "," ++ Nat.repr e.2.color.g.val ++ ","
              ++ Nat.repr e.2.color.b.val ++ ")" else e.2.color.RGBHex)) ++ ";\n"
          ++ "  color: " ++ (if f.output_lowercase then ToLower (if f.output_rgb then
            "rgb(" ++ Nat.repr e.2.titleTextColor.r.val ++ ","
              ++ Nat.repr e.2.titleTextColor.g.val ++ ","
              ++ Nat.repr e.2.titleTextColor.b.val ++ ")" else e.2.titleTextColor.RGBHex)
            else (if f.output_rgb then
            "rgb(" ++ Nat.repr e.2.titleTextColor.r.val ++ ","
              ++ Nat.repr e.2.titleTextColor.g.val ++ ","
              ++ Nat.repr e.2.titleTextColor.b.val ++ ")" else e.2.titleTextColor.RGBHex))
          ++ ";\n" ++ "\x7d\n").data)
      (fun e : String × Swatch =>
        ("." ++ (if f.output_lowercase then ToLower e.1 else e.1) ++ "\x7bbackground-color:"
          ++ (if f.output_rgb then
            "rgb(" ++ Nat.repr e.2.color.r.val ++ "," ++ Nat.repr e.2.color.g.val ++ ","
              ++ Nat.repr e.2.color.b.val ++ ")"
            else (shorthex (if f.output_lowercase then ToLower e.2.color.RGBHex
              else e.2.color.RGBHex)).getD "")
          ++ ";color:" ++ (if f.output_rgb then
            "rgb(" ++ Nat.repr e.2.titleTextColor.r.val ++ ","
              ++ Nat.repr e.2.titleTextColor.g.val ++ ","
              ++ Nat.repr e.2.titleTextColor.b.val ++ ")"
            else (shorthex (if f.output_lowercase then ToLower e.2.titleTextColor.RGBHex
              else e.2.titleTextColor.RGBHex)).getD "") ++ "\x7d").data) p
      (by
        intro e _
        have a1 := lit_full_props f e.2.color
        have a2 := lit_full_props f e.2.titleTextColor
        have b1 := lit_short_props f e.2.color
        have b2 := lit_short_props f e.2.titleTextColor
        refine ⟨'.' :: (if f.output_lowercase then ToLower e.1 else e.1).data, _, _, ?_, ?_,
          fun r => cssRun_layouts _ _ _ _ a1.1 (data_ne_nil_of_head _ a1.2.1)
            a2.1 (data_ne_nil_of_head _ a2.2.1) b1.1 (data_ne_nil_of_head _ b1.2.1)
            b2.1 (data_ne_nil_of_head _ b2.2.1)
            (b1.2.2.trans a1.2.2.symm) (b2.2.2.trans a2.2.2.symm) r⟩
        · simp [String.data_append, cssProperty]
        · simp [String.data_append, cssProperty])
    exact congrArg (fun o : Option CssReader =>
      o.bind fun r => if r.pos = CssPos.start then some r.rules else none) (key _)
  · intro hnames
    rw [← hl, ← hr]
    unfold parseCss
    rw [concat_map_data]
    have key := cssRun_rules
      (fun e : String × Swatch =>
        ("." ++ (if f.output_lowercase then ToLower e.1 else e.1) ++ "\x7bbackground-color:"
          ++ (if f.output_rgb then
            "rgb(" ++ Nat.repr e.2.color.r.val ++ "," ++ Nat.repr e.2.color.g.val ++ ","
              ++ Nat.repr e.2.color.b.val ++ ")"
            else (shorthex (if f.output_lowercase then ToLower e.2.color.RGBHex
              else e.2.color.RGBHex)).getD "")
          ++ ";color:" ++ (if f.output_rgb then
            "rgb(" ++ Nat.repr e.2.titleTextColor.r.val ++ ","
              ++ Nat.repr e.2.titleTextColor.g.val ++ ","
              ++ Nat.repr e.2.titleTextColor.b.val ++ ")"
            else (shorthex (if f.output_lowercase then ToLower e.2.titleTextColor.RGBHex
              else e.2.titleTextColor.RGBHex)).getD "") ++ "\x7d").data)
      (fun e : String × Swatch =>
        ((⟨trimRight (if f.output_lowercase then ToLower e.1 else e.1).data⟩ : String),
          (if f.output_rgb then
            "rgb(" ++ Nat.repr e.2.color.r.val ++ "," ++ Nat.repr e.2.color.g.val ++ ","
              ++ Nat.repr e.2.color.b.val ++ ")" else e.2.color.RGBHex),
          (if f.output_rgb then
            "rgb(" ++ Nat.repr e.2.titleTextColor.r.val ++ ","
              ++ Nat.repr e.2.titleTextColor.g.val ++ ","
              ++ Nat.repr e.2.titleTextColor.b.val ++ ")" else e.2.titleTextColor.RGBHex))) p
      (by
        intro e he rules rest
        have b1 := lit_short_props f e.2.color
        have b2 := lit_short_props f e.2.titleTextColor
        have hN := css_norm_no_brace f e.1 (hnames e he)
        have h := cssRun_rule_compressed _ _ _ rest hN b1.1 (data_ne_nil_of_head _ b1.2.1)
          b2.1 (data_ne_nil_of_head _ b2.2.1) rules
        rw [b1.2.2, b2.2.2] at h
        exact h)
    rw [key []]
    rfl

set_option maxRecDepth 100000 in
theorem css_compress_same_associations_witness :
    ∃ u c, print_css ⟨false, false, true, false, true, false⟩
        [("Vibrant", ⟨⟨255, 0, 0⟩, 120, ⟨255, 255, 255⟩⟩),
         ("Dark ÉCLAT", ⟨⟨18, 52, 86⟩, 4, ⟨0, 0, 0⟩⟩)] = some u ∧
      print_css ⟨false, false, true, true, true, false⟩
        [("Vibrant", ⟨⟨255, 0, 0⟩, 120, ⟨255, 255, 255⟩⟩),
         ("Dark ÉCLAT", ⟨⟨18, 52, 86⟩, 4, ⟨0, 0, 0⟩⟩)] = some c ∧
      parseCss u = parseCss c ∧
      parseCss c = some [("vibrant", "#ff0000", "#ffffff"), ("dark éclat", "#123456", "#000000")] := by
  obtain ⟨u, c, h1, h2, h3, h4⟩ := css_compress_same_associations
    ⟨false, false, true, false, true, false⟩ ⟨false, false, true, true, true, false⟩
    [("Vibrant", ⟨⟨255, 0, 0⟩, 120, ⟨255, 255, 255⟩⟩),
     ("Dark ÉCLAT", ⟨⟨18, 52, 86⟩, 4, ⟨0, 0, 0⟩⟩)] rfl rfl rfl rfl
  exact ⟨u, c, h1, h2, h3, (h4 (by decide)).trans (by decide)⟩

theorem json_pretty_strip_eq_compact_witness :
    jsonStrip (json_str ⟨false, true, false, false, true, false⟩
      [("Vibrant", ⟨⟨255, 0, 0⟩, 120, ⟨255, 255, 255⟩⟩), ("Muted", ⟨⟨18, 52, 86⟩, 4, ⟨0, 0, 0⟩⟩)]) =
      "\x7b\"muted\":\x7b\"color\":\"#123456\",\"text\":\"#000000\"\x7d,\"vibrant\":\x7b\"color\":\"#ff0000\",\"text\":\"#ffffff\"\x7d\x7d" :=
  (json_pretty_strip_eq_compact ⟨false, true, false, false, true, false⟩
    ⟨false, true, false, true, true, false⟩
    [("Vibrant", ⟨⟨255, 0, 0⟩, 120, ⟨255, 255, 255⟩⟩), ("Muted", ⟨⟨18, 52, 86⟩, 4, ⟨0, 0, 0⟩⟩)]
    rfl rfl rfl rfl).1.trans (by decide)

/-- C13: rendering an empty palette never fails and gives an empty container, whatever
the flags: the JSON renderer writes the object `{}` followed by the newline, the CSS
renderer returns normally having written nothing, the plain renderer writes nothing. -/
theorem empty_palette_renders (f : Flags) :
    print_json f [] = "\x7b\x7d\n" ∧ print_css f [] = some "" ∧ print_plain f [] = "" := by
  refine ⟨?_, rfl, rfl⟩
  obtain ⟨i, j, c, cp, lc, r⟩ := f
  cases cp <;> cases lc <;> rfl

theorem ToLower_append (a b : String) : ToLower (a ++ b) = ToLower a ++ ToLower b := by
  apply String.ext
  simp [ToLower, String.data_append]

theorem char_toNat_lt (c : Char) : c.toNat < 0x110000 := by
  have h := c.valid
  simp only [UInt32.isValidChar, Nat.isValidChar] at h
  show c.val.toNat < 0x110000
  omega

theorem utf8EncodeRune_byte (c : Char) : ∀ b ∈ utf8EncodeRune c, b < 256 := by
  have hc := char_toNat_lt c
  intro b hb
  unfold utf8EncodeRune at hb
  simp only at hb
  split_ifs at hb <;> simp only [List.mem_cons, List.mem_nil_iff, or_false] at hb <;> omega

theorem bytesOf_byte (h : String) : ∀ b ∈ bytesOf h, b < 256 := by
  intro b hb
  simp only [bytesOf, List.mem_flatMap] at hb
  obtain ⟨c, _, hc⟩ := hb
  exact utf8EncodeRune_byte c b hc

set_option maxRecDepth 20000 in
theorem char_toNat_ofNat_byte : ∀ n : Fin 256, (Char.ofNat n.val).toNat = n.val := by
  decide

theorem stringOfByte_bytes (d : Nat) (hd : d < 256) :
    (d < 128 → bytesOf (stringOfByte d) = [d]) ∧
    1 ≤ (bytesOf (stringOfByte d)).length ∧ (bytesOf (stringOfByte d)).length ≤ 2 := by
  have ht : (Char.ofNat d).toNat = d := char_toNat_ofNat_byte ⟨d, hd⟩
  have hb : bytesOf (stringOfByte d) = utf8EncodeRune (Char.ofNat d) := by
    simp [bytesOf, stringOfByte, String.singleton]
  rw [hb]
  unfold utf8EncodeRune
  simp only [ht]
  refine ⟨?_, ?_, ?_⟩
  · intro h; simp [h]
  · split_ifs <;> simp
  · split_ifs <;> simp <;> omega

/-- C18, as stated, fails: the 7-byte text made of U+2000 (bytes E2 80 80) and `aabb`
passes the three comparisons, and `shorthex` returns `#` followed by the code points
numbered 0x80, 0x61, 0x62, a string of 5 bytes that is neither the input nor 4 bytes
long. -/
theorem shorthex_non_ascii_five_bytes :
    bytesOf "\u2000aabb" = [0xE2, 0x80, 0x80, 0x61, 0x61, 0x62, 0x62] ∧
    shorthex "\u2000aabb" = some "#\u0080ab" ∧
    bytesOf "#\u0080ab" = [0x23, 0xC2, 0x80, 0x61, 0x62] ∧
    ¬ ("#\u0080ab" = "\u2000aabb" ∨ (bytesOf "#\u0080ab").length = 4) := by
  refine ⟨by decide, by decide, by decide, by decide⟩

/-- C18, amended: on a text of at least 7 bytes `shorthex` never indexes out of range:
it returns a value, which is the text itself or `#` followed by the strings of the bytes
at indices 1, 3 and 5; that result has 4 to 7 bytes, exactly 4 when these three bytes
are ASCII.  On a shorter text the index checks can fail, as on its own result `#fff`. -/
theorem shorthex_returns_on_seven (h : String) (hlen : 7 ≤ (bytesOf h).length) :
    (∃ s, shorthex h = some s ∧
      (s = h ∨ ∃ d1 d3 d5 : Nat,
        (bytesOf h)[1]? = some d1 ∧ (bytesOf h)[3]? = some d3 ∧ (bytesOf h)[5]? = some d5 ∧
        s = "#" ++ stringOfByte d1 ++ stringOfByte d3 ++ stringOfByte d5 ∧
        4 ≤ (bytesOf s).length ∧ (bytesOf s).length ≤ 7 ∧
        (d1 < 128 → d3 < 128 → d5 < 128 → bytesOf s = [0x23, d1, d3, d5]))) ∧
    shorthex "#fff" = none := by
  refine ⟨?_, by decide⟩
  have hbyte := bytesOf_byte h
  obtain ⟨d0, d1, d2, d3, d4, d5, d6, rest, hb⟩ :
      ∃ d0 d1 d2 d3 d4 d5 d6 rest, bytesOf h = d0 :: d1 :: d2 :: d3 :: d4 :: d5 :: d6 :: rest := by
    match hm : bytesOf h, hlen with
    | d0 :: d1 :: d2 :: d3 :: d4 :: d5 :: d6 :: rest, _ => exact ⟨_, _, _, _, _, _, _, _, rfl⟩
    | [], hl => simp at hl
    | [_], hl => simp at hl
    | [_, _], hl => simp at hl
    | [_, _, _], hl => simp at hl
    | [_, _, _, _], hl => simp at hl
    | [_, _, _, _, _], hl => simp at hl
    | [_, _, _, _, _, _], hl => simp at hl
  have hs := shorthex_eval h d1 d2 d3 d4 d5 d6 rest d0 hb
  by_cases hc : d1 = d2 ∧ d3 = d4 ∧ d5 = d6
  · rw [if_pos hc] at hs
    refine ⟨_, hs, Or.inr ⟨d1, d3, d5, by simp [hb], by simp [hb], by simp [hb], rfl, ?_⟩⟩
    have h1 := stringOfByte_bytes d1 (hbyte d1 (by simp [hb]))
    have h3 := stringOfByte_bytes d3 (hbyte d3 (by simp [hb]))
    have h5 := stringOfByte_bytes d5 (hbyte d5 (by simp [hb]))
    have hbs : bytesOf ("#" ++ stringOfByte d1 ++ stringOfByte d3 ++ stringOfByte d5) =
        0x23 :: (bytesOf (stringOfByte d1) ++ (bytesOf (stringOfByte d3) ++
          bytesOf (stringOfByte d5))) := by
      simp only [bytesOf, String.data_append, List.flatMap_append, List.append_assoc]
      rfl
    rw [hbs]
    refine ⟨?_, ?_, ?_⟩
    · simp only [List.length_cons, List.length_append]; omega
    · simp only [List.length_cons, List.length_append]; omega
    · intro l1 l3 l5
      rw [h1.1 l1, h3.1 l3, h5.1 l5]
      rfl
  · rw [if_neg hc] at hs
    exact ⟨h, hs, Or.inl rfl⟩

theorem shorthex_returns_on_seven_witness :
    ∃ s, shorthex "#aabbcc-tail" = some s ∧
      (s = "#aabbcc-tail" ∨ ∃ d1 d3 d5 : Nat,
        (bytesOf "#aabbcc-tail")[1]? = some d1 ∧ (bytesOf "#aabbcc-tail")[3]? = some d3 ∧
        (bytesOf "#aabbcc-tail")[5]? = some d5 ∧
        s = "#" ++ stringOfByte d1 ++ stringOfByte d3 ++ stringOfByte d5 ∧
        4 ≤ (bytesOf s).length ∧ (bytesOf s).length ≤ 7 ∧
        (d1 < 128 → d3 < 128 → d5 < 128 → bytesOf s = [0x23, d1, d3, d5])) :=
  (shorthex_returns_on_seven "#aabbcc-tail" (by decide)).1

/-- C17, as stated, fails: with `-i -json -css` and a standard input that does not decode
as an image, the error check of line 71 panics before the flags are compared: the
outcome is a panic, not the usage error. -/
theorem main_both_flags_decode_error :
    main ⟨true, true, true, false, true, false⟩ ⟨"", false, true, none, none⟩ = Outcome.panic ∧
    main ⟨true, true, true, false, true, false⟩ ⟨"", false, true, none, none⟩ ≠ Outcome.usage := by
  decide

/-- C17, amended: when both the JSON and the CSS flag are set, no renderer writes anything
and the exit status is 2, whatever the other flags and the outside world; the outcome is
the usage error when no file name is given in file mode and when the image is decoded
and the palette extracted, and it is the panic of the failed step when decoding standard
input, opening the file or extracting the palette fails: these steps come before the
flags are compared. -/
theorem main_both_flags (f : Flags) (w : World)
    (hj : f.output_json = true) (hc : f.output_css = true) :
    (main f w).stdout = "" ∧ (main f w).exitCode = 2 ∧
    (main f w = Outcome.usage ∨ main f w = Outcome.panic) ∧
    (f.input_stdin = false → w.arg0 = "" → main f w = Outcome.usage) ∧
    ((f.input_stdin = true ∨ (w.arg0 ≠ "" ∧ w.open_err = false)) → w.decode_err = false →
      w.palette.isSome = true → main f w = Outcome.usage) ∧
    (f.input_stdin = true → w.decode_err = true → main f w = Outcome.panic) ∧
    (f.input_stdin = false → w.arg0 ≠ "" → w.open_err = true → main f w = Outcome.panic) ∧
    ((f.input_stdin = true ∨ w.arg0 ≠ "") → w.decode_err = false → w.palette = none →
      main f w = Outcome.panic) := by
  have hd : ∀ p, dispatch f p = Outcome.usage := by
    intro p; simp [dispatch, hj, hc, usage]
  have hr : ∀ e : Option Palette, render f e = if e.isSome then Outcome.usage else Outcome.panic := by
    intro e; cases e <;> simp [render, hd]
  obtain ⟨arg0, oe, de, pal, paln⟩ := w
  simp only [main, checkErr, hr, usage]
  cases hs : f.input_stdin <;> cases oe <;> cases de <;> cases pal <;>
    cases hn : paln.isSome <;> by_cases ha : arg0 = "" <;>
    simp [Outcome.stdout, Outcome.exitCode, ha, hn]

theorem main_both_flags_witness :
    main ⟨false, true, true, false, true, false⟩
      ⟨"image.png", false, false, some [("Vibrant", ⟨⟨255, 0, 0⟩, 120, ⟨255, 255, 255⟩⟩)], none⟩
      = Outcome.usage :=
  (main_both_flags ⟨false, true, true, false, true, false⟩
    ⟨"image.png", false, false, some [("Vibrant", ⟨⟨255, 0, 0⟩, 120, ⟨255, 255, 255⟩⟩)], none⟩
    rfl rfl).2.2.2.2.1 (Or.inr ⟨by decide, rfl⟩) rfl rfl

theorem digitChar_value : ∀ d : Fin 10, (Nat.digitChar d.val).toNat - 48 = d.val := by
  decide

theorem digitChar_nonzero : ∀ d : Fin 10, d.val ≠ 0 → Nat.digitChar d.val ≠ '0' := by
  decide

theorem toDigitsCore_value (fuel : Nat) : ∀ (n : Nat) (ds : List Char), n < fuel →
    (Nat.toDigitsCore 10 fuel n ds).foldl (fun acc c => acc * 10 + (c.toNat - 48)) 0 =
      ds.foldl (fun acc c => acc * 10 + (c.toNat - 48)) n := by
  induction fuel with
  | zero => intro n ds h; omega
  | succ k ih =>
    intro n ds h
    have hd := digitChar_value ⟨n % 10, Nat.mod_lt _ (by norm_num)⟩
    simp only at hd
    unfold Nat.toDigitsCore
    by_cases h0 : n / 10 = 0
    · simp only [h0, if_true, List.foldl_cons, hd]
      congr 1
      omega
    · simp only [h0, if_false]
      rw [ih (n / 10) _ (by omega), List.foldl_cons, hd]
      congr 1
      omega

theorem parseDec_repr (n : Nat) : parseDec (Nat.repr n).data = n := by
  unfold parseDec Nat.repr Nat.toDigits
  have := toDigitsCore_value (n + 1) n [] (by omega)
  simpa using this

theorem toDigitsCore_head (fuel : Nat) : ∀ (n : Nat) (ds : List Char), n < fuel → n ≠ 0 →
    ∃ c tl, Nat.toDigitsCore 10 fuel n ds = c :: tl ∧ c ≠ '0' := by
  induction fuel with
  | zero => intro n ds h; omega
  | succ k ih =>
    intro n ds h hn
    unfold Nat.toDigitsCore
    by_cases h0 : n / 10 = 0
    · simp only [h0, if_true]
      refine ⟨_, _, rfl, digitChar_nonzero ⟨n % 10, Nat.mod_lt _ (by norm_num)⟩ ?_⟩
      simp only
      omega
    · simp only [h0, if_false]
      exact ih (n / 10) _ (by omega) h0

theorem repr_head (n : Nat) (hn : n ≠ 0) : ∃ c tl, (Nat.repr n).data = c :: tl ∧ c ≠ '0' := by
  unfold Nat.repr Nat.toDigits
  exact toDigitsCore_head (n + 1) n [] (by omega) hn

theorem repr_ne_nil (n : Nat) : (Nat.repr n).data ≠ [] := by
  by_cases hn : n = 0
  · subst hn; decide
  · obtain ⟨c, tl, h, _⟩ := repr_head n hn
    rw [h]; simp

theorem repr_isDigit (n : Nat) : ∀ c ∈ (Nat.repr n).data, c.isDigit = true := by
  intro c hc
  have := repr_chars n c hc
  revert this
  generalize c = x
  revert x
  decide

theorem parseRgb_text (r g b : Nat) :
    parseRgb ("rgb(" ++ Nat.repr r ++ "," ++ Nat.repr g ++ "," ++ Nat.repr b ++ ")") =
      some (r, g, b) := by
  have hd : ("rgb(" ++ Nat.repr r ++ "," ++ Nat.repr g ++ "," ++ Nat.repr b ++ ")").data =
      "rgb(".data ++ ((Nat.repr r).data ++ ',' :: ((Nat.repr g).data ++ ',' ::
        ((Nat.repr b).data ++ ')' :: []))) := by
    simp [String.data_append]
  unfold parseRgb
  rw [hd, expect_append]
  simp only [Option.bind_eq_bind, Option.some_bind]
  rw [span_until Char.isDigit _ _ ',' (repr_isDigit r) (by decide)]
  simp only []
  rw [show expect [','] (',' :: ((Nat.repr g).data ++ ',' :: ((Nat.repr b).data ++ ')' :: []))) =
    some ((Nat.repr g).data ++ ',' :: ((Nat.repr b).data ++ ')' :: [])) from expect_append [','] _]
  simp only [Option.some_bind]
  rw [span_until Char.isDigit _ _ ',' (repr_isDigit g) (by decide)]
  simp only []
  rw [show expect [','] (',' :: ((Nat.repr b).data ++ ')' :: [])) =
    some ((Nat.repr b).data ++ ')' :: []) from expect_append [','] _]
  simp only [Option.some_bind]
  rw [span_until Char.isDigit _ _ ')' (repr_isDigit b) (by decide)]
  simp only []
  rw [show expect [')'] (')' :: []) = some [] from rfl]
  simp only [Option.some_bind, ne_eq, repr_ne_nil, not_false_eq_true, and_self, if_true,
    parseDec_repr, Option.pure_def]

theorem rgb_nat (r g b : Nat) :
    rgb [(r : Int), (g : Int), (b : Int)] =
      some ("rgb(" ++ Nat.repr r ++ "," ++ Nat.repr g ++ "," ++ Nat.repr b ++ ")") := by
  simp [rgb, fmtD]

/-- C16: for all channels r, g, b (in particular those in [0,255]) `rgb(r, g, b)` is
`rgb(` dec r `,` dec g `,` dec b `)`, where the numeral dec n is made of decimal digits
only, has no leading zero (it is `0` for 0), and has the value n; reading the text back
gives (r, g, b), so `rgb` is injective. -/
theorem rgb_format_round_trip (r g b : Nat) :
    rgb [(r : Int), (g : Int), (b : Int)] =
      some ("rgb(" ++ Nat.repr r ++ "," ++ Nat.repr g ++ "," ++ Nat.repr b ++ ")") ∧
    (∀ n : Nat, (∀ c ∈ (Nat.repr n).data, c.isDigit = true) ∧
      parseDec (Nat.repr n).data = n ∧
      (n ≠ 0 → ∃ c tl, (Nat.repr n).data = c :: tl ∧ c ≠ '0') ∧ Nat.repr 0 = "0") ∧
    (rgb [(r : Int), (g : Int), (b : Int)]).bind parseRgb = some (r, g, b) ∧
    (∀ r1 g1 b1 : Nat, rgb [(r : Int), (g : Int), (b : Int)] =
      rgb [(r1 : Int), (g1 : Int), (b1 : Int)] → r = r1 ∧ g = g1 ∧ b = b1) ∧
    rgb [255, 0, 12] = some "rgb(255,0,12)" := by
  refine ⟨rgb_nat r g b, ?_, ?_, ?_, by decide⟩
  · intro n
    exact ⟨repr_isDigit n, parseDec_repr n, repr_head n, rfl⟩
  · rw [rgb_nat, Option.some_bind, parseRgb_text]
  · intro r1 g1 b1 h
    have h1 := congrArg (fun o => Option.bind o parseRgb) h
    simp only [rgb_nat, Option.some_bind, parseRgb_text, Option.some.injEq,
      Prod.mk.injEq] at h1
    exact h1

theorem ltChars_irrefl (a : List Char) : ltChars a a = false := by
  induction a with
  | nil => rfl
  | cons c cs ih => simp [ltChars, ih]

theorem ltChars_trans : ∀ (a b c : List Char), ltChars a b = true → ltChars b c = true →
    ltChars a c = true := by
  intro a
  induction a with
  | nil =>
    intro b c h1 h2
    cases b with
    | nil => simp [ltChars] at h1
    | cons y ys =>
      cases c with
      | nil => simp [ltChars] at h2
      | cons z zs => rfl
  | cons x xs ih =>
    intro b c h1 h2
    cases b with
    | nil => simp [ltChars] at h1
    | cons y ys =>
      cases c with
      | nil => simp [ltChars] at h2
      | cons z zs =>
        simp only [ltChars] at h1 h2 ⊢
        by_cases hxy : x.toNat < y.toNat
        · by_cases hyz : y.toNat < z.toNat
          · have : x.toNat < z.toNat := by omega
            simp [this]
          · by_cases hyz2 : y.toNat = z.toNat
            · have : x.toNat < z.toNat := by omega
              simp [this]
            · simp [hyz, hyz2] at h2
        · by_cases hxy2 : x.toNat = y.toNat
          · simp only [hxy, hxy2, if_false, if_true] at h1
            by_cases hyz : y.toNat < z.toNat
            · have : x.toNat < z.toNat := by omega
              simp [this]
            · by_cases hyz2 : y.toNat = z.toNat
              · simp only [hyz, hyz2, if_false, if_true] at h2
                have h4 : x.toNat = z.toNat := by omega
                have h5 := ih ys zs (by simpa [hxy2] using h1) (by simpa using h2)
                simp [h4, h5]
              · simp [hyz, hyz2] at h2
          · simp [hxy, hxy2] at h1

theorem ltChars_total : ∀ (a b : List Char), ltChars a b = false → a ≠ b →
    ltChars b a = true := by
  intro a
  induction a with
  | nil =>
    intro b h1 h2
    cases b with
    | nil => exact absurd rfl h2
    | cons y ys => simp [ltChars] at h1
  | cons x xs ih =>
    intro b h1 h2
    cases b with
    | nil => rfl
    | cons y ys =>
      simp only [ltChars] at h1 ⊢
      by_cases hxy : x.toNat < y.toNat
      · simp [hxy] at h1
      · by_cases hxy2 : x.toNat = y.toNat
        · simp only [hxy, hxy2, if_false, if_true] at h1
          have hc : x = y := char_toNat_inj x y hxy2
          subst hc
          have h3 : xs ≠ ys := fun h => h2 (by rw [h])
          simp only [lt_irrefl, if_false, if_true]
          exact ih ys (by simpa using h1) h3
        · have : y.toNat < x.toNat := by omega
          simp [this]

theorem ltChars_asymm (a b : List Char) (h : ltChars a b = true) : ltChars b a = false := by
  by_contra h2
  have h3 : ltChars b a = true := by simpa using h2
  have := ltChars_trans a b a h h3
  rw [ltChars_irrefl] at this
  exact absurd this (by decide)

theorem mem_mapSet {α : Type} (m : List (String × α)) (k : String) (v : α) (x : String × α)
    (h : x ∈ mapSet m k v) : x = (k, v) ∨ x ∈ m := by
  induction m with
  | nil => simpa [mapSet] using h
  | cons e rest ih =>
    obtain ⟨k1, v1⟩ := e
    unfold mapSet at h
    split_ifs at h with h1 h2
    · rcases List.mem_cons.mp h with h | h
      · exact Or.inl h
      · exact Or.inr h
    · rcases List.mem_cons.mp h with h | h
      · exact Or.inl h
      · exact Or.inr (List.mem_cons_of_mem _ h)
    · rcases List.mem_cons.mp h with h | h
      · exact Or.inr (by rw [h]; exact List.mem_cons_self _ _)
      · rcases ih h with h | h
        · exact Or.inl h
        · exact Or.inr (List.mem_cons_of_mem _ h)

theorem mapSet_perm {α : Type} (m : List (String × α)) (k : String) (v : α)
    (h : k ∉ m.map Prod.fst) : (mapSet m k v).Perm ((k, v) :: m) := by
  induction m with
  | nil => simp [mapSet]
  | cons e rest ih =>
    obtain ⟨k1, v1⟩ := e
    simp only [List.map_cons, List.mem_cons, not_or] at h
    unfold mapSet
    split_ifs with h1 h2
    · exact List.Perm.refl _
    · exact absurd h2 h.1
    · exact ((ih h.2).cons (k1, v1)).trans (List.Perm.swap _ _ _)

theorem mapSet_sorted {α : Type} (m : List (String × α)) (k : String) (v : α)
    (h : m.Pairwise (fun a b => ltChars a.1.data b.1.data = true)) :
    (mapSet m k v).Pairwise (fun a b => ltChars a.1.data b.1.data = true) := by
  induction m with
  | nil => simp [mapSet]
  | cons e rest ih =>
    obtain ⟨k1, v1⟩ := e
    rw [List.pairwise_cons] at h
    unfold mapSet
    split_ifs with h1 h2
    · refine List.Pairwise.cons ?_ (List.Pairwise.cons h.1 h.2)
      intro x hx
      rcases List.mem_cons.mp hx with hx | hx
      · rw [hx]; exact h1
      · exact ltChars_trans _ _ _ h1 (h.1 x hx)
    · subst h2
      exact List.Pairwise.cons h.1 h.2
    · refine List.Pairwise.cons ?_ (ih h.2)
      intro x hx
      rcases mem_mapSet rest k v x hx with hx | hx
      · rw [hx]
        refine ltChars_total _ _ (by simpa using h1) ?_
        intro hd
        exact h2 (String.ext hd)
      · exact h.1 x hx

theorem foldl_mapSet_perm {α : Type} (val : Swatch → α) (p : Palette) :
    ∀ acc : List (String × α), (p.map Prod.fst).Nodup →
      (∀ e ∈ p, e.1 ∉ acc.map Prod.fst) →
      (p.foldl (fun out e => mapSet out e.1 (val e.2)) acc).Perm
        (acc ++ p.map fun e => (e.1, val e.2)) := by
  induction p with
  | nil => intro acc _ _; simp
  | cons a rest ih =>
    intro acc hnd hacc
    simp only [List.map_cons, List.nodup_cons] at hnd
    simp only [List.foldl_cons, List.map_cons]
    have hk : a.1 ∉ acc.map Prod.fst := hacc a (List.mem_cons_self _ _)
    have hp := mapSet_perm acc a.1 (val a.2) hk
    have hacc2 : ∀ e ∈ rest, e.1 ∉ (mapSet acc a.1 (val a.2)).map Prod.fst := by
      intro e he hmem
      have hmem2 := (hp.map Prod.fst).subset hmem
      simp only [List.map_cons, List.mem_cons] at hmem2
      rcases hmem2 with h | h
      · exact hnd.1 (by rw [← h]; exact List.mem_map_of_mem _ he)
      · exact hacc e (List.mem_cons_of_mem _ he) h
    refine (ih _ hnd.2 hacc2).trans ?_
    refine (hp.append_right _).trans ?_
    simp only [List.cons_append]
    exact List.perm_middle.symm

theorem foldl_mapSet_sorted {α : Type} (val : Swatch → α) (p : Palette) :
    ∀ acc : List (String × α), acc.Pairwise (fun a b => ltChars a.1.data b.1.data = true) →
      (p.foldl (fun out e => mapSet out e.1 (val e.2)) acc).Pairwise
        (fun a b => ltChars a.1.data b.1.data = true) := by
  induction p with
  | nil => intro acc h; exact h
  | cons a rest ih =>
    intro acc h
    exact ih _ (mapSet_sorted acc a.1 (val a.2) h)

theorem json_out_perm (f : Flags) (p : Palette) (hnd : (p.map Prod.fst).Nodup) :
    (json_out f p).Perm (p.map fun e => (e.1, json_value f e.2)) := by
  have := foldl_mapSet_perm (json_value f) p [] hnd (by simp)
  simpa [json_out] using this

theorem json_out_sorted (f : Flags) (p : Palette) :
    (json_out f p).Pairwise (fun a b => ltChars a.1.data b.1.data = true) :=
  foldl_mapSet_sorted (json_value f) p [] List.Pairwise.nil

theorem json_out_of_perm (f : Flags) (p q : Palette) (hnd : (p.map Prod.fst).Nodup)
    (hpq : p.Perm q) : json_out f p = json_out f q := by
  have hq : (q.map Prod.fst).Nodup := (hpq.map Prod.fst).nodup_iff.mp hnd
  have h1 := json_out_perm f p hnd
  have h2 := json_out_perm f q hq
  have h3 : (json_out f p).Perm (json_out f q) :=
    h1.trans ((hpq.map _).trans h2.symm)
  haveI : IsAntisymm (String × List (String × JLeaf))
      (fun a b => ltChars a.1.data b.1.data = true) :=
    ⟨fun a b hab hba => by
      rw [ltChars_asymm _ _ hab] at hba
      exact absurd hba (by decide)⟩
  exact List.eq_of_perm_of_sorted h3 (json_out_sorted f p) (json_out_sorted f q)

theorem json_value_members (f : Flags) (sw : Swatch) :
    json_value f sw =
      if f.output_rgb then
        [("b", JLeaf.num sw.color.b.val), ("g", JLeaf.num sw.color.g.val),
          ("r", JLeaf.num sw.color.r.val)]
      else
        [("Color", JLeaf.str sw.color.RGBHex), ("Text", JLeaf.str sw.titleTextColor.RGBHex)] := by
  cases hr : f.output_rgb
  · simp [json_value, hr]
  · simp only [json_value, hr, if_true, Color.RGB]
    rfl

theorem jsonQuote_RGBHex (c : Color) : jsonQuote c.RGBHex = "\"" ++ c.RGBHex ++ "\"" := by
  have h : ∀ ch ∈ c.RGBHex.data, jsonEscapeRune ch = [ch] := by
    intro ch hch
    have := RGBHex_chars c ch hch
    revert this
    generalize ch = x
    revert x
    decide
  have h2 : c.RGBHex.data.flatMap jsonEscapeRune = c.RGBHex.data := by
    generalize c.RGBHex.data = l at h
    induction l with
    | nil => rfl
    | cons a as ih =>
      rw [List.flatMap_cons, h a (List.mem_cons_self _ _),
        ih (fun x hx => h x (List.mem_cons_of_mem _ hx))]
      rfl
  apply String.ext
  simp [jsonQuote, String.data_append, h2]

theorem css_rule_isSome (f : Flags) (name : String) (sw : Swatch) :
    (css_rule f name sw).isSome = true := by
  cases hc : f.output_compress
  · rw [css_rule_uncompressed f name sw hc]; rfl
  · rw [css_rule_compressed f name sw hc]; rfl

theorem print_css_rules (f : Flags) (p : Palette) :
    print_css f p = some (concat (p.map fun e => (css_rule f e.1 e.2).getD "")) := by
  induction p with
  | nil => rfl
  | cons e rest ih =>
    obtain ⟨name, sw⟩ := e
    obtain ⟨s, hs⟩ := Option.isSome_iff_exists.mp (css_rule_isSome f name sw)
    simp only [print_css, ih, hs, List.map_cons, concat, Option.getD_some,
      Option.pure_def, Option.bind_eq_bind, Option.some_bind]

theorem print_plain_lines (f : Flags) (p : Palette) :
    print_plain f p = concat (p.map fun e => plain_line e.1 e.2) := by
  induction p with
  | nil => rfl
  | cons e rest ih =>
    obtain ⟨name, sw⟩ := e
    simp only [print_plain, ih, List.map_cons, concat]

/-- C14, as stated, fails: the palette with the swatches `Vibrant` and `Muted`, visited
in the two possible orders, gives two different plain outputs and two different CSS
outputs. -/
theorem plain_css_depend_on_order :
    ([("Vibrant", (⟨⟨255, 0, 0⟩, 120, ⟨255, 255, 255⟩⟩ : Swatch)),
        ("Muted", ⟨⟨18, 52, 86⟩, 4, ⟨0, 0, 0⟩⟩)] : Palette).Perm
      [("Muted", ⟨⟨18, 52, 86⟩, 4, ⟨0, 0, 0⟩⟩), ("Vibrant", ⟨⟨255, 0, 0⟩, 120, ⟨255, 255, 255⟩⟩)] ∧
    print_plain ⟨false, false, false, false, true, false⟩
        [("Vibrant", ⟨⟨255, 0, 0⟩, 120, ⟨255, 255, 255⟩⟩), ("Muted", ⟨⟨18, 52, 86⟩, 4, ⟨0, 0, 0⟩⟩)] =
      "     Vibrant: #ff0000, population: 120\n       Muted: #123456, population: 4\n" ∧
    print_plain ⟨false, false, false, false, true, false⟩
        [("Muted", ⟨⟨18, 52, 86⟩, 4, ⟨0, 0, 0⟩⟩), ("Vibrant", ⟨⟨255, 0, 0⟩, 120, ⟨255, 255, 255⟩⟩)] =
      "       Muted: #123456, population: 4\n     Vibrant: #ff0000, population: 120\n" ∧
    print_plain ⟨false, false, false, false, true, false⟩
        [("Vibrant", ⟨⟨255, 0, 0⟩, 120, ⟨255, 255, 255⟩⟩), ("Muted", ⟨⟨18, 52, 86⟩, 4, ⟨0, 0, 0⟩⟩)] ≠
      print_plain ⟨false, false, false, false, true, false⟩
        [("Muted", ⟨⟨18, 52, 86⟩, 4, ⟨0, 0, 0⟩⟩), ("Vibrant", ⟨⟨255, 0, 0⟩, 120, ⟨255, 255, 255⟩⟩)] ∧
    print_css ⟨false, false, true, true, true, false⟩
        [("Vibrant", ⟨⟨255, 0, 0⟩, 120, ⟨255, 255, 255⟩⟩), ("Muted", ⟨⟨18, 52, 86⟩, 4, ⟨0, 0, 0⟩⟩)] ≠
      print_css ⟨false, false, true, true, true, false⟩
        [("Muted", ⟨⟨18, 52, 86⟩, 4, ⟨0, 0, 0⟩⟩), ("Vibrant", ⟨⟨255, 0, 0⟩, 120, ⟨255, 255, 255⟩⟩)] := by
  refine ⟨List.Perm.swap _ _ _, by decide, by decide, by decide, by decide⟩

/-- C14, amended: for two iteration orders of the same palette (distinct names) and the
same flags, the JSON renderer writes the same text; the plain renderer and the CSS
renderer write one text per entry, in iteration order, so that their two outputs are
made of the same lines, respectively the same rules, in the respective orders. -/
theorem renderers_and_iteration_order (f : Flags) (p q : Palette)
    (hnd : (p.map Prod.fst).Nodup) (hpq : p.Perm q) :
    print_json f p = print_json f q ∧
    (print_plain f p = concat (p.map fun e => plain_line e.1 e.2) ∧
      print_plain f q = concat (q.map fun e => plain_line e.1 e.2) ∧
      (p.map fun e => plain_line e.1 e.2).Perm (q.map fun e => plain_line e.1 e.2)) ∧
    (print_css f p = some (concat (p.map fun e => (css_rule f e.1 e.2).getD "")) ∧
      print_css f q = some (concat (q.map fun e => (css_rule f e.1 e.2).getD "")) ∧
      (p.map fun e => (css_rule f e.1 e.2).getD "").Perm
        (q.map fun e => (css_rule f e.1 e.2).getD "") ∧
      ∀ e : String × Swatch, (css_rule f e.1 e.2).isSome = true) := by
  refine ⟨?_, ⟨print_plain_lines f p, print_plain_lines f q, hpq.map _⟩,
    ⟨print_css_rules f p, print_css_rules f q, hpq.map _, fun e => css_rule_isSome f e.1 e.2⟩⟩
  simp only [print_json, json_str, json_out_of_perm f p q hnd hpq]

theorem renderers_and_iteration_order_witness :
    print_json ⟨false, true, false, true, true, false⟩
        [("Vibrant", ⟨⟨255, 0, 0⟩, 120, ⟨255, 255, 255⟩⟩), ("Muted", ⟨⟨18, 52, 86⟩, 4, ⟨0, 0, 0⟩⟩)] =
      print_json ⟨false, true, false, true, true, false⟩
        [("Muted", ⟨⟨18, 52, 86⟩, 4, ⟨0, 0, 0⟩⟩), ("Vibrant", ⟨⟨255, 0, 0⟩, 120, ⟨255, 255, 255⟩⟩)] :=
  (renderers_and_iteration_order ⟨false, true, false, true, true, false⟩
    [("Vibrant", ⟨⟨255, 0, 0⟩, 120, ⟨255, 255, 255⟩⟩), ("Muted", ⟨⟨18, 52, 86⟩, 4, ⟨0, 0, 0⟩⟩)]
    [("Muted", ⟨⟨18, 52, 86⟩, 4, ⟨0, 0, 0⟩⟩), ("Vibrant", ⟨⟨255, 0, 0⟩, 120, ⟨255, 255, 255⟩⟩)]
    (by decide) (List.Perm.swap _ _ _)).1

theorem concat_count (c : Char) (l : List String) (h : ∀ s ∈ l, s.data.count c = 1) :
    (concat l).data.count c = l.length := by
  induction l with
  | nil => rfl
  | cons s rest ih =>
    simp only [concat, String.data_append, List.count_append, List.length_cons,
      h s (List.mem_cons_self _ _), ih (fun t ht => h t (List.mem_cons_of_mem _ ht))]
    omega

theorem plain_line_newlines (name : String) (sw : Swatch) (hname : ∀ ch ∈ name.data, ch ≠ '\n') :
    (plain_line name sw).data.count '\n' = 1 := by
  have h1 : sw.color.RGBHex.data.count '\n' = 0 := by
    rw [List.count_eq_zero]
    intro h
    have := RGBHex_chars _ _ h
    revert this; decide
  have h2 : (Nat.repr sw.population).data.count '\n' = 0 := by
    rw [List.count_eq_zero]
    intro h
    have := repr_chars _ _ h
    revert this; decide
  have h3 : name.data.count '\n' = 0 := by
    rw [List.count_eq_zero]
    intro h
    exact hname _ h rfl
  have h4 : (List.replicate (12 - name.length) ' ').count '\n' = 0 := by
    rw [List.count_eq_zero]
    intro h
    have := List.eq_of_mem_replicate h
    revert this; decide
  simp only [plain_line, fmtS12, fmtD, String.data_append, List.count_append, h1, h2, h3, h4]
  rfl

theorem count_zero_of_forall (c : Char) (l : List Char) (h : ∀ x ∈ l, x ≠ c) :
    l.count c = 0 := by
  rw [List.count_eq_zero]
  intro hm
  exact h c hm rfl

theorem css_norm_no_close (f : Flags) (name : String) (h : ∀ c ∈ name.data, c ≠ '\x7d') :
    ∀ c ∈ (if f.output_lowercase = true then ToLower name else name).data, c ≠ '\x7d' := by
  intro c hc
  split at hc
  · simp only [ToLower, List.mem_map] at hc
    obtain ⟨a, ha, rfl⟩ := hc
    intro hq
    exact h a ha ((toLowerRune_eq_iff a '\x7d' (by decide)).mp hq)
  · exact h c hc

theorem css_rule_closing_braces (f : Flags) (name : String) (sw : Swatch)
    (hname : ∀ ch ∈ name.data, ch ≠ '\x7d') :
    ((css_rule f name sw).getD "").data.count '\x7d' = 1 := by
  have hn := count_zero_of_forall '\x7d' _ (css_norm_no_close f name hname)
  cases hc : f.output_compress
  · rw [css_rule_uncompressed f name sw hc]
    have h1 := count_zero_of_forall '\x7d' _ (fun x hx => ((lit_full_props f sw.color).1 x hx).2.2.2)
    have h2 := count_zero_of_forall '\x7d' _
      (fun x hx => ((lit_full_props f sw.titleTextColor).1 x hx).2.2.2)
    simp only [Option.getD_some, String.data_append, List.count_append, hn, h1, h2]
    rfl
  · rw [css_rule_compressed f name sw hc]
    have h1 := count_zero_of_forall '\x7d' _ (fun x hx => ((lit_short_props f sw.color).1 x hx).2.2.2)
    have h2 := count_zero_of_forall '\x7d' _
      (fun x hx => ((lit_short_props f sw.titleTextColor).1 x hx).2.2.2)
    simp only [Option.getD_some, String.data_append, List.count_append, hn, h1, h2]
    rfl


theorem intercalate_go (s : String) (l : List String) : ∀ acc : String,
    String.intercalate.go acc s l = acc ++ concat (l.map fun a => s ++ a) := by
  induction l with
  | nil => intro acc; simp [String.intercalate.go, concat]
  | cons a as ih =>
    intro acc
    simp only [String.intercalate.go, ih, List.map_cons, concat, String.append_assoc]

theorem intercalate_cons_cons (s a b : String) (l : List String) :
    String.intercalate s (a :: b :: l) = a ++ s ++ String.intercalate s (b :: l) := by
  simp only [String.intercalate, intercalate_go, List.map_cons, concat, String.append_assoc]

theorem intercalate_cons (s a : String) (l : List String) (h : l ≠ []) :
    String.intercalate s (a :: l) = a ++ s ++ String.intercalate s l := by
  cases l with
  | nil => exact absurd rfl h
  | cons b rest => exact intercalate_cons_cons s a b rest

theorem jsonMembers_intercalate {α : Type} (enc : α → String) (ind colon sep : String)
    (ms : List (String × α)) :
    jsonMembers enc ind colon sep ms =
      String.intercalate sep (ms.map fun kv => ind ++ jsonQuote kv.1 ++ colon ++ enc kv.2) := by
  induction ms with
  | nil => rfl
  | cons kv rest ih =>
    obtain ⟨k, v⟩ := kv
    cases rest with
    | nil => rfl
    | cons kv2 rest2 =>
      rw [List.map_cons, intercalate_cons _ _ _ (by simp), ← ih]
      rfl

theorem ToLower_intercalate (s : String) (l : List String) :
    ToLower (String.intercalate s l) = String.intercalate (ToLower s) (l.map ToLower) := by
  induction l with
  | nil => rfl
  | cons a rest ih =>
    cases rest with
    | nil => rfl
    | cons b rest2 =>
      rw [intercalate_cons_cons, List.map_cons, List.map_cons, intercalate_cons_cons,
        ToLower_append, ToLower_append, ih, List.map_cons]

theorem mapSet_map {α β : Type} (g : α → β) (m : List (String × α)) (k : String) (v : α) :
    mapSet (m.map fun e => (e.1, g e.2)) k (g v) = (mapSet m k v).map fun e => (e.1, g e.2) := by
  induction m with
  | nil => rfl
  | cons e rest ih =>
    obtain ⟨k1, v1⟩ := e
    simp only [List.map_cons, mapSet]
    split_ifs
    · rfl
    · rfl
    · rw [List.map_cons, ← ih]

theorem foldl_mapSet_map {β : Type} (g : Swatch → β) (p : Palette) :
    ∀ acc : List (String × Swatch),
      p.foldl (fun out e => mapSet out e.1 (g e.2)) (acc.map fun e => (e.1, g e.2)) =
        (p.foldl (fun out e => mapSet out e.1 e.2) acc).map fun e => (e.1, g e.2) := by
  induction p with
  | nil => intro acc; rfl
  | cons a rest ih =>
    intro acc
    simp only [List.foldl_cons]
    rw [mapSet_map, ih]

/-- The map `out` of the JSON renderer holds the swatches of the palette, in the order
of their names. -/
theorem json_out_entries (f : Flags) (p : Palette) (hnd : (p.map Prod.fst).Nodup) :
    ∃ q : Palette, q.Perm p ∧ q.Pairwise (fun a b => ltChars a.1.data b.1.data = true) ∧
      json_out f p = q.map fun e => (e.1, json_value f e.2) := by
  refine ⟨p.foldl (fun out e => mapSet out e.1 e.2) [], ?_, ?_, ?_⟩
  · have := foldl_mapSet_perm (fun sw => sw) p [] hnd (by simp)
    simpa using this
  · exact foldl_mapSet_sorted (fun sw => sw) p [] List.Pairwise.nil
  · have := foldl_mapSet_map (json_value f) p []
    simpa [json_out] using this

theorem json_value_compact (f : Flags) (sw : Swatch) :
    jsonInnerCompact (json_value f sw) =
      if f.output_rgb then
        "\x7b\"b\":" ++ Nat.repr sw.color.b.val ++ ",\"g\":" ++ Nat.repr sw.color.g.val
          ++ ",\"r\":" ++ Nat.repr sw.color.r.val ++ "\x7d"
      else
        "\x7b\"Color\":\"" ++ sw.color.RGBHex ++ "\",\"Text\":\""
          ++ sw.titleTextColor.RGBHex ++ "\"\x7d" := by
  have q1 : jsonQuote "Color" = "\"Color\"" := by decide
  have q2 : jsonQuote "Text" = "\"Text\"" := by decide
  have q3 : jsonQuote "b" = "\"b\"" := by decide
  have q4 : jsonQuote "g" = "\"g\"" := by decide
  have q5 : jsonQuote "r" = "\"r\"" := by decide
  rw [json_value_members]
  cases hr : f.output_rgb
  · simp only [Bool.false_eq_true, if_false, jsonInnerCompact, jsonMembers, JLeaf.encode,
      jsonQuote_RGBHex, q1, q2]
    apply String.ext
    simp [String.data_append]
  · simp only [if_true, jsonInnerCompact, jsonMembers, JLeaf.encode, fmtD, q3, q4, q5]
    apply String.ext
    simp [String.data_append]

theorem json_value_indent (f : Flags) (sw : Swatch) :
    jsonInnerIndent (json_value f sw) =
      if f.output_rgb then
        "\x7b\n    \"b\": " ++ Nat.repr sw.color.b.val ++ ",\n    \"g\": "
          ++ Nat.repr sw.color.g.val ++ ",\n    \"r\": " ++ Nat.repr sw.color.r.val ++ "\n  \x7d"
      else
        "\x7b\n    \"Color\": \"" ++ sw.color.RGBHex ++ "\",\n    \"Text\": \""
          ++ sw.titleTextColor.RGBHex ++ "\"\n  \x7d" := by
  have q1 : jsonQuote "Color" = "\"Color\"" := by decide
  have q2 : jsonQuote "Text" = "\"Text\"" := by decide
  have q3 : jsonQuote "b" = "\"b\"" := by decide
  have q4 : jsonQuote "g" = "\"g\"" := by decide
  have q5 : jsonQuote "r" = "\"r\"" := by decide
  rw [json_value_members]
  cases hr : f.output_rgb
  · simp only [Bool.false_eq_true, if_false, jsonInnerIndent, jsonMembers, JLeaf.encode,
      jsonQuote_RGBHex, q1, q2]
    apply String.ext
    simp [String.data_append]
  · simp only [if_true, jsonInnerIndent, jsonMembers, JLeaf.encode, fmtD, q3, q4, q5]
    apply String.ext
    simp [String.data_append]

/-- The text of `json.Marshal` and of `json.MarshalIndent` on the map `out` built from the
swatches `q`: the members, one per swatch, joined by the separator of the layout. -/
theorem json_layout_text (f : Flags) (q : Palette) :
    (Marshal (q.map fun e => (e.1, json_value f e.2)) =
      "\x7b" ++ String.intercalate "," (q.map fun e =>
        jsonQuote e.1 ++ ":" ++ jsonInnerCompact (json_value f e.2)) ++ "\x7d") ∧
    (MarshalIndent (q.map fun e => (e.1, json_value f e.2)) =
      if q.isEmpty then "\x7b\x7d"
      else "\x7b\n" ++ String.intercalate ",\n" (q.map fun e =>
        "  " ++ jsonQuote e.1 ++ ": " ++ jsonInnerIndent (json_value f e.2)) ++ "\n\x7d") := by
  constructor
  · simp only [Marshal, jsonMembers_intercalate, List.map_map]
    rfl
  · cases q with
    | nil => rfl
    | cons e rest =>
      simp only [MarshalIndent, List.map_cons, jsonMembers_intercalate, List.map_map,
        List.isEmpty_cons, Bool.false_eq_true, if_false]
      rfl

theorem jsonMembers_chars {α : Type} (P : Char → Prop) (enc : α → String)
    (ind colon sep : String) (hind : ∀ c ∈ ind.data, P c) (hcolon : ∀ c ∈ colon.data, P c)
    (hsep : ∀ c ∈ sep.data, P c) (ms : List (String × α))
    (hk : ∀ kv ∈ ms, ∀ c ∈ (jsonQuote kv.1).data, P c)
    (hv : ∀ kv ∈ ms, ∀ c ∈ (enc kv.2).data, P c) :
    ∀ c ∈ (jsonMembers enc ind colon sep ms).data, P c := by
  induction ms with
  | nil => intro c hc; simp [jsonMembers] at hc
  | cons kv rest ih =>
    obtain ⟨k, v⟩ := kv
    have h1 := hk (k, v) (List.mem_cons_self _ _)
    have h2 := hv (k, v) (List.mem_cons_self _ _)
    cases rest with
    | nil =>
      intro c hc
      simp only [jsonMembers, String.data_append, List.mem_append] at hc
      rcases hc with ((h | h) | h) | h
      · exact hind c h
      · exact h1 c h
      · exact hcolon c h
      · exact h2 c h
    | cons kv2 rest2 =>
      intro c hc
      have ih2 := ih (fun x hx => hk x (List.mem_cons_of_mem _ hx))
        (fun x hx => hv x (List.mem_cons_of_mem _ hx))
      have e : jsonMembers enc ind colon sep ((k, v) :: kv2 :: rest2) =
          ind ++ jsonQuote k ++ colon ++ enc v ++ sep
            ++ jsonMembers enc ind colon sep (kv2 :: rest2) := rfl
      rw [e] at hc
      simp only [String.data_append, List.mem_append] at hc
      rcases hc with ((((h | h) | h) | h) | h) | h
      · exact hind c h
      · exact h1 c h
      · exact hcolon c h
      · exact h2 c h
      · exact hsep c h
      · exact ih2 c h

theorem jsonEscapeRune_ascii (ch : Char) (h : ch.toNat < 128) :
    ∀ c ∈ jsonEscapeRune ch, c.toNat < 128 := by
  intro c hc
  have d1 := (hexDigit_props (ch.toNat / 16)).1
  have d2 := (hexDigit_props ch.toNat).1
  unfold jsonEscapeRune at hc
  split_ifs at hc <;>
    simp only [List.mem_cons, List.mem_nil_iff, or_false] at hc <;>
    (first
      | (rcases hc with h1 | h1 | h1 | h1 | h1 | h1 <;> rw [h1] <;>
          first | exact d1 | exact d2 | decide)
      | (rcases hc with h1 | h1 <;> rw [h1] <;> decide)
      | (rw [hc]; exact h))

theorem jsonQuote_ascii (s : String) (h : ∀ c ∈ s.data, c.toNat < 128) :
    ∀ c ∈ (jsonQuote s).data, c.toNat < 128 := by
  intro c hc
  rw [jsonQuote_data] at hc
  simp only [List.mem_cons, List.mem_append, List.mem_flatMap, List.mem_nil_iff, or_false] at hc
  rcases hc with h1 | ⟨a, ha, h1⟩ | h1
  · rw [h1]; decide
  · exact jsonEscapeRune_ascii a (h a ha) c h1
  · rw [h1]; decide

theorem json_value_ascii (f : Flags) (sw : Swatch) :
    (∀ c ∈ (jsonInnerCompact (json_value f sw)).data, c.toNat < 128) ∧
    (∀ c ∈ (jsonInnerIndent (json_value f sw)).data, c.toNat < 128) := by
  have hd : ∀ n, ∀ c ∈ (Nat.repr n).data, c.toNat < 128 := by
    intro n c hc
    have := repr_chars n c hc
    revert this
    generalize c = x
    revert x
    decide
  have hx : ∀ col : Color, ∀ c ∈ col.RGBHex.data, c.toNat < 128 := by
    intro col c hc
    have := RGBHex_chars col c hc
    revert this
    generalize c = x
    revert x
    decide
  rw [json_value_compact, json_value_indent]
  constructor <;> (
    intro c hc
    split at hc <;>
      simp only [String.data_append, List.mem_append] at hc <;>
      (first
        | (rcases hc with (((((h | h) | h) | h) | h) | h) | h <;>
            first
              | exact hd _ c h
              | (revert h; generalize c = x; revert x; decide))
        | (rcases hc with (((h | h) | h) | h) | h <;>
            first
              | exact hx _ c h
              | (revert h; generalize c = x; revert x; decide))))

theorem foldl_mapSet_forall {α : Type} (val : Swatch → α) (Q : String × α → Prop) (p : Palette)
    (hQ : ∀ e ∈ p, Q (e.1, val e.2)) :
    ∀ acc : List (String × α), (∀ kv ∈ acc, Q kv) →
      ∀ kv ∈ p.foldl (fun out e => mapSet out e.1 (val e.2)) acc, Q kv := by
  induction p with
  | nil => intro acc hacc; exact hacc
  | cons a rest ih =>
    intro acc hacc
    simp only [List.foldl_cons]
    apply ih (fun e he => hQ e (List.mem_cons_of_mem _ he))
    intro kv hkv
    rcases mem_mapSet acc a.1 (val a.2) kv hkv with h | h
    · rw [h]; exact hQ a (List.mem_cons_self _ _)
    · exact hacc kv h

theorem print_json_ascii (g : Flags) (p : Palette) (hg : g.output_lowercase = false)
    (hnames : ∀ e ∈ p, ∀ c ∈ e.1.data, c.toNat < 128) :
    ∀ c ∈ (print_json g p).data, c.toNat < 128 := by
  have hout : ∀ kv ∈ json_out g p,
      (∀ c ∈ (jsonQuote kv.1).data, c.toNat < 128) ∧
      (∀ c ∈ (jsonInnerCompact kv.2).data, c.toNat < 128) ∧
      (∀ c ∈ (jsonInnerIndent kv.2).data, c.toNat < 128) := by
    exact foldl_mapSet_forall (json_value g)
      (fun kv => (∀ c ∈ (jsonQuote kv.1).data, c.toNat < 128) ∧
        (∀ c ∈ (jsonInnerCompact kv.2).data, c.toNat < 128) ∧
        (∀ c ∈ (jsonInnerIndent kv.2).data, c.toNat < 128)) p
      (fun e he => ⟨jsonQuote_ascii _ (hnames e he), (json_value_ascii g e.2).1,
        (json_value_ascii g e.2).2⟩) [] (by simp)
  intro c hc
  simp only [print_json, json_str, hg, Bool.false_eq_true, if_false, String.data_append,
    List.mem_append] at hc
  rcases hc with hc | hc
  · split at hc
    · simp only [Marshal, String.data_append, List.mem_append] at hc
      rcases hc with (h | h) | h
      · revert h; generalize c = x; revert x; decide
      · exact jsonMembers_chars (fun c => c.toNat < 128) _ _ _ _ (by decide) (by decide)
          (by decide) _ (fun kv hkv => (hout kv hkv).1) (fun kv hkv => (hout kv hkv).2.1) c h
      · revert h; generalize c = x; revert x; decide
    · unfold MarshalIndent at hc
      split at hc
      · revert hc; generalize c = x; revert x; decide
      · simp only [String.data_append, List.mem_append] at hc
        rcases hc with (h | h) | h
        · revert h; generalize c = x; revert x; decide
        · exact jsonMembers_chars (fun c => c.toNat < 128) _ _ _ _ (by decide) (by decide)
            (by decide) _ (fun kv hkv => (hout kv hkv).1) (fun kv hkv => (hout kv hkv).2.2) c h
        · revert h; generalize c = x; revert x; decide
  · revert hc; generalize c = x; revert x; decide

/-- The JSON output in closed form: the swatches in the order of their names, one member
each, in the compact or in the indented layout, every piece lower-cased when `lowercase`
is set. -/
theorem print_json_text (f : Flags) (p : Palette) (hnd : (p.map Prod.fst).Nodup) :
    ∃ q : Palette, q.Perm p ∧ q.Pairwise (fun a b => ltChars a.1.data b.1.data = true) ∧
      print_json f p =
        (if f.output_compress then
          "\x7b" ++ String.intercalate "," (q.map fun e =>
            css_case f (jsonQuote e.1) ++ ":"
              ++ css_case f (jsonInnerCompact (json_value f e.2))) ++ "\x7d"
        else if q.isEmpty then "\x7b\x7d"
        else "\x7b\n" ++ String.intercalate ",\n" (q.map fun e =>
            "  " ++ css_case f (jsonQuote e.1) ++ ": "
              ++ css_case f (jsonInnerIndent (json_value f e.2))) ++ "\n\x7d") ++ "\n" := by
  obtain ⟨q, hp, hs, hq⟩ := json_out_entries f p hnd
  refine ⟨q, hp, hs, ?_⟩
  have hl := json_layout_text f q
  have c1 : ToLower "\x7b" = "\x7b" := by decide
  have c2 : ToLower "\x7d" = "\x7d" := by decide
  have c3 : ToLower "," = "," := by decide
  have c4 : ToLower ":" = ":" := by decide
  have c5 : ToLower "\x7b\n" = "\x7b\n" := by decide
  have c6 : ToLower "\n\x7d" = "\n\x7d" := by decide
  have c7 : ToLower ",\n" = ",\n" := by decide
  have c8 : ToLower ": " = ": " := by decide
  have c9 : ToLower "  " = "  " := by decide
  have c10 : ToLower "\x7b\x7d" = "\x7b\x7d" := by decide
  unfold print_json json_str
  rw [hq, hl.1, hl.2]
  cases hc : f.output_compress <;> cases hlow : f.output_lowercase
  · simp only [css_case, hlow, Bool.false_eq_true, if_false]
  · cases q with
    | nil => simp only [List.isEmpty_nil, if_true, Bool.false_eq_true, if_false, c10]
    | cons e rest =>
      simp only [css_case, if_true, Bool.false_eq_true, if_false, List.isEmpty_cons,
        ToLower_append, ToLower_intercalate, List.map_map, c5, c6, c7]
      congr 3
      apply congrArg
      apply List.map_congr_left
      intro x _
      simp only [Function.comp, ToLower_append, c8, c9, hlow, if_true]
  · simp only [css_case, hlow, Bool.false_eq_true, if_false, if_true]
  · simp only [css_case, if_true, ToLower_append, ToLower_intercalate, List.map_map, c1, c2, c3]
    congr 3
    apply congrArg
    apply List.map_congr_left
    intro x _
    simp only [Function.comp, ToLower_append, c4, hlow, if_true]

/-- C11: with `lowercase` unset, for a palette (names distinct, as the keys of a map are)
and either setting of compress, the JSON output is one object with one member per swatch,
in the order of the names, keyed by the quoted name; the value of a member is, when
useRgbFunctional is set, the object with exactly the members `b`, `g`, `r` (the encoder's
key order) holding the channels of the swatch colour and nothing of the title text colour,
and otherwise the object with the two members `Color`, the hex literal of the colour, and
`Text`, the hex literal of the title text colour, in that order; with compress set the
text has no whitespace between tokens, with compress unset every member is on a line of
its own, indented by two spaces per level. -/
theorem print_json_members (f : Flags) (p : Palette) (hl : f.output_lowercase = false)
    (hnd : (p.map Prod.fst).Nodup) :
    (∃ q : Palette, q.Perm p ∧ q.Pairwise (fun a b => ltChars a.1.data b.1.data = true) ∧
      print_json f p =
        (if f.output_compress then
          "\x7b" ++ String.intercalate "," (q.map fun e =>
            jsonQuote e.1 ++ ":" ++
              (if f.output_rgb then
                "\x7b\"b\":" ++ Nat.repr e.2.color.b.val ++ ",\"g\":" ++ Nat.repr e.2.color.g.val
                  ++ ",\"r\":" ++ Nat.repr e.2.color.r.val ++ "\x7d"
              else
                "\x7b\"Color\":\"" ++ e.2.color.RGBHex ++ "\",\"Text\":\""
                  ++ e.2.titleTextColor.RGBHex ++ "\"\x7d")) ++ "\x7d"
        else if q.isEmpty then "\x7b\x7d"
        else "\x7b\n" ++ String.intercalate ",\n" (q.map fun e =>
            "  " ++ jsonQuote e.1 ++ ": " ++
              (if f.output_rgb then
                "\x7b\n    \"b\": " ++ Nat.repr e.2.color.b.val ++ ",\n    \"g\": "
                  ++ Nat.repr e.2.color.g.val ++ ",\n    \"r\": " ++ Nat.repr e.2.color.r.val
                  ++ "\n  \x7d"
              else
                "\x7b\n    \"Color\": \"" ++ e.2.color.RGBHex ++ "\",\n    \"Text\": \""
                  ++ e.2.titleTextColor.RGBHex ++ "\"\n  \x7d")) ++ "\n\x7d") ++ "\n") ∧
    print_json ⟨false, true, false, false, false, false⟩
        [("Vibrant", ⟨⟨255, 0, 0⟩, 120, ⟨255, 255, 255⟩⟩),
         ("a<\"b", ⟨⟨18, 52, 86⟩, 4, ⟨0, 0, 0⟩⟩)] =
      "\x7b\n  \"Vibrant\": \x7b\n    \"Color\": \"#ff0000\",\n    \"Text\": \"#ffffff\"\n  \x7d,\n  \"a\\u003c\\\"b\": \x7b\n    \"Color\": \"#123456\",\n    \"Text\": \"#000000\"\n  \x7d\n\x7d\n" ∧
    print_json ⟨false, true, false, false, false, true⟩
        [("Vibrant", ⟨⟨255, 0, 0⟩, 120, ⟨255, 255, 255⟩⟩),
         ("a<\"b", ⟨⟨18, 52, 86⟩, 4, ⟨0, 0, 0⟩⟩)] =
      "\x7b\n  \"Vibrant\": \x7b\n    \"b\": 0,\n    \"g\": 0,\n    \"r\": 255\n  \x7d,\n  \"a\\u003c\\\"b\": \x7b\n    \"b\": 86,\n    \"g\": 52,\n    \"r\": 18\n  \x7d\n\x7d\n" ∧
    print_json ⟨false, true, false, true, false, false⟩
        [("Vibrant", ⟨⟨255, 0, 0⟩, 120, ⟨255, 255, 255⟩⟩),
         ("a<\"b", ⟨⟨18, 52, 86⟩, 4, ⟨0, 0, 0⟩⟩)] =
      "\x7b\"Vibrant\":\x7b\"Color\":\"#ff0000\",\"Text\":\"#ffffff\"\x7d,\"a\\u003c\\\"b\":\x7b\"Color\":\"#123456\",\"Text\":\"#000000\"\x7d\x7d\n" ∧
    print_json ⟨false, true, false, true, false, true⟩
        [("Vibrant", ⟨⟨255, 0, 0⟩, 120, ⟨255, 255, 255⟩⟩),
         ("a<\"b", ⟨⟨18, 52, 86⟩, 4, ⟨0, 0, 0⟩⟩)] =
      "\x7b\"Vibrant\":\x7b\"b\":0,\"g\":0,\"r\":255\x7d,\"a\\u003c\\\"b\":\x7b\"b\":86,\"g\":52,\"r\":18\x7d\x7d\n" := by
  refine ⟨?_, by decide, by decide, by decide, by decide⟩
  obtain ⟨q, hp, hs, h⟩ := print_json_text f p hnd
  refine ⟨q, hp, hs, ?_⟩
  rw [h]
  simp only [css_case, hl, Bool.false_eq_true, if_false, json_value_compact, json_value_indent]

theorem print_json_members_witness :
    print_json ⟨false, true, false, false, false, false⟩
        [("Muted", ⟨⟨18, 52, 86⟩, 4, ⟨0, 0, 0⟩⟩)] =
      "\x7b\n  \"Muted\": \x7b\n    \"Color\": \"#123456\",\n    \"Text\": \"#000000\"\n  \x7d\n\x7d\n" := by
  obtain ⟨q, hp, _, h⟩ := (print_json_members ⟨false, true, false, false, false, false⟩
    [("Muted", ⟨⟨18, 52, 86⟩, 4, ⟨0, 0, 0⟩⟩)] rfl (by decide)).1
  rw [List.perm_singleton.mp hp] at h
  exact h.trans (by decide)

/-- C12, amended: for every palette and the same settings of compress and useRgbFunctional,
the JSON output with `lowercase` set is the lower-casing by `strings.ToLower` of the whole
JSON output with `lowercase` unset: the keys (swatch names, `Color`, `Text`) are lower-cased
along with the values, as for the swatch `Vibrant`, whose members come out as `vibrant`,
`color` and `text`.  `strings.ToLower` lower-cases every upper-case letter of Unicode; when
every name is ASCII the output is the ASCII lower-casing of the other one. -/
theorem print_json_lowercase_whole (f g : Flags) (p : Palette)
    (hf : f.output_lowercase = true) (hg : g.output_lowercase = false)
    (hc : f.output_compress = g.output_compress) (hr : f.output_rgb = g.output_rgb) :
    print_json f p = ToLower (print_json g p) ∧
    ((∀ e ∈ p, ∀ c ∈ e.1.data, c.toNat < 128) →
      print_json f p = asciiLower (print_json g p)) ∧
    print_json ⟨false, true, false, true, false, false⟩
        [("Vibrant", ⟨⟨255, 0, 0⟩, 120, ⟨255, 255, 255⟩⟩)] =
      "\x7b\"Vibrant\":\x7b\"Color\":\"#ff0000\",\"Text\":\"#ffffff\"\x7d\x7d\n" ∧
    print_json ⟨false, true, false, true, true, false⟩
        [("Vibrant", ⟨⟨255, 0, 0⟩, 120, ⟨255, 255, 255⟩⟩)] =
      "\x7b\"vibrant\":\x7b\"color\":\"#ff0000\",\"text\":\"#ffffff\"\x7d\x7d\n" := by
  have h1 : print_json f p = ToLower (print_json g p) := by
    simp only [print_json, json_str, hf, hg, hc, json_out_rgb_only f g hr p, if_true, if_false,
      Bool.false_eq_true, ToLower_append]
    rfl
  refine ⟨h1, ?_, by decide, by decide⟩
  intro hnames
  rw [h1]
  exact ToLower_ascii _ (print_json_ascii g p hg hnames)

set_option maxRecDepth 100000 in
theorem print_json_lowercase_whole_witness :
    print_json ⟨false, true, false, false, true, true⟩
        [("DarkMuted K\u212AİΣ", ⟨⟨18, 52, 86⟩, 4, ⟨0, 0, 0⟩⟩)] =
      "\x7b\n  \"darkmuted kkiσ\": \x7b\n    \"b\": 86,\n    \"g\": 52,\n    \"r\": 18\n  \x7d\n\x7d\n" :=
  (print_json_lowercase_whole ⟨false, true, false, false, true, true⟩
    ⟨false, true, false, false, false, true⟩
    [("DarkMuted K\u212AİΣ", ⟨⟨18, 52, 86⟩, 4, ⟨0, 0, 0⟩⟩)] rfl rfl rfl rfl).1.trans
    (by decide)

set_option maxRecDepth 100000 in
/-- C12, as stated, fails: for the swatch named `K`, Kelvin sign (U+212A), `İ` (U+0130),
`Σ` (U+03A3), the output with `lowercase` set has the key `kkiσ`, whereas the ASCII
lower-casing of the output with `lowercase` unset keeps the three non-ASCII letters. -/
theorem print_json_lowercase_not_ascii :
    print_json ⟨false, true, false, true, true, false⟩
        [("K\u212AİΣ", ⟨⟨1, 2, 3⟩, 5, ⟨0, 0, 0⟩⟩)] =
      "\x7b\"kkiσ\":\x7b\"color\":\"#010203\",\"text\":\"#000000\"\x7d\x7d\n" ∧
    asciiLower (print_json ⟨false, true, false, true, false, false⟩
        [("K\u212AİΣ", ⟨⟨1, 2, 3⟩, 5, ⟨0, 0, 0⟩⟩)]) =
      "\x7b\"k\u212AİΣ\":\x7b\"color\":\"#010203\",\"text\":\"#000000\"\x7d\x7d\n" ∧
    print_json ⟨false, true, false, true, true, false⟩
        [("K\u212AİΣ", ⟨⟨1, 2, 3⟩, 5, ⟨0, 0, 0⟩⟩)] ≠
      asciiLower (print_json ⟨false, true, false, true, false, false⟩
        [("K\u212AİΣ", ⟨⟨1, 2, 3⟩, 5, ⟨0, 0, 0⟩⟩)]) := by
  refine ⟨by decide, by decide, by decide⟩

/-- C15, amended: no renderer drops a swatch, whatever its name: for a palette of n entries
(names distinct, as the keys of a map are) and every setting of the flags, the plain output
is the concatenation of n line texts, one per entry in iteration order, each holding the
entry's name and ending with a newline (so it has exactly n newline characters when no
name holds one); the CSS output is the concatenation of n rule texts, one per entry, with
the entry's case-normalised name as selector (so it has exactly n closing braces when no
name holds one); the JSON text lists n members, one per entry in the order of the names,
each keyed by the quoted name, lower-cased when `lowercase` is set. -/
theorem no_swatch_dropped (f : Flags) (p : Palette) (hnd : (p.map Prod.fst).Nodup) :
    (print_plain f p = concat (p.map fun e =>
        ⟨List.replicate (12 - e.1.length) ' '⟩ ++ e.1 ++ ": " ++ e.2.color.RGBHex
          ++ ", population: " ++ Nat.repr e.2.population ++ "\n") ∧
      ((∀ e ∈ p, ∀ ch ∈ e.1.data, ch ≠ '\n') →
        (print_plain f p).data.count '\n' = p.length)) ∧
    (print_css f p = some (concat (p.map fun e =>
        let norm := fun (s : String) => if f.output_lowercase then ToLower s else s
        let rgbLit := fun (c : Color) =>
          "rgb(" ++ Nat.repr c.r.val ++ "," ++ Nat.repr c.g.val ++ "," ++ Nat.repr c.b.val ++ ")"
        if f.output_compress then
          "." ++ norm e.1 ++ "\x7bbackground-color:"
            ++ (if f.output_rgb then rgbLit e.2.color
                else (shorthex (norm e.2.color.RGBHex)).getD "")
            ++ ";color:"
            ++ (if f.output_rgb then rgbLit e.2.titleTextColor
                else (shorthex (norm e.2.titleTextColor.RGBHex)).getD "")
            ++ "\x7d"
        else
          "." ++ norm e.1 ++ " \x7b\n"
            ++ "  background-color: "
            ++ norm (if f.output_rgb then rgbLit e.2.color else e.2.color.RGBHex) ++ ";\n"
            ++ "  color: "
            ++ norm (if f.output_rgb then rgbLit e.2.titleTextColor
                else e.2.titleTextColor.RGBHex) ++ ";\n"
            ++ "\x7d\n")) ∧
      ((∀ e ∈ p, ∀ ch ∈ e.1.data, ch ≠ '\x7d') →
        ∀ out, print_css f p = some out → out.data.count '\x7d' = p.length)) ∧
    (∃ q : Palette, q.Perm p ∧ q.Pairwise (fun a b => ltChars a.1.data b.1.data = true) ∧
      print_json f p =
        (let norm := fun (s : String) => if f.output_lowercase then ToLower s else s
        if f.output_compress then
          "\x7b" ++ String.intercalate "," (q.map fun e =>
            norm (jsonQuote e.1) ++ ":" ++
              norm (if f.output_rgb then
                "\x7b\"b\":" ++ Nat.repr e.2.color.b.val ++ ",\"g\":" ++ Nat.repr e.2.color.g.val
                  ++ ",\"r\":" ++ Nat.repr e.2.color.r.val ++ "\x7d"
              else
                "\x7b\"Color\":\"" ++ e.2.color.RGBHex ++ "\",\"Text\":\""
                  ++ e.2.titleTextColor.RGBHex ++ "\"\x7d")) ++ "\x7d"
        else if q.isEmpty then "\x7b\x7d"
        else "\x7b\n" ++ String.intercalate ",\n" (q.map fun e =>
            "  " ++ norm (jsonQuote e.1) ++ ": " ++
              norm (if f.output_rgb then
                "\x7b\n    \"b\": " ++ Nat.repr e.2.color.b.val ++ ",\n    \"g\": "
                  ++ Nat.repr e.2.color.g.val ++ ",\n    \"r\": " ++ Nat.repr e.2.color.r.val
                  ++ "\n  \x7d"
              else
                "\x7b\n    \"Color\": \"" ++ e.2.color.RGBHex ++ "\",\n    \"Text\": \""
                  ++ e.2.titleTextColor.RGBHex ++ "\"\n  \x7d")) ++ "\n\x7d") ++ "\n") := by
  refine ⟨⟨print_plain_form f p, ?_⟩, ⟨?_, ?_⟩, ?_⟩
  · intro hnames
    rw [print_plain_lines, concat_count, List.length_map]
    intro s hs
    obtain ⟨e, he, rfl⟩ := List.mem_map.mp hs
    exact plain_line_newlines e.1 e.2 (hnames e he)
  · cases hc : f.output_compress
    · simp only [Bool.false_eq_true, if_false]
      exact print_css_uncompressed_form f p hc
    · simp only [if_true]
      exact print_css_compressed_form f p hc
  · intro hnames out hout
    rw [print_css_rules] at hout
    simp only [Option.some.injEq] at hout
    subst hout
    rw [concat_count, List.length_map]
    intro s hs
    obtain ⟨e, he, rfl⟩ := List.mem_map.mp hs
    exact css_rule_closing_braces f e.1 e.2 (hnames e he)
  · obtain ⟨q, hp, hs, h⟩ := print_json_text f p hnd
    refine ⟨q, hp, hs, ?_⟩
    rw [h]
    simp only [css_case, json_value_compact, json_value_indent]

theorem no_swatch_dropped_witness :
    (print_plain ⟨false, false, false, false, true, false⟩
      [("Vibrant", ⟨⟨255, 0, 0⟩, 120, ⟨255, 255, 255⟩⟩),
       ("not a known name", ⟨⟨18, 52, 86⟩, 4, ⟨0, 0, 0⟩⟩)]).data.count '\n' = 2 :=
  (no_swatch_dropped ⟨false, false, false, false, true, false⟩
    [("Vibrant", ⟨⟨255, 0, 0⟩, 120, ⟨255, 255, 255⟩⟩),
     ("not a known name", ⟨⟨18, 52, 86⟩, 4, ⟨0, 0, 0⟩⟩)] (by decide)).1.2 (by decide)

/-- C15, as stated, fails: a name is written verbatim, so the one-swatch palette with the
name `a`, newline, `b` gives a plain output of two lines, the one-swatch palette with the
name `a{}.b` a CSS output with two closing braces, and the two swatches `A` and `a` with
`lowercase` set a JSON text whose two members have the same key `a`. -/
theorem outputs_miscount_on_layout_names :
    ([("a\nb", ⟨⟨255, 0, 0⟩, 120, ⟨255, 255, 255⟩⟩)] : Palette).length = 1 ∧
    print_plain ⟨false, false, false, false, true, false⟩
        [("a\nb", ⟨⟨255, 0, 0⟩, 120, ⟨255, 255, 255⟩⟩)] =
      "         a\nb: #ff0000, population: 120\n" ∧
    (print_plain ⟨false, false, false, false, true, false⟩
      [("a\nb", ⟨⟨255, 0, 0⟩, 120, ⟨255, 255, 255⟩⟩)]).data.count '\n' = 2 ∧
    print_css ⟨false, false, true, true, true, false⟩
        [("a\x7b\x7d.b", ⟨⟨255, 0, 0⟩, 120, ⟨255, 255, 255⟩⟩)] =
      some ".a\x7b\x7d.b\x7bbackground-color:#f00;color:#fff\x7d" ∧
    (".a\x7b\x7d.b\x7bbackground-color:#f00;color:#fff\x7d".data.count '\x7d' = 2) ∧
    print_json ⟨false, true, false, true, true, false⟩
        [("A", ⟨⟨255, 0, 0⟩, 120, ⟨255, 255, 255⟩⟩), ("a", ⟨⟨18, 52, 86⟩, 4, ⟨0, 0, 0⟩⟩)] =
      "\x7b\"a\":\x7b\"color\":\"#ff0000\",\"text\":\"#ffffff\"\x7d,\"a\":\x7b\"color\":\"#123456\",\"text\":\"#000000\"\x7d\x7d\n" := by
  refine ⟨by decide, by decide, by decide, by decide, by decide, by decide⟩

end Vibrant
